import Mathlib

/-!
hpp-fcl: capsule narrow phase, collision dispatch and bounding-volume fitting.

A shallow embedding of

* `src/src/distance_capsule_capsule.cpp` (`ShapeShapeDistance<Capsule, Capsule>`,
  `ShapeShapeCollide<Capsule, Capsule>`),
* `src/src/collision.cpp` (`invertResults`, `collide`),
* `src/fcl/src/geometric_shapes_utility.cpp` (`computeBV<AABB>`, `computeBV<OBB>`,
  `computeAABB`),

followed by the properties proved about them.

Numbers. `FCL_REAL` / `BVH_REAL` are embedded as an arbitrary linearly ordered field `K`
(exact arithmetic: `ℚ` for evaluation, `ℝ` for the general statements). The square root
taken by `Vec3f::norm` is an explicit argument `sqrt : K → K`; statements that depend on
its value assume `IsSqrt sqrt`. A vector produced by a division whose divisor is zero has no
finite value (IEEE: NaN components); such a vector is embedded as `none`.
-/

/-! ## Vectors, matrices, transforms -/

/-- Three-component vector (`Vec3f`). -/
@[ext]
structure Vec3f (K : Type) where
  x : K
  y : K
  z : K
deriving DecidableEq, Repr

/-- Row-major 3x3 matrix (`Matrix3f`); `mij` is the entry of row `i`, column `j`. -/
structure Matrix3f (K : Type) where
  m00 : K
  m01 : K
  m02 : K
  m10 : K
  m11 : K
  m12 : K
  m20 : K
  m21 : K
  m22 : K
deriving DecidableEq, Repr

namespace Vec3f

variable {K : Type} [LinearOrderedField K]

instance : Zero (Vec3f K) := ⟨⟨0, 0, 0⟩⟩
instance : Add (Vec3f K) := ⟨fun u v => ⟨u.x + v.x, u.y + v.y, u.z + v.z⟩⟩
instance : Sub (Vec3f K) := ⟨fun u v => ⟨u.x - v.x, u.y - v.y, u.z - v.z⟩⟩
instance : Neg (Vec3f K) := ⟨fun u => ⟨-u.x, -u.y, -u.z⟩⟩
instance : HMul K (Vec3f K) (Vec3f K) := ⟨fun k v => ⟨k * v.x, k * v.y, k * v.z⟩⟩
instance : HDiv (Vec3f K) K (Vec3f K) := ⟨fun v k => ⟨v.x / k, v.y / k, v.z / k⟩⟩

/-- Scalar product (`dot`). -/
def dot (u v : Vec3f K) : K := u.x * v.x + u.y * v.y + u.z * v.z

/-- Squared Euclidean length. -/
def squaredNorm (u : Vec3f K) : K := u.dot u

/-- Euclidean length (`norm`), through the supplied square root. -/
def norm (sqrt : K → K) (u : Vec3f K) : K := sqrt u.squaredNorm

/-- Component `i` of a vector (`operator[]`), `i = 0, 1, 2`. -/
def get (u : Vec3f K) (i : Fin 3) : K :=
  match i with
  | 0 => u.x
  | 1 => u.y
  | 2 => u.z

/-- Vector product `u × v`. -/
def cross (u v : Vec3f K) : Vec3f K :=
  ⟨u.y * v.z - u.z * v.y, u.z * v.x - u.x * v.z, u.x * v.y - u.y * v.x⟩

end Vec3f

namespace Matrix3f

variable {K : Type} [LinearOrderedField K]

/-- Column `j` of the matrix (`col(j)`). -/
def col (m : Matrix3f K) (j : Fin 3) : Vec3f K :=
  match j with
  | 0 => ⟨m.m00, m.m10, m.m20⟩
  | 1 => ⟨m.m01, m.m11, m.m21⟩
  | 2 => ⟨m.m02, m.m12, m.m22⟩

/-- Row `i` of the matrix. -/
def row (m : Matrix3f K) (i : Fin 3) : Vec3f K :=
  match i with
  | 0 => ⟨m.m00, m.m01, m.m02⟩
  | 1 => ⟨m.m10, m.m11, m.m12⟩
  | 2 => ⟨m.m20, m.m21, m.m22⟩

/-- Matrix-vector product (`MxV`). -/
def MxV (m : Matrix3f K) (v : Vec3f K) : Vec3f K :=
  ⟨(m.row 0).dot v, (m.row 1).dot v, (m.row 2).dot v⟩

/-- The identity matrix. -/
def identity : Matrix3f K := ⟨1, 0, 0, 0, 1, 0, 0, 0, 1⟩

/-- Orthonormality of a rotation matrix: its rows are mutually orthogonal unit vectors. -/
def IsOrthonormal (m : Matrix3f K) : Prop :=
  (m.row 0).dot (m.row 0) = 1 ∧ (m.row 1).dot (m.row 1) = 1 ∧ (m.row 2).dot (m.row 2) = 1 ∧
  (m.row 0).dot (m.row 1) = 0 ∧ (m.row 0).dot (m.row 2) = 0 ∧ (m.row 1).dot (m.row 2) = 0

end Matrix3f

/-- The square root used by `norm` is exact on the non-negative numbers. -/
def IsSqrt {K : Type} [LinearOrderedField K] (sqrt : K → K) : Prop :=
  ∀ x : K, 0 ≤ x → 0 ≤ sqrt x ∧ sqrt x * sqrt x = x

namespace hpp.fcl

variable {K : Type} [LinearOrderedField K]

/-- Modelled from the spec: a rigid transform (`Transform3f`, math/transform.h, not under
src/) is a rotation matrix `R` (`getRotation ()`) and a translation vector `T`
(`getTranslation ()`). -/
structure Transform3f (K : Type) where
  R : Matrix3f K
  T : Vec3f K
deriving DecidableEq, Repr

/-- Modelled from the spec: a capsule (shape/geometric_shapes.h, not under src/) has a radius
and a half-length; these are the two fields the narrow phase reads (`capsule->radius`,
`capsule->halfLength`). -/
structure Capsule (K : Type) where
  radius : K
  halfLength : K
deriving DecidableEq, Repr

/-- Modelled from the spec: the request of a distance query (`DistanceRequest`,
collision_data.h, not under src/) holds the enable-nearest-points flag. -/
structure DistanceRequest where
  enable_nearest_points : Bool
deriving DecidableEq, Repr

/-- Modelled from the spec: the result of a distance query (`DistanceResult`,
collision_data.h, not under src/) holds the signed minimum distance, the nearest point pair
and the normal. A vector without a defined numeric value is `none`. -/
structure DistanceResult (K : Type) where
  min_distance : K
  nearest_points : Option (Vec3f K) × Option (Vec3f K)
  normal : Option (Vec3f K)
deriving DecidableEq, Repr

/-- Modelled from the spec: the threshold `100·machine-epsilon` of the degenerate branches,
`std::numeric_limits<FCL_REAL>::epsilon () * 100` at line 68. The type `FCL_REAL` is declared
in a header that is not under src/; it is taken to be the IEEE double, whose machine epsilon
is `2^-52`. -/
def EPSILON : K := 1 / 2 ^ 52 * 100

/-- The macro `CLAMP(value, l, u)`, line 40: `fmax(fmin(value, u), l)`. -/
def CLAMP (value l u : K) : K := max (min value u) l

/-- Lines 80-86: direction `d = 2 * halfLength * col(2)` of the medial segment. -/
def segmentDirection (o : Capsule K) (tf : Transform3f K) : Vec3f K :=
  (2 * o.halfLength) * tf.R.col 2

/-- Lines 85-86: starting point `p = c - d / 2` of the medial segment. -/
def segmentStart (o : Capsule K) (tf : Transform3f K) : Vec3f K :=
  tf.T - segmentDirection o tf / (2 : K)

/-- Lines 117-127: the first value of `s` in the branch where both segments are longer than
the threshold. -/
def firstPass (a b c e f : K) : K :=
  let denom := max (a * e - b * b) 0
  if denom > EPSILON then CLAMP ((b * f - c * e) / denom) 0 1 else 0

/-- Lines 129-139: `t` from the first value of `s`, and `s` recomputed when `t` leaves
`[0, 1]`. -/
def secondPass (a b c e f s : K) : K × K :=
  let t := (b * s + f) / e
  if t < 0 then (CLAMP (-c / a) 0 1, 0)
  else if t > 1 then (CLAMP ((b - c) / a) 0 1, 1)
  else (s, t)

/-- Lines 95-140: the parameters `(s, t)` of the closest points of the two segments. -/
def segmentParameters (a b c e f : K) : K × K :=
  if a ≤ EPSILON ∧ e ≤ EPSILON then (0, 0)
  else if a ≤ EPSILON then (0, CLAMP (f / e) 0 1)
  else if e ≤ EPSILON then (CLAMP (-c / a) 0 1, 0)
  else secondPass a b c e f (firstPass a b c e f)

/-- Lines 80-140: the parameters `(s, t)` computed for two placed capsules. -/
def capsuleParameters (o1 : Capsule K) (tf1 : Transform3f K)
    (o2 : Capsule K) (tf2 : Transform3f K) : K × K :=
  let d1 := segmentDirection o1 tf1
  let d2 := segmentDirection o2 tf2
  let p1 := segmentStart o1 tf1
  let p2 := segmentStart o2 tf2
  let r := p1 - p2
  segmentParameters (d1.dot d1) (d1.dot d2) (d1.dot r) (d2.dot d2) (d2.dot r)

/-- Lines 143-144: the witness points `w1 = p1 + s * d1`, `w2 = p2 + t * d2`. -/
def witnessPoints (o1 : Capsule K) (tf1 : Transform3f K)
    (o2 : Capsule K) (tf2 : Transform3f K) : Vec3f K × Vec3f K :=
  let st := capsuleParameters o1 tf1 o2 tf2
  (segmentStart o1 tf1 + st.1 * segmentDirection o1 tf1,
   segmentStart o2 tf2 + st.2 * segmentDirection o2 tf2)

/-- Line 146: `(w1 - w2) / distance`; no finite value when the divisor is zero. -/
def divideByDistance (v : Vec3f K) (distance : K) : Option (Vec3f K) :=
  if distance = 0 then none else some (v / distance)

/-- The function `ShapeShapeDistance <Capsule, Capsule>`, lines 59-159: the returned distance
and the updated result. The solver argument is unnamed and unused in the source. -/
def ShapeShapeDistance (sqrt : K → K) (o1 : Capsule K) (tf1 : Transform3f K)
    (o2 : Capsule K) (tf2 : Transform3f K) (request : DistanceRequest)
    (result : DistanceResult K) : K × DistanceResult K :=
  let radius1 := o1.radius
  let radius2 := o2.radius
  let w := witnessPoints o1 tf1 o2 tf2
  let w1 := w.1
  let w2 := w.2
  let distance := (w1 - w2).norm sqrt
  let normal := divideByDistance (w1 - w2) distance
  let distance := distance - (radius1 + radius2)
  let nearest_points :=
    if request.enable_nearest_points then
      (normal.map (fun n => w1 - radius1 * n), normal.map (fun n => w2 + radius2 * n))
    else result.nearest_points
  (distance, { min_distance := distance, nearest_points := nearest_points, normal := normal })

/-- The point `p + u * d` of the medial segment of a placed capsule at parameter `u`:
`P(s) = p1 + s·d1`, `Q(t) = p2 + t·d2`. -/
def segmentPoint (o : Capsule K) (tf : Transform3f K) (u : K) : Vec3f K :=
  segmentStart o tf + u * segmentDirection o tf

/-- First-order optimality conditions of `(s, t)` on the unit square for the squared distance
`|r + s·d1 - t·d2|²`, written with the five scalar products. -/
def IsStationary (a b c e f s t : K) : Prop :=
  (0 ≤ s ∧ s ≤ 1) ∧ (0 ≤ t ∧ t ≤ 1) ∧
  (0 < s → a * s - b * t + c ≤ 0) ∧ (s < 1 → 0 ≤ a * s - b * t + c) ∧
  (0 < t → e * t - b * s - f ≤ 0) ∧ (t < 1 → 0 ≤ e * t - b * s - f)

/-- No quantity compared with the threshold lies in the gap between zero and the threshold:
each squared segment length, and the Gram determinant `a·e - b²`, is zero or exceeds
`EPSILON`. -/
def ThresholdFree (o1 : Capsule K) (tf1 : Transform3f K)
    (o2 : Capsule K) (tf2 : Transform3f K) : Prop :=
  let d1 := segmentDirection o1 tf1
  let d2 := segmentDirection o2 tf2
  (d1.dot d1 = 0 ∨ EPSILON < d1.dot d1) ∧ (d2.dot d2 = 0 ∨ EPSILON < d2.dot d2) ∧
  (d1.dot d1 * d2.dot d2 - d1.dot d2 * d1.dot d2 = 0 ∨
    EPSILON < d1.dot d1 * d2.dot d2 - d1.dot d2 * d1.dot d2)

/-- The two medial segments have positive length and parallel directions (zero Gram
determinant): the configurations in which the closest pair of points need not be unique. -/
def ParallelSegments (o1 : Capsule K) (tf1 : Transform3f K)
    (o2 : Capsule K) (tf2 : Transform3f K) : Prop :=
  let d1 := segmentDirection o1 tf1
  let d2 := segmentDirection o2 tf2
  d1.dot d1 ≠ 0 ∧ d2.dot d2 ≠ 0 ∧ d1.dot d1 * d2.dot d2 - d1.dot d2 * d1.dot d2 = 0

/-! ### Collision records (`collision_data.h`, `collision_data.cpp`) -/

/-- Modelled from the spec: the solver-type selector of a request. The enumeration is declared
in collision_data.h (not under src/); the code under src/ names `GST_INDEP` only and treats
every other value alike. -/
inductive GJKSolverType where
  | GST_INDEP
  | GST_OTHER (code : Nat)
deriving DecidableEq, Repr

/-- Request of a collision query; the fields are those initialised by the constructor in
collision_data.cpp, lines 55-69. -/
structure CollisionRequest (K : Type) where
  num_max_contacts : Nat
  enable_contact : Bool
  enable_distance_lower_bound : Bool
  gjk_solver_type : GJKSolverType
  security_margin : K
  break_distance : K
  enable_cached_gjk_guess : Bool
  cached_gjk_guess : Vec3f K
deriving DecidableEq, Repr

/-- Modelled from the spec: a contact (`Contact`, collision_data.h, not under src/) holds the
two object references, the two body indices, the normal, the position and the penetration
depth. A field without a defined numeric value holds `none`. -/
structure Contact (G K : Type) where
  o1 : G
  o2 : G
  b1 : Int
  b2 : Int
  normal : Option (Vec3f K)
  pos : Option (Vec3f K)
  penetration_depth : Option K
deriving DecidableEq, Repr

/-- Modelled from the spec: the result of a collision query (`CollisionResult`,
collision_data.h, not under src/) is the ordered sequence of contacts, with the distance lower
bound that `collide` assigns at line 84. -/
structure CollisionResult (G K : Type) where
  contacts : List (Contact G K)
  distance_lower_bound : K
deriving DecidableEq, Repr

/-- Modelled from the spec: `CollisionResult::addContact` (collision_data.h, not under src/)
appends the contact to the ordered sequence of contacts. -/
def CollisionResult.addContact {G : Type} (result : CollisionResult G K) (c : Contact G K) :
    CollisionResult G K :=
  { result with contacts := result.contacts ++ [c] }

/-- What the constructors `DistanceResult ()` and `Contact (o1, o2, b1, b2)` (collision_data.h,
not under src/) leave in the fields that the code under src/ reads without assigning. -/
structure Defaults (K : Type) where
  min_distance : K
  nearest_points : Option (Vec3f K) × Option (Vec3f K)
  normal : Option (Vec3f K)
  penetration_depth : Option K
deriving DecidableEq, Repr

/-- Line 184: `0.5 * (p1 + p2)` on two points that may lack a defined value. -/
def midpoint (p1 p2 : Option (Vec3f K)) : Option (Vec3f K) :=
  match p1, p2 with
  | some u, some v => some ((1 / 2 : K) * (u + v))
  | _, _ => none

/-- Lines 168-173 and 181-185: the contact built from the distance query that
`ShapeShapeCollide <Capsule, Capsule>` runs on a default-constructed `DistanceResult`. -/
def capsuleContact (sqrt : K → K) (dflt : Defaults K)
    (o1 : Capsule K) (tf1 : Transform3f K) (o2 : Capsule K) (tf2 : Transform3f K)
    (request : CollisionRequest K) : Contact (Capsule K) K :=
  let distanceResult : DistanceResult K :=
    { min_distance := dflt.min_distance, nearest_points := dflt.nearest_points,
      normal := dflt.normal }
  let distanceRequest : DistanceRequest := ⟨request.enable_contact⟩
  let distanceResult := (ShapeShapeDistance sqrt o1 tf1 o2 tf2 distanceRequest distanceResult).2
  let p1 := distanceResult.nearest_points.1
  let p2 := distanceResult.nearest_points.2
  { o1 := o1, o2 := o2, b1 := -1, b2 := -1, normal := distanceResult.normal,
    pos := midpoint p1 p2, penetration_depth := dflt.penetration_depth }

/-- The function `ShapeShapeCollide <Capsule, Capsule>`, lines 161-189: the returned number of
contacts and the updated result. The solver argument is unnamed and unused in the source. -/
def ShapeShapeCollide {S : Type} (sqrt : K → K) (dflt : Defaults K)
    (o1 : Capsule K) (tf1 : Transform3f K) (o2 : Capsule K) (tf2 : Transform3f K)
    (_nsolver : S) (request : CollisionRequest K) (result : CollisionResult (Capsule K) K) :
    Nat × CollisionResult (Capsule K) K :=
  let distanceResult : DistanceResult K :=
    { min_distance := dflt.min_distance, nearest_points := dflt.nearest_points,
      normal := dflt.normal }
  let distanceRequest : DistanceRequest := ⟨request.enable_contact⟩
  let distance := (ShapeShapeDistance sqrt o1 tf1 o2 tf2 distanceRequest distanceResult).1
  if distance > 0 then (0, result)
  else (1, result.addContact (capsuleContact sqrt dflt o1 tf1 o2 tf2 request))

/-! ### Reference notions of the specification -/

/-- The lengths `|P(s) - Q(t)|` over `s, t ∈ [0, 1]` between the two medial segments. -/
def segmentDistances (sqrt : K → K) (o1 : Capsule K) (tf1 : Transform3f K)
    (o2 : Capsule K) (tf2 : Transform3f K) : Set K :=
  {x | ∃ s t : K, (0 ≤ s ∧ s ≤ 1) ∧ (0 ≤ t ∧ t ≤ 1) ∧
    x = (segmentPoint o1 tf1 s - segmentPoint o2 tf2 t).norm sqrt}

/-- The value `v` is the minimum over `s, t ∈ [0, 1]` of `|P(s) - Q(t)|`, minus the sum of the
two radii. -/
def IsCapsuleDistance (sqrt : K → K) (o1 : Capsule K) (tf1 : Transform3f K)
    (o2 : Capsule K) (tf2 : Transform3f K) (v : K) : Prop :=
  ∃ m : K, IsLeast (segmentDistances sqrt o1 tf1 o2 tf2) m ∧ v = m - (o1.radius + o2.radius)

/-- The lengths `|q - P(u)|` over `u ∈ [0, 1]` from a point to a medial segment. -/
def pointSegmentDistances (sqrt : K → K) (q : Vec3f K) (o : Capsule K) (tf : Transform3f K) :
    Set K :=
  {x | ∃ u : K, (0 ≤ u ∧ u ≤ 1) ∧ x = (q - segmentPoint o tf u).norm sqrt}

/-! ### Dispatch (`collision.cpp`) -/

/-- Modelled from the spec: the object type tag (`getObjectType`), a plain primitive
(`OT_GEOM`) or a hierarchical-structure node (`OT_BVH`). The enumeration is declared in
collision_object.h (not under src/); the code under src/ names these two enumerators and
treats the rest alike. -/
inductive OBJECT_TYPE where
  | OT_GEOM
  | OT_BVH
  | OT_OTHER (code : Nat)
deriving DecidableEq, Repr

/-- Modelled from the spec: the node type tag (`getNodeType`, enumeration declared in
collision_object.h, not under src/), used as an index of the function matrix. -/
abbrev NODE_TYPE := Nat

/-- The two tags `collide` reads from a geometry (`const CollisionGeometry*`). -/
class CollisionGeometry (G : Type) where
  getObjectType : G → OBJECT_TYPE
  getNodeType : G → NODE_TYPE

/-- Signature of an entry of the function matrix: two placed geometries, a solver, a request
and the in-out result; the entry returns a number of contacts. -/
abbrev CollisionFunc (G S K : Type) :=
  G → Transform3f K → G → Transform3f K → S → CollisionRequest K → CollisionResult G K →
    Nat × CollisionResult G K

/-- Modelled from the spec: the table `CollisionFunctionMatrix` (collision_func_matrix.h, not
under src/) is a square table indexed by two node types; each cell optionally holds the
algorithm of that ordered pair. -/
structure CollisionFunctionMatrix (G S K : Type) where
  collision_matrix : NODE_TYPE → NODE_TYPE → Option (CollisionFunc G S K)

/-- The function `invertResults`, lines 56-71. -/
def invertResults {G : Type} (result : CollisionResult G K) : CollisionResult G K :=
  { result with
    contacts := result.contacts.map (fun it => { it with o1 := it.o2, o2 := it.o1,
                                                         b1 := it.b2, b2 := it.b1 }) }

/-- The function `collide` with a solver handle, lines 73-127. `looktable` is the table
returned by `getCollisionFunctionLookTable ()`; a null `nsolver_` is `none` and is replaced by
a default-constructed solver. -/
def collide {G S : Type} [CollisionGeometry G] [Inhabited S]
    (looktable : CollisionFunctionMatrix G S K)
    (o1 : G) (tf1 : Transform3f K) (o2 : G) (tf2 : Transform3f K)
    (nsolver_ : Option S) (request : CollisionRequest K) (result : CollisionResult G K) :
    Nat × CollisionResult G K :=
  let nsolver : S := nsolver_.getD default
  let result := { result with distance_lower_bound := -1 }
  if request.num_max_contacts = 0 then (0, result)
  else
    let object_type1 := CollisionGeometry.getObjectType o1
    let object_type2 := CollisionGeometry.getObjectType o2
    let node_type1 := CollisionGeometry.getNodeType o1
    let node_type2 := CollisionGeometry.getNodeType o2
    if object_type1 = OBJECT_TYPE.OT_GEOM ∧ object_type2 = OBJECT_TYPE.OT_BVH then
      match looktable.collision_matrix node_type2 node_type1 with
      | none => (0, result)
      | some fn =>
        let out := fn o2 tf2 o1 tf1 nsolver request result
        (out.1, invertResults out.2)
    else
      match looktable.collision_matrix node_type1 node_type2 with
      | none => (0, result)
      | some fn => fn o1 tf1 o2 tf2 nsolver request result

/-! ### Reference notions and example inputs for the dispatch -/

/-- The inversion named by the specification: the two object references and the two body
indices are swapped and the sign of the normal is reversed. -/
def invertWithNormal {G : Type} (c : Contact G K) : Contact G K :=
  { c with o1 := c.o2, o2 := c.o1, b1 := c.b2, b2 := c.b1,
           normal := c.normal.map (fun n => -n) }

/-- A geometry reduced to the two tags that `collide` reads. -/
structure TaggedGeometry where
  object_type : OBJECT_TYPE
  node_type : NODE_TYPE
deriving DecidableEq, Repr

instance : CollisionGeometry TaggedGeometry :=
  ⟨fun g => g.object_type, fun g => g.node_type⟩

/-- A table entry that reports one contact between its operands, with normal (1, 0, 0). -/
def reportOne : CollisionFunc TaggedGeometry Unit K :=
  fun o1 _ o2 _ _ _ result =>
    (1, result.addContact ⟨o1, o2, -1, -1, some ⟨1, 0, 0⟩, some ⟨0, 0, 0⟩, some 0⟩)

/-- The table whose only entry is `reportOne`, in the cell of the ordered pair `(X, Y)`. -/
def singleEntryTable (X Y : NODE_TYPE) : CollisionFunctionMatrix TaggedGeometry Unit K :=
  ⟨fun i j => if i = X ∧ j = Y then some reportOne else none⟩

/-- A request for one contact, with the remaining fields as the constructor of
collision_data.cpp sets them. -/
def requestOne : CollisionRequest K :=
  { num_max_contacts := 1, enable_contact := true, enable_distance_lower_bound := false,
    gjk_solver_type := GJKSolverType.GST_INDEP, security_margin := 0,
    break_distance := 1 / 1000, enable_cached_gjk_guess := false,
    cached_gjk_guess := ⟨1, 0, 0⟩ }

/-- The identity transform. -/
def Transform3f.identity : Transform3f K := ⟨Matrix3f.identity, ⟨0, 0, 0⟩⟩

/-! ### The remaining overloads of `collide` (`collision.cpp`, lines 129-167) -/

/-- Lines 98-100 and 113: the cell of the table that `collide` looks up for two geometries,
`[node_type2][node_type1]` for a plain primitive against a hierarchical node and
`[node_type1][node_type2]` otherwise. -/
def lookedUpCell {G S : Type} [CollisionGeometry G] (looktable : CollisionFunctionMatrix G S K)
    (o1 o2 : G) : Option (CollisionFunc G S K) :=
  if CollisionGeometry.getObjectType o1 = OBJECT_TYPE.OT_GEOM ∧
      CollisionGeometry.getObjectType o2 = OBJECT_TYPE.OT_BVH then
    looktable.collision_matrix (CollisionGeometry.getNodeType o2)
      (CollisionGeometry.getNodeType o1)
  else
    looktable.collision_matrix (CollisionGeometry.getNodeType o1)
      (CollisionGeometry.getNodeType o2)

/-- Modelled from the spec: a positioned object (`CollisionObject`, collision_object.h, not
under src/) gives a geometry (`collisionGeometry ()`) and a transform (`getTransform ()`). -/
structure CollisionObject (G K : Type) where
  collisionGeometry : G
  transform : Transform3f K
deriving DecidableEq, Repr

/-- Width in bits of `std::size_t`, the return type of every overload of `collide`; taken to
be 64. -/
def SIZE_WIDTH : Nat := 64

/-- The value of `return -1` in a function whose return type is `std::size_t` (lines 148 and
165): `-1` converted to the unsigned type. -/
def minusOneAsSize : Nat := ((-1 : Int) % 2 ^ SIZE_WIDTH).toNat

/-- The overload of `collide` on two `CollisionObject`s with a solver handle, lines 129-135. -/
def collide_objects {G S : Type} [CollisionGeometry G] [Inhabited S]
    (looktable : CollisionFunctionMatrix G S K)
    (o1 o2 : CollisionObject G K) (nsolver : Option S) (request : CollisionRequest K)
    (result : CollisionResult G K) : Nat × CollisionResult G K :=
  collide looktable o1.collisionGeometry o1.transform o2.collisionGeometry o2.transform
    nsolver request result

/-- The overload of `collide` on two `CollisionObject`s without a solver handle, lines
137-150; `GJKSolver solver;` is the default-constructed solver. -/
def collide_objects_default {G S : Type} [CollisionGeometry G] [Inhabited S]
    (looktable : CollisionFunctionMatrix G S K)
    (o1 o2 : CollisionObject G K) (request : CollisionRequest K)
    (result : CollisionResult G K) : Nat × CollisionResult G K :=
  match request.gjk_solver_type with
  | GJKSolverType.GST_INDEP =>
    collide_objects looktable o1 o2 (some (default : S)) request result
  | _ => (minusOneAsSize, result)

/-- The overload of `collide` on two placed geometries without a solver handle, lines
152-167. -/
def collide_default {G S : Type} [CollisionGeometry G] [Inhabited S]
    (looktable : CollisionFunctionMatrix G S K)
    (o1 : G) (tf1 : Transform3f K) (o2 : G) (tf2 : Transform3f K)
    (request : CollisionRequest K) (result : CollisionResult G K) :
    Nat × CollisionResult G K :=
  match request.gjk_solver_type with
  | GJKSolverType.GST_INDEP =>
    collide looktable o1 tf1 o2 tf2 (some (default : S)) request result
  | _ => (minusOneAsSize, result)

/-- A request whose solver selector is not `GST_INDEP`, otherwise as `requestOne`. -/
def requestOther : CollisionRequest K :=
  { (requestOne : CollisionRequest K) with gjk_solver_type := GJKSolverType.GST_OTHER 0 }

/-- A request for no contact, otherwise as `requestOne`. -/
def requestNone : CollisionRequest K :=
  { (requestOne : CollisionRequest K) with num_max_contacts := 0 }

/-! ### The divisions of the segment-parameter computation -/

/-- Lines 98-139: the divisors of the divisions that the computation of `(s, t)` evaluates,
in the order of evaluation, branch by branch: `f / e` (line 107), `-c / a` (line 112),
`(b*f - c*e) / denom` (line 122), `(b*s + f) / e` (line 129), `-c / a` (line 133) and
`(b - c) / a` (line 138). -/
def evaluatedDivisors (a b c e f : K) : List K :=
  if a ≤ EPSILON ∧ e ≤ EPSILON then []
  else if a ≤ EPSILON then [e]
  else if e ≤ EPSILON then [a]
  else
    let denom := max (a * e - b * b) 0
    let s := firstPass a b c e f
    let t := (b * s + f) / e
    (if denom > EPSILON then [denom] else []) ++ [e] ++
      (if t < 0 then [a] else if t > 1 then [a] else [])

/-- Lines 80-139: the divisors evaluated for two placed capsules. -/
def capsuleDivisors (o1 : Capsule K) (tf1 : Transform3f K)
    (o2 : Capsule K) (tf2 : Transform3f K) : List K :=
  let d1 := segmentDirection o1 tf1
  let d2 := segmentDirection o2 tf2
  let p1 := segmentStart o1 tf1
  let p2 := segmentStart o2 tf2
  let r := p1 - p2
  evaluatedDivisors (d1.dot d1) (d1.dot d2) (d1.dot r) (d2.dot d2) (d2.dot r)

/-- The contact with the roles of the two objects exchanged: `o1` with `o2` and `b1` with
`b2`, the other fields kept. -/
def swapRoles {G : Type} (c : Contact G K) : Contact G K :=
  { c with o1 := c.o2, o2 := c.o1, b1 := c.b2, b2 := c.b1 }

end hpp.fcl

/-! ## Bounding-volume fitting (`geometric_shapes_utility.cpp`, namespace `fcl`) -/

namespace fcl

variable {K : Type} [LinearOrderedField K]

/-- Modelled from the spec: an axis-aligned bounding box (`AABB`, declared in a header that is
not under src/) is the pair of corners `min_` and `max_`. -/
structure AABB (K : Type) where
  min_ : Vec3f K
  max_ : Vec3f K
deriving DecidableEq, Repr

/-- Modelled from the spec: a box (declared in a header that is not under src/) has side
lengths `side` and a local pose (`getLocalRotation ()`, `getLocalPosition ()`). -/
structure Box (K : Type) where
  side : Vec3f K
  localRotation : Matrix3f K
  localPosition : Vec3f K
deriving DecidableEq, Repr

/-- Modelled from the spec: a sphere (declared in a header that is not under src/) has a
radius and a local pose. -/
structure Sphere (K : Type) where
  radius : K
  localRotation : Matrix3f K
  localPosition : Vec3f K
deriving DecidableEq, Repr

/-- Modelled from the spec: a capsule (declared in a header that is not under src/) has a
radius, a length `lz` along local z, and a local pose. -/
structure Capsule (K : Type) where
  radius : K
  lz : K
  localRotation : Matrix3f K
  localPosition : Vec3f K
deriving DecidableEq, Repr

/-- Modelled from the spec: a cone (declared in a header that is not under src/) has a base
radius, a height `lz` along local z, and a local pose. -/
structure Cone (K : Type) where
  radius : K
  lz : K
  localRotation : Matrix3f K
  localPosition : Vec3f K
deriving DecidableEq, Repr

/-- Modelled from the spec: a cylinder (declared in a header that is not under src/) has a
radius, a height `lz` along local z, and a local pose. -/
structure Cylinder (K : Type) where
  radius : K
  lz : K
  localRotation : Matrix3f K
  localPosition : Vec3f K
deriving DecidableEq, Repr

/-- Lines 51-52 (and 69-70, 80-81, 91-92): the box
`position + (±x_range, ±y_range, ±z_range)`. -/
def rangeBox (position : Vec3f K) (x_range y_range z_range : K) : AABB K :=
  { max_ := position + ⟨x_range, y_range, z_range⟩,
    min_ := position + ⟨-x_range, -y_range, -z_range⟩ }

/-- The specialisation `computeBV<AABB>(const Box&, AABB&)`, lines 44-53. -/
def computeBV_AABB_Box (s : Box K) : AABB K :=
  let R := s.localRotation
  let x_range := (1 / 2 : K) * (|R.m00 * s.side.x| + |R.m01 * s.side.y| + |R.m02 * s.side.z|)
  let y_range := (1 / 2 : K) * (|R.m10 * s.side.x| + |R.m11 * s.side.y| + |R.m12 * s.side.z|)
  let z_range := (1 / 2 : K) * (|R.m20 * s.side.x| + |R.m21 * s.side.y| + |R.m22 * s.side.z|)
  rangeBox s.localPosition x_range y_range z_range

/-- The specialisation `computeBV<AABB>(const Sphere&, AABB&)`, lines 55-60. -/
def computeBV_AABB_Sphere (s : Sphere K) : AABB K :=
  rangeBox s.localPosition s.radius s.radius s.radius

/-- The specialisation `computeBV<AABB>(const Capsule&, AABB&)`, lines 62-71. -/
def computeBV_AABB_Capsule (s : Capsule K) : AABB K :=
  let R := s.localRotation
  let x_range := (1 / 2 : K) * |R.m02 * s.lz| + s.radius
  let y_range := (1 / 2 : K) * |R.m12 * s.lz| + s.radius
  let z_range := (1 / 2 : K) * |R.m22 * s.lz| + s.radius
  rangeBox s.localPosition x_range y_range z_range

/-- The specialisation `computeBV<AABB>(const Cone&, AABB&)`, lines 73-82. -/
def computeBV_AABB_Cone (s : Cone K) : AABB K :=
  let R := s.localRotation
  let x_range := |R.m00 * s.radius| + |R.m01 * s.radius| + (1 / 2 : K) * |R.m02 * s.lz|
  let y_range := |R.m10 * s.radius| + |R.m11 * s.radius| + (1 / 2 : K) * |R.m12 * s.lz|
  let z_range := |R.m20 * s.radius| + |R.m21 * s.radius| + (1 / 2 : K) * |R.m22 * s.lz|
  rangeBox s.localPosition x_range y_range z_range

/-- The specialisation `computeBV<AABB>(const Cylinder&, AABB&)`, lines 84-93. -/
def computeBV_AABB_Cylinder (s : Cylinder K) : AABB K :=
  let R := s.localRotation
  let x_range := |R.m00 * s.radius| + |R.m01 * s.radius| + (1 / 2 : K) * |R.m02 * s.lz|
  let y_range := |R.m10 * s.radius| + |R.m11 * s.radius| + (1 / 2 : K) * |R.m12 * s.lz|
  let z_range := |R.m20 * s.radius| + |R.m21 * s.radius| + (1 / 2 : K) * |R.m22 * s.lz|
  rangeBox s.localPosition x_range y_range z_range

/-- The five analytic primitives whose `computeBV<AABB>` is a closed formula. -/
inductive Primitive (K : Type) where
  | box (s : Box K)
  | sphere (s : Sphere K)
  | capsule (s : Capsule K)
  | cone (s : Cone K)
  | cylinder (s : Cylinder K)
deriving DecidableEq, Repr

namespace Primitive

/-- Overload resolution of `computeBV<AABB>` over the five primitives. -/
def computeBV_AABB : Primitive K → AABB K
  | box s => computeBV_AABB_Box s
  | sphere s => computeBV_AABB_Sphere s
  | capsule s => computeBV_AABB_Capsule s
  | cone s => computeBV_AABB_Cone s
  | cylinder s => computeBV_AABB_Cylinder s

/-- The accessor `getLocalRotation ()`. -/
def getLocalRotation : Primitive K → Matrix3f K
  | box s => s.localRotation
  | sphere s => s.localRotation
  | capsule s => s.localRotation
  | cone s => s.localRotation
  | cylinder s => s.localRotation

/-- The accessor `getLocalPosition ()`. -/
def getLocalPosition : Primitive K → Vec3f K
  | box s => s.localPosition
  | sphere s => s.localPosition
  | capsule s => s.localPosition
  | cone s => s.localPosition
  | cylinder s => s.localPosition

/-- The dimensions of the primitive are non-negative. -/
def NonnegDims : Primitive K → Prop
  | box s => 0 ≤ s.side.x ∧ 0 ≤ s.side.y ∧ 0 ≤ s.side.z
  | sphere s => 0 ≤ s.radius
  | capsule s => 0 ≤ s.radius ∧ 0 ≤ s.lz
  | cone s => 0 ≤ s.radius ∧ 0 ≤ s.lz
  | cylinder s => 0 ≤ s.radius ∧ 0 ≤ s.lz

/-- The local solid of a primitive, in the words of the specification: a box of sides `side`;
a ball of radius `r`; a segment of length `lz` along local z swept by a ball of radius `r`;
a cone of base radius `r` and height `lz` along local z (base at `-lz/2`, apex at `lz/2`);
a cylinder of radius `r` and height `lz` along local z. -/
def localSolid : Primitive K → Vec3f K → Prop
  | box s, p => |p.x| ≤ s.side.x / 2 ∧ |p.y| ≤ s.side.y / 2 ∧ |p.z| ≤ s.side.z / 2
  | sphere s, p => p.squaredNorm ≤ s.radius ^ 2
  | capsule s, p => ∃ c : K, |c| ≤ s.lz / 2 ∧ (p - ⟨0, 0, c⟩).squaredNorm ≤ s.radius ^ 2
  | cone s, p => |p.z| ≤ s.lz / 2 ∧
      ∃ ρ : K, 0 ≤ ρ ∧ ρ ≤ s.radius ∧ ρ * s.lz = s.radius * (s.lz / 2 - p.z) ∧
        p.x ^ 2 + p.y ^ 2 ≤ ρ ^ 2
  | cylinder s, p => |p.z| ≤ s.lz / 2 ∧ p.x ^ 2 + p.y ^ 2 ≤ s.radius ^ 2

/-- The points of the placed shape: `R·p + T` for `p` in the local solid. -/
def shapePoint (s : Primitive K) (p : Vec3f K) : Vec3f K :=
  s.getLocalRotation.MxV p + s.getLocalPosition

end Primitive

/-- A point lies within `[bv.min_, bv.max_]` on every axis. -/
def AABB.Encloses (bv : AABB K) (q : Vec3f K) : Prop :=
  (bv.min_.x ≤ q.x ∧ q.x ≤ bv.max_.x) ∧ (bv.min_.y ≤ q.y ∧ q.y ≤ bv.max_.y) ∧
  (bv.min_.z ≤ q.z ∧ q.z ≤ bv.max_.z)

/-! ### Convex hull and plane (`computeBV<AABB>`, lines 95-132) -/

/-- Modelled from the spec: the default-constructed `AABB` (`AABB bv_;`, constructor declared
in a header that is not under src/) is the box from which the accumulation of minima and
maxima over the vertices of a convex hull starts: `min_` at `+max-real` and `max_` at
`-max-real` on every axis, `max-real` being `std::numeric_limits<BVH_REAL>::max()`. -/
def AABB.default (maxReal : K) : AABB K :=
  { min_ := ⟨maxReal, maxReal, maxReal⟩, max_ := ⟨-maxReal, -maxReal, -maxReal⟩ }

/-- Modelled from the spec: `bv += p` (operator declared in a header that is not under src/)
extends the box by a point, accumulating the minimum and the maximum on every axis. -/
def AABB.extend (bv : AABB K) (p : Vec3f K) : AABB K :=
  { min_ := ⟨min bv.min_.x p.x, min bv.min_.y p.y, min bv.min_.z p.z⟩,
    max_ := ⟨max bv.max_.x p.x, max bv.max_.y p.y, max bv.max_.z p.z⟩ }

/-- Modelled from the spec: a convex hull (declared in a header that is not under src/) has a
vertex list (`points`, of length `num_points`) and a local pose. -/
structure Convex (K : Type) where
  points : List (Vec3f K)
  localRotation : Matrix3f K
  localPosition : Vec3f K
deriving DecidableEq, Repr

/-- Modelled from the spec: a plane (declared in a header that is not under src/) has a
normal `n`, an offset `d` and a local pose. -/
structure Plane (K : Type) where
  n : Vec3f K
  d : K
  localRotation : Matrix3f K
  localPosition : Vec3f K
deriving DecidableEq, Repr

/-- Line 101: the vertex `MxV(s.getLocalRotation(), s.points[i]) + s.getLocalPosition()`. -/
def Convex.transformed (s : Convex K) (v : Vec3f K) : Vec3f K :=
  s.localRotation.MxV v + s.localPosition

/-- The specialisation `computeBV<AABB>(const Convex&, AABB&)`, lines 95-106. -/
def computeBV_AABB_Convex (maxReal : K) (s : Convex K) : AABB K :=
  s.points.foldl (fun bv_ v => bv_.extend (s.transformed v)) (AABB.default maxReal)

/-- The specialisation `computeBV<AABB>(const Plane&, AABB&)`, lines 108-132. -/
def computeBV_AABB_Plane (maxReal : K) (s : Plane K) : AABB K :=
  let bv_ := AABB.default maxReal
  if s.n.y = 0 ∧ s.n.z = 0 then
    if s.n.x < 0 then { bv_ with min_ := { bv_.min_ with x := -s.d } }
    else if s.n.x > 0 then { bv_ with max_ := { bv_.max_ with x := s.d } }
    else bv_
  else if s.n.x = 0 ∧ s.n.z = 0 then
    if s.n.y < 0 then { bv_ with min_ := { bv_.min_ with y := -s.d } }
    else if s.n.y > 0 then { bv_ with max_ := { bv_.max_ with y := s.d } }
    else bv_
  else if s.n.x = 0 ∧ s.n.y = 0 then
    if s.n.z < 0 then { bv_ with min_ := { bv_.min_ with z := -s.d } }
    else if s.n.z > 0 then { bv_ with max_ := { bv_.max_ with z := s.d } }
    else bv_
  else bv_

/-- The box that the specification describes for a plane: unbounded (`min = -max-real`,
`max = +max-real`) on every axis, except that when the normal has exactly two zero components
and its non-zero component lies on axis `k`, the box is bounded on axis `k` by `max_[k] = d`
if `n[k] > 0` or by `min_[k] = -d` if `n[k] < 0`. -/
def IsPlaneBox (maxReal : K) (s : Plane K) (bv : AABB K) : Prop :=
  ∀ k : Fin 3,
    (bv.min_.get k = if (∀ j : Fin 3, j ≠ k → s.n.get j = 0) ∧ s.n.get k < 0 then -s.d
      else -maxReal) ∧
    (bv.max_.get k = if (∀ j : Fin 3, j ≠ k → s.n.get j = 0) ∧ 0 < s.n.get k then s.d
      else maxReal)

/-! ### Oriented boxes (`computeBV<OBB>`, lines 135-183) -/

/-- Modelled from the spec: an oriented bounding box (`OBB`, declared in a header that is not
under src/) is a centre `To`, three axes `axis[0..2]` and three half-extents `extent`. -/
structure OBB (K : Type) where
  To : Vec3f K
  axis0 : Vec3f K
  axis1 : Vec3f K
  axis2 : Vec3f K
  extent : Vec3f K
deriving DecidableEq, Repr

/-- The axis `axis[k]` of an oriented box. -/
def OBB.axis (bv : OBB K) (k : Fin 3) : Vec3f K :=
  match k with
  | 0 => bv.axis0
  | 1 => bv.axis1
  | 2 => bv.axis2

/-- The specialisation `computeBV<OBB>(const Box&, OBB&)`, lines 135-143. -/
def computeBV_OBB_Box (s : Box K) : OBB K :=
  let R := s.localRotation
  { To := s.localPosition,
    axis0 := ⟨R.m00, R.m10, R.m20⟩,
    axis1 := ⟨R.m01, R.m11, R.m21⟩,
    axis2 := ⟨R.m02, R.m12, R.m22⟩,
    extent := (1 / 2 : K) * s.side }

/-- The specialisation `computeBV<OBB>(const Sphere&, OBB&)`, lines 145-153. -/
def computeBV_OBB_Sphere (s : Sphere K) : OBB K :=
  { To := s.localPosition,
    axis0 := ⟨1, 0, 0⟩,
    axis1 := ⟨0, 1, 0⟩,
    axis2 := ⟨0, 0, 1⟩,
    extent := ⟨s.radius, s.radius, s.radius⟩ }

/-- The specialisation `computeBV<OBB>(const Capsule&, OBB&)`, lines 155-163. -/
def computeBV_OBB_Capsule (s : Capsule K) : OBB K :=
  let R := s.localRotation
  { To := s.localPosition,
    axis0 := ⟨R.m00, R.m10, R.m20⟩,
    axis1 := ⟨R.m01, R.m11, R.m21⟩,
    axis2 := ⟨R.m02, R.m12, R.m22⟩,
    extent := ⟨s.radius, s.radius, s.lz / 2 + s.radius⟩ }

/-- The specialisation `computeBV<OBB>(const Cone&, OBB&)`, lines 165-173. -/
def computeBV_OBB_Cone (s : Cone K) : OBB K :=
  let R := s.localRotation
  { To := s.localPosition,
    axis0 := ⟨R.m00, R.m10, R.m20⟩,
    axis1 := ⟨R.m01, R.m11, R.m21⟩,
    axis2 := ⟨R.m02, R.m12, R.m22⟩,
    extent := ⟨s.radius, s.radius, s.lz / 2⟩ }

/-- The specialisation `computeBV<OBB>(const Cylinder&, OBB&)`, lines 175-183. -/
def computeBV_OBB_Cylinder (s : Cylinder K) : OBB K :=
  let R := s.localRotation
  { To := s.localPosition,
    axis0 := ⟨R.m00, R.m10, R.m20⟩,
    axis1 := ⟨R.m01, R.m11, R.m21⟩,
    axis2 := ⟨R.m02, R.m12, R.m22⟩,
    extent := ⟨s.radius, s.radius, s.lz / 2⟩ }

/-- Overload resolution of `computeBV<OBB>` over the five primitives. -/
def Primitive.computeBV_OBB : Primitive K → OBB K
  | Primitive.box s => computeBV_OBB_Box s
  | Primitive.sphere s => computeBV_OBB_Sphere s
  | Primitive.capsule s => computeBV_OBB_Capsule s
  | Primitive.cone s => computeBV_OBB_Cone s
  | Primitive.cylinder s => computeBV_OBB_Cylinder s

/-- The axes that the specification names for the oriented box of a primitive: the columns
of the local rotation, and the identity axes for the sphere. -/
def Primitive.expectedAxis : Primitive K → Fin 3 → Vec3f K
  | Primitive.sphere _, k => (Matrix3f.identity : Matrix3f K).col k
  | s, k => s.getLocalRotation.col k

/-- The half-extents that the specification names for the oriented box of a primitive:
box `side/2`; sphere `r, r, r`; capsule `r, r, lz/2 + r`; cone and cylinder `r, r, lz/2`. -/
def Primitive.expectedExtent : Primitive K → Vec3f K
  | Primitive.box s => ⟨s.side.x / 2, s.side.y / 2, s.side.z / 2⟩
  | Primitive.sphere s => ⟨s.radius, s.radius, s.radius⟩
  | Primitive.capsule s => ⟨s.radius, s.radius, s.lz / 2 + s.radius⟩
  | Primitive.cone s => ⟨s.radius, s.radius, s.lz / 2⟩
  | Primitive.cylinder s => ⟨s.radius, s.radius, s.lz / 2⟩

/-- A point lies in the oriented box: `|(x - To)·axis[k]| ≤ extent[k]` for `k = 0, 1, 2`. -/
def OBB.Contains (bv : OBB K) (x : Vec3f K) : Prop :=
  ∀ k : Fin 3, |(x - bv.To).dot (bv.axis k)| ≤ bv.extent.get k

/-! ### Reference notions for the tightness of the fitted AABB -/

/-- The local solid that the formula of `computeBV<AABB>` encloses tightly: the local solid of
the shape for box, sphere and capsule, and the local box of half-extents `(r, r, lz/2)` for
cone and cylinder. -/
def Primitive.fittedSolid : Primitive K → Vec3f K → Prop
  | Primitive.cone s, p => |p.x| ≤ s.radius ∧ |p.y| ≤ s.radius ∧ |p.z| ≤ s.lz / 2
  | Primitive.cylinder s, p => |p.x| ≤ s.radius ∧ |p.y| ≤ s.radius ∧ |p.z| ≤ s.lz / 2
  | s, p => s.localSolid p

/-! ### The oriented box of a plane (`computeBV<OBB>`, lines 203-239) -/

/-- Lines 212 and 222: `1.0 / sqrt(x)`; no finite value when the divisor is zero. -/
def invLength (sqrt : K → K) (x : K) : Option K :=
  if sqrt x = 0 then none else some (1 / sqrt x)

/-- The specialisation `computeBV<OBB>(const Plane&, OBB&)`, lines 203-239, with
`maxReal` for `std::numeric_limits<BVH_REAL>::max()`; `none` when `inv_length` has no finite
value. -/
def computeBV_OBB_Plane (sqrt : K → K) (maxReal : K) (s : Plane K) : Option (OBB K) :=
  let w := s.n
  let p := s.d * s.n
  if |w.x| ≥ |w.y| then
    (invLength sqrt (w.x * w.x + w.z * w.z)).map fun inv_length =>
      let u : Vec3f K := ⟨-w.z * inv_length, 0, w.x * inv_length⟩
      let v : Vec3f K := ⟨w.y * u.z, w.z * u.x - w.x * u.z, -w.y * u.x⟩
      { To := s.localRotation.MxV p + s.localPosition,
        axis0 := w, axis1 := u, axis2 := v, extent := ⟨0, maxReal, maxReal⟩ }
  else
    (invLength sqrt (w.y * w.y + w.z * w.z)).map fun inv_length =>
      let u : Vec3f K := ⟨0, w.z * inv_length, -w.y * inv_length⟩
      let v : Vec3f K := ⟨w.y * u.z - w.z * u.y, -w.x * u.z, w.x * u.y⟩
      { To := s.localRotation.MxV p + s.localPosition,
        axis0 := w, axis1 := u, axis2 := v, extent := ⟨0, maxReal, maxReal⟩ }

/-- Three vectors are mutually orthogonal unit vectors. -/
def IsOrthonormalTriple (w u v : Vec3f K) : Prop :=
  w.dot w = 1 ∧ u.dot u = 1 ∧ v.dot v = 1 ∧ w.dot u = 0 ∧ w.dot v = 0 ∧ u.dot v = 0

/-! ### The cached AABB of a shape (`computeAABB`, lines 241-295) -/

/-- Modelled from the spec: `AABB::center ()` (declared in a header that is not under src/) is
the midpoint `(min_ + max_) * 0.5` of the box. -/
def AABB.center (bv : AABB K) : Vec3f K :=
  (1 / 2 : K) * (bv.min_ + bv.max_)

/-- Modelled from the spec: the fields that `computeAABB` assigns in a shape (members of
`CollisionGeometry`, declared in a header that is not under src/). -/
structure ShapeCache (K : Type) where
  aabb : AABB K
  aabb_cache : AABB K
  aabb_center : Vec3f K
  aabb_radius : K
deriving DecidableEq, Repr

/-- The method `Box::computeAABB`, lines 241-247. -/
def Box.computeAABB (sqrt : K → K) (s : Box K) : ShapeCache K :=
  let aabb := computeBV_AABB_Box s
  { aabb := aabb, aabb_cache := aabb, aabb_center := aabb.center,
    aabb_radius := (aabb.min_ - aabb.center).norm sqrt }

/-- The method `Sphere::computeAABB`, lines 249-255. -/
def Sphere.computeAABB (s : Sphere K) : ShapeCache K :=
  let aabb := computeBV_AABB_Sphere s
  { aabb := aabb, aabb_cache := aabb, aabb_center := aabb.center,
    aabb_radius := s.radius }

/-- The method `Capsule::computeAABB`, lines 257-263. -/
def Capsule.computeAABB (sqrt : K → K) (s : Capsule K) : ShapeCache K :=
  let aabb := computeBV_AABB_Capsule s
  { aabb := aabb, aabb_cache := aabb, aabb_center := aabb.center,
    aabb_radius := (aabb.min_ - aabb.center).norm sqrt }

/-- The method `Cone::computeAABB`, lines 265-271. -/
def Cone.computeAABB (sqrt : K → K) (s : Cone K) : ShapeCache K :=
  let aabb := computeBV_AABB_Cone s
  { aabb := aabb, aabb_cache := aabb, aabb_center := aabb.center,
    aabb_radius := (aabb.min_ - aabb.center).norm sqrt }

/-- The method `Cylinder::computeAABB`, lines 273-279. -/
def Cylinder.computeAABB (sqrt : K → K) (s : Cylinder K) : ShapeCache K :=
  let aabb := computeBV_AABB_Cylinder s
  { aabb := aabb, aabb_cache := aabb, aabb_center := aabb.center,
    aabb_radius := (aabb.min_ - aabb.center).norm sqrt }

/-- The method `Convex::computeAABB`, lines 281-287. -/
def Convex.computeAABB (sqrt : K → K) (maxReal : K) (s : Convex K) : ShapeCache K :=
  let aabb := computeBV_AABB_Convex maxReal s
  { aabb := aabb, aabb_cache := aabb, aabb_center := aabb.center,
    aabb_radius := (aabb.min_ - aabb.center).norm sqrt }

/-- The method `Plane::computeAABB`, lines 289-295. -/
def Plane.computeAABB (sqrt : K → K) (maxReal : K) (s : Plane K) : ShapeCache K :=
  let aabb := computeBV_AABB_Plane maxReal s
  { aabb := aabb, aabb_cache := aabb, aabb_center := aabb.center,
    aabb_radius := (aabb.min_ - aabb.center).norm sqrt }

/-- The seven shape variants that have a `computeAABB` method. -/
inductive Shape (K : Type) where
  | box (s : Box K)
  | sphere (s : Sphere K)
  | capsule (s : Capsule K)
  | cone (s : Cone K)
  | cylinder (s : Cylinder K)
  | convex (s : Convex K)
  | plane (s : Plane K)
deriving DecidableEq, Repr

/-- Overload resolution of `computeBV<AABB>` over the seven shape variants. -/
def Shape.computeBV_AABB (maxReal : K) : Shape K → AABB K
  | Shape.box s => computeBV_AABB_Box s
  | Shape.sphere s => computeBV_AABB_Sphere s
  | Shape.capsule s => computeBV_AABB_Capsule s
  | Shape.cone s => computeBV_AABB_Cone s
  | Shape.cylinder s => computeBV_AABB_Cylinder s
  | Shape.convex s => computeBV_AABB_Convex maxReal s
  | Shape.plane s => computeBV_AABB_Plane maxReal s

/-- The method `computeAABB` of each shape variant. -/
def Shape.computeAABB (sqrt : K → K) (maxReal : K) : Shape K → ShapeCache K
  | Shape.box s => s.computeAABB sqrt
  | Shape.sphere s => s.computeAABB
  | Shape.capsule s => s.computeAABB sqrt
  | Shape.cone s => s.computeAABB sqrt
  | Shape.cylinder s => s.computeAABB sqrt
  | Shape.convex s => s.computeAABB sqrt maxReal
  | Shape.plane s => s.computeAABB sqrt maxReal

/-- The eight corners of a box. -/
def AABB.corners (bv : AABB K) : List (Vec3f K) :=
  [⟨bv.min_.x, bv.min_.y, bv.min_.z⟩, ⟨bv.min_.x, bv.min_.y, bv.max_.z⟩,
   ⟨bv.min_.x, bv.max_.y, bv.min_.z⟩, ⟨bv.min_.x, bv.max_.y, bv.max_.z⟩,
   ⟨bv.max_.x, bv.min_.y, bv.min_.z⟩, ⟨bv.max_.x, bv.min_.y, bv.max_.z⟩,
   ⟨bv.max_.x, bv.max_.y, bv.min_.z⟩, ⟨bv.max_.x, bv.max_.y, bv.max_.z⟩]

/-- The number `ρ` is the distance from the point `c` to the farthest corner of the box. -/
def IsFarthestCornerDistance (sqrt : K → K) (bv : AABB K) (c : Vec3f K) (ρ : K) : Prop :=
  (∃ q ∈ bv.corners, (q - c).norm sqrt = ρ) ∧ ∀ q ∈ bv.corners, (q - c).norm sqrt ≤ ρ

end fcl

/-! # Theorems -/

namespace Vec3f

variable {K : Type} [LinearOrderedField K]

@[simp] theorem zero_x : (0 : Vec3f K).x = 0 := rfl
@[simp] theorem zero_y : (0 : Vec3f K).y = 0 := rfl
@[simp] theorem zero_z : (0 : Vec3f K).z = 0 := rfl
@[simp] theorem add_x (u v : Vec3f K) : (u + v).x = u.x + v.x := rfl
@[simp] theorem add_y (u v : Vec3f K) : (u + v).y = u.y + v.y := rfl
@[simp] theorem add_z (u v : Vec3f K) : (u + v).z = u.z + v.z := rfl
@[simp] theorem sub_x (u v : Vec3f K) : (u - v).x = u.x - v.x := rfl
@[simp] theorem sub_y (u v : Vec3f K) : (u - v).y = u.y - v.y := rfl
@[simp] theorem sub_z (u v : Vec3f K) : (u - v).z = u.z - v.z := rfl
@[simp] theorem neg_x (u : Vec3f K) : (-u).x = -u.x := rfl
@[simp] theorem neg_y (u : Vec3f K) : (-u).y = -u.y := rfl
@[simp] theorem neg_z (u : Vec3f K) : (-u).z = -u.z := rfl
@[simp] theorem smul_x (k : K) (u : Vec3f K) : (k * u).x = k * u.x := rfl
@[simp] theorem smul_y (k : K) (u : Vec3f K) : (k * u).y = k * u.y := rfl
@[simp] theorem smul_z (k : K) (u : Vec3f K) : (k * u).z = k * u.z := rfl
@[simp] theorem div_x (u : Vec3f K) (k : K) : (u / k).x = u.x / k := rfl
@[simp] theorem div_y (u : Vec3f K) (k : K) : (u / k).y = u.y / k := rfl
@[simp] theorem div_z (u : Vec3f K) (k : K) : (u / k).z = u.z / k := rfl

theorem dot_self_nonneg (u : Vec3f K) : 0 ≤ u.dot u := by
  unfold dot
  nlinarith [mul_self_nonneg u.x, mul_self_nonneg u.y, mul_self_nonneg u.z]

theorem squaredNorm_nonneg (u : Vec3f K) : 0 ≤ u.squaredNorm := dot_self_nonneg u

theorem eq_zero_of_dot_self (u : Vec3f K) (h : u.dot u = 0) : u = 0 := by
  unfold dot at h
  have hx := mul_self_nonneg u.x
  have hy := mul_self_nonneg u.y
  have hz := mul_self_nonneg u.z
  have h1 : u.x * u.x = 0 := by linarith
  have h2 : u.y * u.y = 0 := by linarith
  have h3 : u.z * u.z = 0 := by linarith
  ext
  · simpa using mul_self_eq_zero.mp h1
  · simpa using mul_self_eq_zero.mp h2
  · simpa using mul_self_eq_zero.mp h3

theorem dot_eq_zero_of_dot_self (u v : Vec3f K) (h : u.dot u = 0) : u.dot v = 0 := by
  rw [eq_zero_of_dot_self u h]
  simp [dot]

/-- Equality in the Cauchy-Schwarz inequality makes the vectors proportional, so the scalar
products with any third vector are proportional too. -/
theorem dot_proportional (d1 d2 r : Vec3f K)
    (h : d1.dot d1 * d2.dot d2 - d1.dot d2 * d1.dot d2 = 0) :
    d1.dot r * d2.dot d2 = d1.dot d2 * d2.dot r := by
  have hv : (d2.dot d2 * d1 - d1.dot d2 * d2).dot (d2.dot d2 * d1 - d1.dot d2 * d2) = 0 := by
    have : (d2.dot d2 * d1 - d1.dot d2 * d2).dot (d2.dot d2 * d1 - d1.dot d2 * d2) =
        d2.dot d2 * (d1.dot d1 * d2.dot d2 - d1.dot d2 * d1.dot d2) := by
      simp only [dot, sub_x, sub_y, sub_z, smul_x, smul_y, smul_z]; ring
    rw [this, h, mul_zero]
  have h0 := dot_eq_zero_of_dot_self _ r hv
  have : (d2.dot d2 * d1 - d1.dot d2 * d2).dot r =
      d1.dot r * d2.dot d2 - d1.dot d2 * d2.dot r := by
    simp only [dot, sub_x, sub_y, sub_z, smul_x, smul_y, smul_z]; ring
  rw [this] at h0
  linarith

theorem dot_comm (u v : Vec3f K) : u.dot v = v.dot u := by
  simp only [dot]; ring

theorem squaredNorm_ne_zero_of_ne (u v : Vec3f K) (h : u ≠ v) : (u - v).squaredNorm ≠ 0 := by
  intro h0
  have hz := eq_zero_of_dot_self (u - v) h0
  apply h
  have hx : (u - v).x = 0 := by rw [hz]; rfl
  have hy : (u - v).y = 0 := by rw [hz]; rfl
  have hzz : (u - v).z = 0 := by rw [hz]; rfl
  simp only [sub_x, sub_y, sub_z] at hx hy hzz
  ext
  · exact sub_eq_zero.mp hx
  · exact sub_eq_zero.mp hy
  · exact sub_eq_zero.mp hzz

theorem squaredNorm_smul (k : K) (u : Vec3f K) :
    (k * u).squaredNorm = (k * k) * u.squaredNorm := by
  simp only [squaredNorm, dot, smul_x, smul_y, smul_z]; ring

theorem squaredNorm_div (u : Vec3f K) (k : K) :
    (u / k).squaredNorm = u.squaredNorm / (k * k) := by
  simp only [squaredNorm, dot, div_x, div_y, div_z]
  by_cases hk : k = 0
  · subst hk; simp
  · field_simp

/-- Cauchy-Schwarz inequality for the scalar product. -/
theorem dot_sq_le (u v : Vec3f K) : (u.dot v) ^ 2 ≤ u.dot u * v.dot v := by
  simp only [dot]
  nlinarith [sq_nonneg (u.x * v.y - u.y * v.x), sq_nonneg (u.x * v.z - u.z * v.x),
    sq_nonneg (u.y * v.z - u.z * v.y)]

/-- A unit vector projects a vector of squared length at most `r²` into `[-r, r]`. -/
theorem abs_dot_le_of_unit (u v : Vec3f K) (r : K) (hu : u.dot u = 1) (hr : 0 ≤ r)
    (hv : v.squaredNorm ≤ r ^ 2) : |u.dot v| ≤ r := by
  apply abs_le_of_sq_le_sq _ hr
  have := dot_sq_le u v
  rw [hu, one_mul] at this
  exact le_trans this hv

theorem dot_cross_left (w u : Vec3f K) : w.dot (w.cross u) = 0 := by
  simp only [dot, cross]; ring

theorem dot_cross_right (w u : Vec3f K) : u.dot (w.cross u) = 0 := by
  simp only [dot, cross]; ring

/-- Lagrange's identity for the squared length of a vector product. -/
theorem cross_dot_self (w u : Vec3f K) :
    (w.cross u).dot (w.cross u) = w.dot w * u.dot u - w.dot u * w.dot u := by
  simp only [dot, cross]; ring

end Vec3f

namespace IsSqrt
variable {K : Type} [LinearOrderedField K] {sqrt : K → K}

theorem sqrt_nonneg (h : IsSqrt sqrt) (x : K) (hx : 0 ≤ x) : 0 ≤ sqrt x := (h x hx).1

theorem sqrt_mul_self (h : IsSqrt sqrt) (x : K) (hx : 0 ≤ x) : sqrt x * sqrt x = x := (h x hx).2

theorem sqrt_mono (h : IsSqrt sqrt) {x y : K} (hx : 0 ≤ x) (hxy : x ≤ y) : sqrt x ≤ sqrt y := by
  by_contra hc
  push_neg at hc
  have h1 := h.sqrt_mul_self x hx
  have h2 := h.sqrt_mul_self y (le_trans hx hxy)
  have h3 := mul_self_lt_mul_self (h.sqrt_nonneg y (le_trans hx hxy)) hc
  linarith

theorem sqrt_of_mul_self (h : IsSqrt sqrt) (r : K) (hr : 0 ≤ r) : sqrt (r * r) = r := by
  have h0 : 0 ≤ r * r := mul_self_nonneg r
  have h1 := h.sqrt_mul_self (r * r) h0
  have h2 := h.sqrt_nonneg (r * r) h0
  exact (mul_self_inj h2 hr).mp h1

theorem sqrt_of_mul_self_abs (h : IsSqrt sqrt) (r : K) : sqrt (r * r) = |r| := by
  rw [← abs_mul_abs_self r]
  exact h.sqrt_of_mul_self |r| (abs_nonneg r)

theorem sqrt_eq_zero_iff (h : IsSqrt sqrt) (x : K) (hx : 0 ≤ x) : sqrt x = 0 ↔ x = 0 := by
  constructor
  · intro h0
    have := h.sqrt_mul_self x hx
    rw [h0, mul_zero] at this
    exact this.symm
  · intro h0
    subst h0
    have := h.sqrt_mul_self 0 (le_refl _)
    exact mul_self_eq_zero.mp this

end IsSqrt

theorem isSqrt_real : IsSqrt Real.sqrt :=
  fun x hx => ⟨Real.sqrt_nonneg x, Real.mul_self_sqrt hx⟩

/-! ## Rotation matrices -/

namespace Matrix3f

variable {K : Type} [LinearOrderedField K]

/-- The columns of a matrix with orthonormal rows are orthonormal too. -/
theorem columns_orthonormal (m : Matrix3f K) (h : m.IsOrthonormal) :
    (m.col 0).dot (m.col 0) = 1 ∧ (m.col 1).dot (m.col 1) = 1 ∧ (m.col 2).dot (m.col 2) = 1 ∧
    (m.col 0).dot (m.col 1) = 0 ∧ (m.col 0).dot (m.col 2) = 0 ∧
    (m.col 1).dot (m.col 2) = 0 := by
  obtain ⟨h00, h11, h22, h01, h02, h12⟩ := h
  simp only [row, Vec3f.dot] at h00 h11 h22 h01 h02 h12
  have hA : (Matrix.of (fun i j : Fin 3 => (m.row i).get j)) *
      (Matrix.of (fun i j : Fin 3 => (m.row j).get i)) = 1 := by
    ext i j
    fin_cases i <;> fin_cases j <;>
      simp [Matrix.mul_apply, Fin.sum_univ_three, Matrix.one_apply, row, Vec3f.get] <;>
      linarith
  have hB := Matrix.mul_eq_one_comm.mp hA
  have e00 := congrFun (congrFun hB 0) 0
  have e11 := congrFun (congrFun hB 1) 1
  have e22 := congrFun (congrFun hB 2) 2
  have e01 := congrFun (congrFun hB 0) 1
  have e02 := congrFun (congrFun hB 0) 2
  have e12 := congrFun (congrFun hB 1) 2
  simp [Matrix.mul_apply, Fin.sum_univ_three, Matrix.one_apply, row, Vec3f.get]
    at e00 e11 e22 e01 e02 e12
  simp only [col, Vec3f.dot]
  exact ⟨e00, e11, e22, e01, e02, e12⟩

/-- Projecting a rotated vector on a column of the rotation recovers its local coordinate. -/
theorem MxV_dot_col (m : Matrix3f K) (h : m.IsOrthonormal) (p : Vec3f K) (k : Fin 3) :
    (m.MxV p).dot (m.col k) = p.get k := by
  obtain ⟨e00, e11, e22, e01, e02, e12⟩ := columns_orthonormal m h
  simp only [col, Vec3f.dot] at e00 e11 e22 e01 e02 e12
  fin_cases k
  · simp only [MxV, row, col, Vec3f.dot, Vec3f.get]
    linear_combination p.x * e00 + p.y * e01 + p.z * e02
  · simp only [MxV, row, col, Vec3f.dot, Vec3f.get]
    linear_combination p.x * e01 + p.y * e11 + p.z * e12
  · simp only [MxV, row, col, Vec3f.dot, Vec3f.get]
    linear_combination p.x * e02 + p.y * e12 + p.z * e22

end Matrix3f

namespace hpp.fcl

variable {K : Type} [LinearOrderedField K]

/-! ### The segment parameters -/

theorem EPSILON_pos : (0 : K) < EPSILON := by
  unfold EPSILON; positivity

theorem CLAMP_mem (v : K) : 0 ≤ CLAMP v 0 1 ∧ CLAMP v 0 1 ≤ 1 := by
  unfold CLAMP
  exact ⟨le_max_right _ _, max_le (min_le_right _ _) zero_le_one⟩

/-- First-order optimality of a clamped quotient: `u = CLAMP (n / q) 0 1` with `0 < q`. -/
theorem CLAMP_div_opt (n q : K) (hq : 0 < q) :
    (0 < CLAMP (n / q) 0 1 → q * CLAMP (n / q) 0 1 ≤ n) ∧
    (CLAMP (n / q) 0 1 < 1 → n ≤ q * CLAMP (n / q) 0 1) := by
  unfold CLAMP
  constructor
  · intro h
    have h1 : max (min (n / q) 1) 0 = min (n / q) 1 := by
      apply max_eq_left; by_contra hc; push_neg at hc
      rw [max_eq_right hc.le] at h; exact lt_irrefl _ h
    rw [h1]
    have : min (n / q) 1 ≤ n / q := min_le_left _ _
    calc q * min (n / q) 1 ≤ q * (n / q) := by gcongr
      _ = n := by field_simp
  · intro h
    have h2 : min (n / q) 1 < 1 := lt_of_le_of_lt (le_max_left _ _) h
    have h3 : min (n / q) 1 = n / q := by
      apply min_eq_left; by_contra hc; push_neg at hc
      rw [min_eq_right hc.le] at h2; exact lt_irrefl _ h2
    have : n / q ≤ max (min (n / q) 1) 0 := by rw [h3]; exact le_max_left _ _
    calc n = q * (n / q) := by field_simp
      _ ≤ q * max (min (n / q) 1) 0 := by gcongr

theorem firstPass_range (a b c e f : K) :
    0 ≤ firstPass a b c e f ∧ firstPass a b c e f ≤ 1 := by
  unfold firstPass
  dsimp only
  split_ifs
  · exact CLAMP_mem _
  · exact ⟨le_refl _, zero_le_one⟩

theorem secondPass_range (a b c e f s : K) (hs : 0 ≤ s ∧ s ≤ 1) :
    (0 ≤ (secondPass a b c e f s).1 ∧ (secondPass a b c e f s).1 ≤ 1) ∧
    (0 ≤ (secondPass a b c e f s).2 ∧ (secondPass a b c e f s).2 ≤ 1) := by
  have h01 : (0 : K) ≤ 1 := zero_le_one
  unfold secondPass
  dsimp only
  split_ifs with h5 h6
  · exact ⟨CLAMP_mem _, ⟨le_refl _, h01⟩⟩
  · exact ⟨CLAMP_mem _, ⟨h01, le_refl _⟩⟩
  · exact ⟨hs, ⟨not_lt.mp h5, not_lt.mp h6⟩⟩

theorem segmentParameters_range (a b c e f : K) :
    (0 ≤ (segmentParameters a b c e f).1 ∧ (segmentParameters a b c e f).1 ≤ 1) ∧
    (0 ≤ (segmentParameters a b c e f).2 ∧ (segmentParameters a b c e f).2 ≤ 1) := by
  have h01 : (0 : K) ≤ 1 := zero_le_one
  unfold segmentParameters
  split_ifs
  · exact ⟨⟨le_refl _, h01⟩, ⟨le_refl _, h01⟩⟩
  · exact ⟨⟨le_refl _, h01⟩, CLAMP_mem _⟩
  · exact ⟨CLAMP_mem _, ⟨le_refl _, h01⟩⟩
  · exact secondPass_range a b c e f _ (firstPass_range a b c e f)

/-- The re-derived `s` keeps `t` clamped at the lower end: if the first estimate `s0` is
stationary in `s` along the line `t = (b s + f) / e` and gives `b s0 + f < 0`, then the value
`s` that is stationary for `t = 0` still has `b s + f ≤ 0`. -/
theorem recomputed_keeps_sign (a b c e f s0 s : K) (ha : 0 < a) (he : 0 < e)
    (hD : 0 < a * e - b * b)
    (r1 : 0 ≤ s0) (r2 : s0 ≤ 1)
    (k1 : 0 < s0 → (a * e - b * b) * s0 ≤ b * f - c * e)
    (k2 : s0 < 1 → b * f - c * e ≤ (a * e - b * b) * s0)
    (n1 : 0 ≤ s) (n2 : s ≤ 1)
    (m1 : 0 < s → a * s ≤ -c) (m2 : s < 1 → -c ≤ a * s)
    (hneg : b * s0 + f < 0) : b * s + f ≤ 0 := by
  by_contra hc
  push_neg at hc
  have hDf : (a * e - b * b) * (b * s0 + f) < 0 := mul_neg_of_pos_of_neg hD hneg
  have haf : 0 < a * (b * s + f) := mul_pos ha hc
  rcases lt_trichotomy b 0 with hb | hb | hb
  · have hss : s < s0 := by
      by_contra h; push_neg at h
      have := mul_le_mul_of_nonpos_left h hb.le
      linarith
    have h1 := m2 (lt_of_lt_of_le hss r2)
    have h2 := k1 (lt_of_le_of_lt n1 hss)
    have h3 := mul_le_mul_of_nonpos_left h1 hb.le
    have h4 := mul_le_mul_of_nonpos_left h2 hb.le
    have h5 : 0 < e * (a * f - b * c) := mul_pos he (by linarith)
    linarith
  · subst hb; linarith
  · have hss : s0 < s := by
      by_contra h; push_neg at h
      have := mul_le_mul_of_nonneg_left h hb.le
      linarith
    have h1 := m1 (lt_of_le_of_lt r1 hss)
    have h2 := k2 (lt_of_lt_of_le hss n2)
    have h3 := mul_le_mul_of_nonneg_left h1 hb.le
    have h4 := mul_le_mul_of_nonneg_left h2 hb.le
    have h5 : 0 < e * (a * f - b * c) := mul_pos he (by linarith)
    linarith

/-- Stationarity of the second pass when the Gram determinant exceeds the threshold. -/
theorem secondPass_stationary_of_pos (a b c e f : K) (ha : 0 < a) (he : 0 < e)
    (hD : EPSILON < a * e - b * b) :
    IsStationary a b c e f (secondPass a b c e f (firstPass a b c e f)).1
      (secondPass a b c e f (firstPass a b c e f)).2 := by
  have hD0 : 0 < a * e - b * b := lt_trans EPSILON_pos hD
  have hmax : max (a * e - b * b) 0 = a * e - b * b := max_eq_left hD0.le
  have hs0 : firstPass a b c e f = CLAMP ((b * f - c * e) / (a * e - b * b)) 0 1 := by
    unfold firstPass; dsimp only; rw [hmax, if_pos hD]
  obtain ⟨k1, k2⟩ := CLAMP_div_opt (b * f - c * e) (a * e - b * b) hD0
  obtain ⟨r1, r2⟩ := CLAMP_mem ((b * f - c * e) / (a * e - b * b))
  rw [← hs0] at k1 k2 r1 r2
  generalize firstPass a b c e f = s0 at *
  obtain ⟨m1, m2⟩ := CLAMP_div_opt (-c) a ha
  obtain ⟨n1, n2⟩ := CLAMP_mem (-c / a)
  obtain ⟨p1, p2⟩ := CLAMP_div_opt (b - c) a ha
  obtain ⟨q1, q2⟩ := CLAMP_mem ((b - c) / a)
  unfold secondPass IsStationary
  dsimp only
  split_ifs with h5 h6 <;> dsimp only
  · -- t < 0
    have hneg : b * s0 + f < 0 := by
      by_contra hc; push_neg at hc
      exact absurd h5 (not_lt.mpr (div_nonneg hc he.le))
    have := recomputed_keeps_sign a b c e f s0 _ ha he hD0 r1 r2 k1 k2 n1 n2 m1 m2 hneg
    generalize CLAMP (-c / a) 0 1 = s at *
    refine ⟨⟨n1, n2⟩, ⟨le_refl _, zero_le_one⟩, ?_, ?_, ?_, ?_⟩
    · intro h; have := m1 h; linarith
    · intro h; have := m2 h; linarith
    · intro h; exact absurd h (lt_irrefl _)
    · intro _; linarith
  · -- t > 1
    have hbig : e < b * s0 + f := by
      have := (lt_div_iff₀ he).mp h6; linarith
    have := recomputed_keeps_sign a (-b) (c - b) e (e - f) s0 (CLAMP ((b - c) / a) 0 1) ha he
      (by linarith) r1 r2 (fun h => by have := k1 h; linarith) (fun h => by have := k2 h; linarith)
      q1 q2 (fun h => by have := p1 h; linarith) (fun h => by have := p2 h; linarith)
      (by linarith)
    generalize CLAMP ((b - c) / a) 0 1 = s at *
    refine ⟨⟨q1, q2⟩, ⟨zero_le_one, le_refl _⟩, ?_, ?_, ?_, ?_⟩
    · intro h; have := p1 h; linarith
    · intro h; have := p2 h; linarith
    · intro _; linarith
    · intro h; exact absurd h (lt_irrefl _)
  · -- 0 ≤ t ≤ 1
    have ht0 := not_lt.mp h5
    have ht1 := not_lt.mp h6
    have het : e * ((b * s0 + f) / e) = b * s0 + f := by field_simp
    have key : e * (a * s0 - b * ((b * s0 + f) / e) + c) =
        (a * e - b * b) * s0 - (b * f - c * e) := by
      field_simp; ring
    refine ⟨⟨r1, r2⟩, ⟨ht0, ht1⟩, ?_, ?_, ?_, ?_⟩
    · intro h; have := k1 h
      have : e * (a * s0 - b * ((b * s0 + f) / e) + c) ≤ 0 := by rw [key]; linarith
      by_contra hc; push_neg at hc
      have := mul_pos he hc; linarith
    · intro h; have := k2 h
      have : 0 ≤ e * (a * s0 - b * ((b * s0 + f) / e) + c) := by rw [key]; linarith
      by_contra hc; push_neg at hc
      have := mul_neg_of_pos_of_neg he hc; linarith
    · intro _; rw [het]; linarith
    · intro _; rw [het]; linarith

/-- Parallel segments: the re-derived `s` keeps `t` clamped at the lower end. -/
theorem recomputed_keeps_sign_parallel (a b c f s : K) (ha : 0 < a)
    (hpar : a * f = b * c) (n1 : 0 ≤ s) (m1 : 0 < s → a * s ≤ -c) (hneg : f ≤ 0) :
    b * s + f ≤ 0 := by
  rcases eq_or_lt_of_le n1 with hs | hs
  · rw [← hs]; linarith
  · have h1 := m1 hs
    rcases le_or_lt 0 b with hb | hb
    · have h2 := mul_le_mul_of_nonneg_left h1 hb
      have h3 : a * (b * s + f) ≤ 0 := by linarith
      by_contra hc; push_neg at hc
      have := mul_pos ha hc; linarith
    · have := mul_neg_of_neg_of_pos hb hs
      linarith

/-- Stationarity of the second pass for parallel segments (zero Gram determinant). -/
theorem secondPass_stationary_of_parallel (a b c e f : K) (ha : 0 < a) (he : 0 < e)
    (hD : a * e - b * b = 0) (hce : c * e = b * f) (haf : a * f = b * c) :
    IsStationary a b c e f (secondPass a b c e f (firstPass a b c e f)).1
      (secondPass a b c e f (firstPass a b c e f)).2 := by
  have hs0 : firstPass a b c e f = 0 := by
    unfold firstPass; dsimp only
    rw [hD, max_self, if_neg (not_lt.mpr EPSILON_pos.le)]
  rw [hs0]
  obtain ⟨m1, m2⟩ := CLAMP_div_opt (-c) a ha
  obtain ⟨n1, n2⟩ := CLAMP_mem (-c / a)
  obtain ⟨p1, p2⟩ := CLAMP_div_opt (b - c) a ha
  obtain ⟨q1, q2⟩ := CLAMP_mem ((b - c) / a)
  unfold secondPass IsStationary
  dsimp only
  split_ifs with h5 h6 <;> dsimp only
  · have hneg : f ≤ 0 := by
      by_contra hc; push_neg at hc
      have : 0 ≤ (b * 0 + f) / e := div_nonneg (by linarith) he.le
      exact absurd h5 (not_lt.mpr this)
    have := recomputed_keeps_sign_parallel a b c f _ ha haf n1 m1 hneg
    generalize CLAMP (-c / a) 0 1 = s at *
    refine ⟨⟨n1, n2⟩, ⟨le_refl _, zero_le_one⟩, ?_, ?_, ?_, ?_⟩
    · intro h; have := m1 h; linarith
    · intro h; have := m2 h; linarith
    · intro h; exact absurd h (lt_irrefl _)
    · intro _; linarith
  · have hbig : e < f := by
      have := (lt_div_iff₀ he).mp h6; linarith
    have := recomputed_keeps_sign_parallel a (-b) (c - b) (e - f) (CLAMP ((b - c) / a) 0 1) ha
      (by linarith) q1 (fun h => by have := p1 h; linarith) (by linarith)
    generalize CLAMP ((b - c) / a) 0 1 = s at *
    refine ⟨⟨q1, q2⟩, ⟨zero_le_one, le_refl _⟩, ?_, ?_, ?_, ?_⟩
    · intro h; have := p1 h; linarith
    · intro h; have := p2 h; linarith
    · intro _; linarith
    · intro h; exact absurd h (lt_irrefl _)
  · have ht0 := not_lt.mp h5
    have ht1 := not_lt.mp h6
    have het : e * ((b * 0 + f) / e) = f := by field_simp
    have key : e * (a * 0 - b * ((b * 0 + f) / e) + c) = 0 := by
      field_simp; linarith
    have key2 : a * 0 - b * ((b * 0 + f) / e) + c = 0 := by
      rcases mul_eq_zero.mp key with h | h
      · exact absurd h he.ne'
      · exact h
    refine ⟨⟨le_refl _, zero_le_one⟩, ⟨ht0, ht1⟩, ?_, ?_, ?_, ?_⟩
    · intro _; rw [key2]
    · intro _; rw [key2]
    · intro _; rw [het]; linarith
    · intro _; rw [het]; linarith

/-- Stationarity of the computed parameters when no compared quantity lies strictly between
zero and the threshold, for scalar products that come from vectors. -/
theorem segmentParameters_stationary (a b c e f : K)
    (hA : a = 0 ∨ EPSILON < a) (hE : e = 0 ∨ EPSILON < e)
    (hD : a * e - b * b = 0 ∨ EPSILON < a * e - b * b)
    (ha0 : a = 0 → b = 0 ∧ c = 0) (he0 : e = 0 → b = 0 ∧ f = 0)
    (hpar : a * e - b * b = 0 → c * e = b * f ∧ a * f = b * c) :
    IsStationary a b c e f (segmentParameters a b c e f).1 (segmentParameters a b c e f).2 := by
  have hpos : (0 : K) < EPSILON := EPSILON_pos
  have h01 : (0 : K) ≤ 1 := zero_le_one
  unfold segmentParameters
  split_ifs with h1 h2 h3
  · -- both segments are points
    have a0 : a = 0 := hA.resolve_right (not_lt.mpr h1.1)
    have e0 : e = 0 := hE.resolve_right (not_lt.mpr h1.2)
    obtain ⟨b0, c0⟩ := ha0 a0
    obtain ⟨_, f0⟩ := he0 e0
    subst a0 e0 b0 c0 f0
    unfold IsStationary
    simp
  · -- the first segment is a point
    have a0 : a = 0 := hA.resolve_right (not_lt.mpr h2)
    have he : 0 < e := by
      rcases le_or_lt e EPSILON with h | h
      · exact absurd ⟨h2, h⟩ h1
      · exact lt_trans hpos h
    obtain ⟨b0, c0⟩ := ha0 a0
    subst a0 b0 c0
    obtain ⟨m1, m2⟩ := CLAMP_div_opt f e he
    obtain ⟨n1, n2⟩ := CLAMP_mem (f / e)
    unfold IsStationary
    dsimp only
    generalize CLAMP (f / e) 0 1 = t at *
    refine ⟨⟨le_refl _, h01⟩, ⟨n1, n2⟩, ?_, ?_, ?_, ?_⟩
    · intro _; simp
    · intro _; simp
    · intro h; have := m1 h; linarith
    · intro h; have := m2 h; linarith
  · -- the second segment is a point
    have e0 : e = 0 := hE.resolve_right (not_lt.mpr h3)
    have ha : 0 < a := lt_trans hpos (not_le.mp h2)
    obtain ⟨b0, f0⟩ := he0 e0
    subst e0 b0 f0
    obtain ⟨m1, m2⟩ := CLAMP_div_opt (-c) a ha
    obtain ⟨n1, n2⟩ := CLAMP_mem (-c / a)
    unfold IsStationary
    dsimp only
    generalize CLAMP (-c / a) 0 1 = s at *
    refine ⟨⟨n1, n2⟩, ⟨le_refl _, h01⟩, ?_, ?_, ?_, ?_⟩
    · intro h; have := m1 h; linarith
    · intro h; have := m2 h; linarith
    · intro _; simp
    · intro _; simp
  · have ha : 0 < a := lt_trans hpos (not_le.mp h2)
    have he : 0 < e := lt_trans hpos (not_le.mp h3)
    rcases hD with hD | hD
    · obtain ⟨hce, haf⟩ := hpar hD
      exact secondPass_stationary_of_parallel a b c e f ha he hD hce haf
    · exact secondPass_stationary_of_pos a b c e f ha he hD

/-! ### Optimality of the witness points -/

/-- A stationary pair of parameters satisfies the variational inequality of the closest pair:
the difference of the two points makes a non-negative scalar product with every admissible
change of that difference. -/
theorem stationary_variational (p1 d1 p2 d2 : Vec3f K) (s0 t0 : K)
    (h : IsStationary (d1.dot d1) (d1.dot d2) (d1.dot (p1 - p2)) (d2.dot d2) (d2.dot (p1 - p2))
      s0 t0) (s t : K) (hs : 0 ≤ s ∧ s ≤ 1) (ht : 0 ≤ t ∧ t ≤ 1) :
    0 ≤ ((p1 + s0 * d1) - (p2 + t0 * d2)).dot
      (((p1 + s * d1) - (p2 + t * d2)) - ((p1 + s0 * d1) - (p2 + t0 * d2))) := by
  obtain ⟨⟨hs0, hs1⟩, ⟨ht0, ht1⟩, g1, g2, g3, g4⟩ := h
  have key : ((p1 + s0 * d1) - (p2 + t0 * d2)).dot
      (((p1 + s * d1) - (p2 + t * d2)) - ((p1 + s0 * d1) - (p2 + t0 * d2))) =
      (s - s0) * (d1.dot d1 * s0 - d1.dot d2 * t0 + d1.dot (p1 - p2)) +
      (t - t0) * (d2.dot d2 * t0 - d1.dot d2 * s0 - d2.dot (p1 - p2)) := by
    simp only [Vec3f.dot, Vec3f.sub_x, Vec3f.sub_y, Vec3f.sub_z, Vec3f.add_x, Vec3f.add_y,
      Vec3f.add_z, Vec3f.smul_x, Vec3f.smul_y, Vec3f.smul_z]
    ring
  rw [key]
  have hS : 0 ≤ (s - s0) * (d1.dot d1 * s0 - d1.dot d2 * t0 + d1.dot (p1 - p2)) := by
    rcases lt_trichotomy s s0 with hlt | heq | hgt
    · exact mul_nonneg_of_nonpos_of_nonpos (by linarith) (g1 (lt_of_le_of_lt hs.1 hlt))
    · rw [heq, sub_self, zero_mul]
    · exact mul_nonneg (by linarith) (g2 (lt_of_lt_of_le hgt hs.2))
  have hT : 0 ≤ (t - t0) * (d2.dot d2 * t0 - d1.dot d2 * s0 - d2.dot (p1 - p2)) := by
    rcases lt_trichotomy t t0 with hlt | heq | hgt
    · exact mul_nonneg_of_nonpos_of_nonpos (by linarith) (g3 (lt_of_le_of_lt ht.1 hlt))
    · rw [heq, sub_self, zero_mul]
    · exact mul_nonneg (by linarith) (g4 (lt_of_lt_of_le hgt ht.2))
  linarith

/-- The computed parameters are stationary whenever the capsule pair is threshold-free. -/
theorem capsuleParameters_stationary (o1 : Capsule K) (tf1 : Transform3f K)
    (o2 : Capsule K) (tf2 : Transform3f K) (h : ThresholdFree o1 tf1 o2 tf2) :
    IsStationary
      ((segmentDirection o1 tf1).dot (segmentDirection o1 tf1))
      ((segmentDirection o1 tf1).dot (segmentDirection o2 tf2))
      ((segmentDirection o1 tf1).dot (segmentStart o1 tf1 - segmentStart o2 tf2))
      ((segmentDirection o2 tf2).dot (segmentDirection o2 tf2))
      ((segmentDirection o2 tf2).dot (segmentStart o1 tf1 - segmentStart o2 tf2))
      (capsuleParameters o1 tf1 o2 tf2).1 (capsuleParameters o1 tf1 o2 tf2).2 := by
  obtain ⟨hA, hE, hD⟩ := h
  unfold capsuleParameters
  dsimp only
  apply segmentParameters_stationary _ _ _ _ _ hA hE hD
  · intro h0
    exact ⟨Vec3f.dot_eq_zero_of_dot_self _ _ h0, Vec3f.dot_eq_zero_of_dot_self _ _ h0⟩
  · intro h0
    exact ⟨by rw [Vec3f.dot_comm]; exact Vec3f.dot_eq_zero_of_dot_self _ _ h0,
      Vec3f.dot_eq_zero_of_dot_self _ _ h0⟩
  · intro h0
    refine ⟨Vec3f.dot_proportional _ _ _ h0, ?_⟩
    have h0' : (segmentDirection o2 tf2).dot (segmentDirection o2 tf2) *
        (segmentDirection o1 tf1).dot (segmentDirection o1 tf1) -
        (segmentDirection o2 tf2).dot (segmentDirection o1 tf1) *
        (segmentDirection o2 tf2).dot (segmentDirection o1 tf1) = 0 := by
      rw [Vec3f.dot_comm (segmentDirection o2 tf2) (segmentDirection o1 tf1)]; linarith
    have := Vec3f.dot_proportional _ _ (segmentStart o1 tf1 - segmentStart o2 tf2) h0'
    rw [Vec3f.dot_comm (segmentDirection o2 tf2) (segmentDirection o1 tf1)] at this
    linarith

/-- Variational inequality of the witness points of a threshold-free capsule pair. -/
theorem witnessPoints_variational (o1 : Capsule K) (tf1 : Transform3f K)
    (o2 : Capsule K) (tf2 : Transform3f K) (h : ThresholdFree o1 tf1 o2 tf2)
    (s t : K) (hs : 0 ≤ s ∧ s ≤ 1) (ht : 0 ≤ t ∧ t ≤ 1) :
    0 ≤ ((witnessPoints o1 tf1 o2 tf2).1 - (witnessPoints o1 tf1 o2 tf2).2).dot
      ((segmentPoint o1 tf1 s - segmentPoint o2 tf2 t) -
        ((witnessPoints o1 tf1 o2 tf2).1 - (witnessPoints o1 tf1 o2 tf2).2)) :=
  stationary_variational _ _ _ _ _ _ (capsuleParameters_stationary o1 tf1 o2 tf2 h) s t hs ht

/-- A vector that satisfies the variational inequality against `v` is no longer than `v`. -/
theorem squaredNorm_le_of_variational (u v : Vec3f K) (h : 0 ≤ u.dot (v - u)) :
    u.squaredNorm ≤ v.squaredNorm := by
  have key : v.squaredNorm = u.squaredNorm + 2 * u.dot (v - u) + (v - u).squaredNorm := by
    simp only [Vec3f.squaredNorm, Vec3f.dot, Vec3f.sub_x, Vec3f.sub_y, Vec3f.sub_z]; ring
  have := Vec3f.squaredNorm_nonneg (v - u)
  linarith

/-- Optimality of the witness points of a threshold-free capsule pair. -/
theorem witnessPoints_optimal (o1 : Capsule K) (tf1 : Transform3f K)
    (o2 : Capsule K) (tf2 : Transform3f K) (h : ThresholdFree o1 tf1 o2 tf2)
    (s t : K) (hs : 0 ≤ s ∧ s ≤ 1) (ht : 0 ≤ t ∧ t ≤ 1) :
    ((witnessPoints o1 tf1 o2 tf2).1 - (witnessPoints o1 tf1 o2 tf2).2).squaredNorm ≤
      (segmentPoint o1 tf1 s - segmentPoint o2 tf2 t).squaredNorm :=
  squaredNorm_le_of_variational _ _ (witnessPoints_variational o1 tf1 o2 tf2 h s t hs ht)

/-! ### The capsule distance -/

theorem capsuleParameters_range (o1 : Capsule K) (tf1 : Transform3f K)
    (o2 : Capsule K) (tf2 : Transform3f K) :
    (0 ≤ (capsuleParameters o1 tf1 o2 tf2).1 ∧ (capsuleParameters o1 tf1 o2 tf2).1 ≤ 1) ∧
    (0 ≤ (capsuleParameters o1 tf1 o2 tf2).2 ∧ (capsuleParameters o1 tf1 o2 tf2).2 ≤ 1) :=
  segmentParameters_range _ _ _ _ _

theorem witnessPoints_fst (o1 : Capsule K) (tf1 : Transform3f K)
    (o2 : Capsule K) (tf2 : Transform3f K) :
    (witnessPoints o1 tf1 o2 tf2).1 = segmentPoint o1 tf1 (capsuleParameters o1 tf1 o2 tf2).1 :=
  rfl

theorem witnessPoints_snd (o1 : Capsule K) (tf1 : Transform3f K)
    (o2 : Capsule K) (tf2 : Transform3f K) :
    (witnessPoints o1 tf1 o2 tf2).2 = segmentPoint o2 tf2 (capsuleParameters o1 tf1 o2 tf2).2 :=
  rfl

/-- The returned distance, whatever the request and the incoming result. -/
theorem ShapeShapeDistance_fst (sqrt : K → K) (o1 : Capsule K) (tf1 : Transform3f K)
    (o2 : Capsule K) (tf2 : Transform3f K) (request : DistanceRequest)
    (result : DistanceResult K) :
    (ShapeShapeDistance sqrt o1 tf1 o2 tf2 request result).1 =
      ((witnessPoints o1 tf1 o2 tf2).1 - (witnessPoints o1 tf1 o2 tf2).2).norm sqrt -
        (o1.radius + o2.radius) := rfl

/-- C1 (amended): the value returned by `ShapeShapeDistance <Capsule, Capsule>` is stored in
`result.min_distance`; it is `|P(s) - Q(t)| - (r1 + r2)` at parameters `s, t ∈ [0, 1]`; and it
is the minimum over `s, t ∈ [0, 1]` of `|P(s) - Q(t)|` minus `(r1 + r2)` whenever each squared
segment length and the Gram determinant `a·e - b²` is zero or exceeds `EPSILON`. -/
theorem ShapeShapeDistance_minimum (sqrt : K → K) (hsqrt : IsSqrt sqrt)
    (o1 : Capsule K) (tf1 : Transform3f K) (o2 : Capsule K) (tf2 : Transform3f K)
    (request : DistanceRequest) (result : DistanceResult K) :
    (ShapeShapeDistance sqrt o1 tf1 o2 tf2 request result).2.min_distance =
      (ShapeShapeDistance sqrt o1 tf1 o2 tf2 request result).1 ∧
    (ShapeShapeDistance sqrt o1 tf1 o2 tf2 request result).1 + (o1.radius + o2.radius) ∈
      segmentDistances sqrt o1 tf1 o2 tf2 ∧
    (ThresholdFree o1 tf1 o2 tf2 →
      IsCapsuleDistance sqrt o1 tf1 o2 tf2
        (ShapeShapeDistance sqrt o1 tf1 o2 tf2 request result).1) := by
  have hmem : (ShapeShapeDistance sqrt o1 tf1 o2 tf2 request result).1 +
      (o1.radius + o2.radius) ∈ segmentDistances sqrt o1 tf1 o2 tf2 := by
    refine ⟨(capsuleParameters o1 tf1 o2 tf2).1, (capsuleParameters o1 tf1 o2 tf2).2,
      (capsuleParameters_range o1 tf1 o2 tf2).1, (capsuleParameters_range o1 tf1 o2 tf2).2, ?_⟩
    rw [ShapeShapeDistance_fst, witnessPoints_fst, witnessPoints_snd]
    ring
  refine ⟨rfl, hmem, ?_⟩
  intro hfree
  refine ⟨(ShapeShapeDistance sqrt o1 tf1 o2 tf2 request result).1 + (o1.radius + o2.radius),
    ⟨hmem, ?_⟩, by ring⟩
  rintro x ⟨s, t, hs, ht, rfl⟩
  rw [ShapeShapeDistance_fst]
  have := witnessPoints_optimal o1 tf1 o2 tf2 hfree s t hs ht
  have h2 := hsqrt.sqrt_mono (Vec3f.squaredNorm_nonneg _) this
  unfold Vec3f.norm
  linarith

/-! #### Evaluations over the real numbers -/

/-- Evaluation: two capsules of half-length 1 and radius 1/2 along z, centred at the origin
and at (0, 0, 4), are threshold-free. -/
theorem thresholdFree_apart :
    ThresholdFree (⟨1 / 2, 1⟩ : Capsule ℝ) ⟨Matrix3f.identity, ⟨0, 0, 0⟩⟩
      ⟨1 / 2, 1⟩ ⟨Matrix3f.identity, ⟨0, 0, 4⟩⟩ := by
  simp only [ThresholdFree, segmentDirection, Matrix3f.identity, Matrix3f.col, Vec3f.dot,
    Vec3f.smul_x, Vec3f.smul_y, Vec3f.smul_z, EPSILON]
  norm_num

/-- Evaluation: the witness points of these two capsules are (0, 0, 1) and (0, 0, 3). -/
theorem witnessPoints_apart :
    witnessPoints (⟨1 / 2, 1⟩ : Capsule ℝ) ⟨Matrix3f.identity, ⟨0, 0, 0⟩⟩
      ⟨1 / 2, 1⟩ ⟨Matrix3f.identity, ⟨0, 0, 4⟩⟩ = (⟨0, 0, 1⟩, ⟨0, 0, 3⟩) := by
  simp [witnessPoints, capsuleParameters, segmentParameters, firstPass, secondPass,
    segmentStart, segmentDirection, Matrix3f.identity, Matrix3f.col, Vec3f.dot, EPSILON,
    CLAMP, Vec3f.ext_iff]
  norm_num

/-- Evaluation: the distance returned for these two capsules is 1. -/
theorem distance_apart (request : DistanceRequest) (result : DistanceResult ℝ) :
    (ShapeShapeDistance Real.sqrt (⟨1 / 2, 1⟩ : Capsule ℝ)
      ⟨Matrix3f.identity, ⟨0, 0, 0⟩⟩ ⟨1 / 2, 1⟩ ⟨Matrix3f.identity, ⟨0, 0, 4⟩⟩ request
      result).1 = 1 := by
  rw [ShapeShapeDistance_fst, witnessPoints_apart]
  have : ((⟨0, 0, 1⟩ : Vec3f ℝ) - ⟨0, 0, 3⟩).squaredNorm = 2 * 2 := by
    simp [Vec3f.squaredNorm, Vec3f.dot]; norm_num
  simp only [Vec3f.norm, this]
  rw [Real.sqrt_mul_self (by norm_num)]
  norm_num

/-- Evaluation: witness points of a capsule of half-length 2^-30 at the origin and a capsule
of half-length 0 at (0, 0, 1). -/
theorem witnessPoints_short :
    witnessPoints (⟨1 / 4, 1 / 2 ^ 30⟩ : Capsule ℝ)
      ⟨Matrix3f.identity, ⟨0, 0, 0⟩⟩ ⟨1 / 4, 0⟩ ⟨Matrix3f.identity, ⟨0, 0, 1⟩⟩ =
      (⟨0, 0, -(1 / 2 ^ 30)⟩, ⟨0, 0, 1⟩) := by
  simp [witnessPoints, capsuleParameters, segmentParameters, segmentStart, segmentDirection,
    Matrix3f.identity, Matrix3f.col, Vec3f.dot, EPSILON, CLAMP, Vec3f.ext_iff]
  norm_num

/-- Evaluation: the raw distance between these witness points is 1 + 2^-30. -/
theorem norm_short :
    ((⟨0, 0, -(1 / 2 ^ 30)⟩ : Vec3f ℝ) - ⟨0, 0, 1⟩).norm Real.sqrt = 1 + 1 / 2 ^ 30 := by
  have : ((⟨0, 0, -(1 / 2 ^ 30)⟩ : Vec3f ℝ) - ⟨0, 0, 1⟩).squaredNorm =
      (1 + 1 / 2 ^ 30) * (1 + 1 / 2 ^ 30) := by
    simp [Vec3f.squaredNorm, Vec3f.dot]; ring
  simp only [Vec3f.norm, this]
  rw [Real.sqrt_mul_self (by positivity)]

/-- Evaluation: the first nearest point reported for this pair is (0, 0, 1/4 - 2^-30). -/
theorem nearest_point_short :
    (ShapeShapeDistance Real.sqrt (⟨1 / 4, 1 / 2 ^ 30⟩ : Capsule ℝ)
      ⟨Matrix3f.identity, ⟨0, 0, 0⟩⟩ ⟨1 / 4, 0⟩ ⟨Matrix3f.identity, ⟨0, 0, 1⟩⟩
      ⟨true⟩ ⟨0, (none, none), none⟩).2.nearest_points.1 =
      some ⟨0, 0, 1 / 4 - 1 / 2 ^ 30⟩ := by
  simp only [ShapeShapeDistance, witnessPoints_short, norm_short, divideByDistance]
  have hne : ¬ ((1 : ℝ) + 1 / 2 ^ 30 = 0) := by positivity
  simp only [if_neg hne, if_true, Option.map_some', Option.some.injEq, Vec3f.ext_iff,
    Vec3f.sub_x, Vec3f.sub_y, Vec3f.sub_z, Vec3f.smul_x, Vec3f.smul_y, Vec3f.smul_z,
    Vec3f.div_x, Vec3f.div_y, Vec3f.div_z]
  refine ⟨by norm_num, by norm_num, ?_⟩
  field_simp
  ring

/-! #### C1 -/

/-- Witness of C1 (amended): two capsules of half-length 1 and radius 1/2 along z, centred at
the origin and at (0, 0, 4), over the real numbers; the distance is 1. -/
theorem ShapeShapeDistance_minimum_witness :
    IsSqrt Real.sqrt ∧
    ThresholdFree (⟨1 / 2, 1⟩ : Capsule ℝ) ⟨Matrix3f.identity, ⟨0, 0, 0⟩⟩
      ⟨1 / 2, 1⟩ ⟨Matrix3f.identity, ⟨0, 0, 4⟩⟩ ∧
    (ShapeShapeDistance Real.sqrt (⟨1 / 2, 1⟩ : Capsule ℝ) ⟨Matrix3f.identity, ⟨0, 0, 0⟩⟩
        ⟨1 / 2, 1⟩ ⟨Matrix3f.identity, ⟨0, 0, 4⟩⟩ ⟨true⟩ ⟨0, (none, none), none⟩).1 = 1 ∧
    IsCapsuleDistance Real.sqrt (⟨1 / 2, 1⟩ : Capsule ℝ) ⟨Matrix3f.identity, ⟨0, 0, 0⟩⟩
      ⟨1 / 2, 1⟩ ⟨Matrix3f.identity, ⟨0, 0, 4⟩⟩
      (ShapeShapeDistance Real.sqrt (⟨1 / 2, 1⟩ : Capsule ℝ) ⟨Matrix3f.identity, ⟨0, 0, 0⟩⟩
        ⟨1 / 2, 1⟩ ⟨Matrix3f.identity, ⟨0, 0, 4⟩⟩ ⟨true⟩ ⟨0, (none, none), none⟩).1 :=
  ⟨isSqrt_real, thresholdFree_apart, distance_apart _ _,
    (ShapeShapeDistance_minimum Real.sqrt isSqrt_real _ _ _ _ _ _).2.2 thresholdFree_apart⟩

/-- Counterexample to C1 as stated: a capsule of half-length 2^-30 (squared segment length
2^-58, below the threshold) at the origin and a capsule of half-length 0 at (0, 0, 1), both
of radius 1/4. The code keeps `s = 0` and returns `1 + 2^-30 - 1/2`, while the end `s = 1` of
the first segment is at distance `1 - 2^-30` from the second one. -/
theorem ShapeShapeDistance_minimum_counterexample :
    ¬ IsCapsuleDistance Real.sqrt (⟨1 / 4, 1 / 2 ^ 30⟩ : Capsule ℝ)
      ⟨Matrix3f.identity, ⟨0, 0, 0⟩⟩ ⟨1 / 4, 0⟩ ⟨Matrix3f.identity, ⟨0, 0, 1⟩⟩
      (ShapeShapeDistance Real.sqrt (⟨1 / 4, 1 / 2 ^ 30⟩ : Capsule ℝ)
        ⟨Matrix3f.identity, ⟨0, 0, 0⟩⟩ ⟨1 / 4, 0⟩ ⟨Matrix3f.identity, ⟨0, 0, 1⟩⟩
        ⟨true⟩ ⟨0, (none, none), none⟩).1 := by
  rw [ShapeShapeDistance_fst, witnessPoints_short, norm_short]
  rintro ⟨m, ⟨_, hlow⟩, hv⟩
  have hx : (1 : ℝ) - 1 / 2 ^ 30 ∈ segmentDistances Real.sqrt (⟨1 / 4, 1 / 2 ^ 30⟩ : Capsule ℝ)
      ⟨Matrix3f.identity, ⟨0, 0, 0⟩⟩ ⟨1 / 4, 0⟩ ⟨Matrix3f.identity, ⟨0, 0, 1⟩⟩ := by
    refine ⟨1, 0, ⟨zero_le_one, le_refl _⟩, ⟨le_refl _, zero_le_one⟩, ?_⟩
    have : (segmentPoint (⟨1 / 4, 1 / 2 ^ 30⟩ : Capsule ℝ) ⟨Matrix3f.identity, ⟨0, 0, 0⟩⟩ 1 -
        segmentPoint (⟨1 / 4, 0⟩ : Capsule ℝ) ⟨Matrix3f.identity, ⟨0, 0, 1⟩⟩ 0).squaredNorm =
        (1 - 1 / 2 ^ 30) * (1 - 1 / 2 ^ 30) := by
      simp [segmentPoint, segmentStart, segmentDirection, Matrix3f.identity, Matrix3f.col,
        Vec3f.squaredNorm, Vec3f.dot]
      ring
    simp only [Vec3f.norm, this]
    rw [Real.sqrt_mul_self (by norm_num)]
  have := hlow hx
  norm_num at hv
  linarith

/-- The raw distance between distinct witness points is positive. -/
theorem witness_norm_pos (sqrt : K → K) (hsqrt : IsSqrt sqrt) (u v : Vec3f K) (h : u ≠ v) :
    0 < (u - v).norm sqrt := by
  have h0 := Vec3f.squaredNorm_nonneg (u - v)
  have h1 := hsqrt.sqrt_nonneg _ h0
  rcases eq_or_lt_of_le h1 with h2 | h2
  · exact absurd ((hsqrt.sqrt_eq_zero_iff _ h0).mp h2.symm) (Vec3f.squaredNorm_ne_zero_of_ne u v h)
  · exact h2

/-- The normal `(w1 - w2) / |w1 - w2|` has unit length when the divisor is not zero. -/
theorem unit_normal (sqrt : K → K) (hsqrt : IsSqrt sqrt) (u : Vec3f K)
    (h : u.norm sqrt ≠ 0) : (u / u.norm sqrt).squaredNorm = 1 := by
  rw [Vec3f.squaredNorm_div]
  unfold Vec3f.norm at *
  rw [hsqrt.sqrt_mul_self _ (Vec3f.squaredNorm_nonneg u)]
  have : u.squaredNorm ≠ 0 := by
    intro h0
    exact h ((hsqrt.sqrt_eq_zero_iff _ (Vec3f.squaredNorm_nonneg u)).mpr h0)
  exact div_self this

/-- C7: for capsules whose segment witness points are distinct, with nearest-point reporting
enabled, the reported nearest points realise the reported distance:
`nearest_points[0] - nearest_points[1] = min_distance · normal`, hence
`|nearest_points[0] - nearest_points[1]| = |min_distance|`, and the normal has unit length. -/
theorem nearest_points_realize_distance (sqrt : K → K) (hsqrt : IsSqrt sqrt)
    (o1 : Capsule K) (tf1 : Transform3f K) (o2 : Capsule K) (tf2 : Transform3f K)
    (result : DistanceResult K)
    (hne : (witnessPoints o1 tf1 o2 tf2).1 ≠ (witnessPoints o1 tf1 o2 tf2).2) :
    ∃ n0 n1 n : Vec3f K,
      (ShapeShapeDistance sqrt o1 tf1 o2 tf2 ⟨true⟩ result).2.nearest_points =
        (some n0, some n1) ∧
      (ShapeShapeDistance sqrt o1 tf1 o2 tf2 ⟨true⟩ result).2.normal = some n ∧
      n0 - n1 = (ShapeShapeDistance sqrt o1 tf1 o2 tf2 ⟨true⟩ result).2.min_distance * n ∧
      (n0 - n1).norm sqrt = |(ShapeShapeDistance sqrt o1 tf1 o2 tf2 ⟨true⟩ result).2.min_distance| ∧
      n.norm sqrt = 1 := by
  have hpos := witness_norm_pos sqrt hsqrt _ _ hne
  have hD : ((witnessPoints o1 tf1 o2 tf2).1 - (witnessPoints o1 tf1 o2 tf2).2).norm sqrt ≠ 0 :=
    hpos.ne'
  have hunit := unit_normal sqrt hsqrt _ hD
  simp only [ShapeShapeDistance, divideByDistance, if_neg hD, if_true, Option.map_some']
  generalize (witnessPoints o1 tf1 o2 tf2).1 = w1 at *
  generalize (witnessPoints o1 tf1 o2 tf2).2 = w2 at *
  generalize hDd : (w1 - w2).norm sqrt = D at *
  refine ⟨_, _, _, rfl, rfl, ?_, ?_, ?_⟩
  · have hx : D * ((w1 - w2) / D).x = (w1 - w2).x := by
      rw [Vec3f.div_x]; field_simp
    have hy : D * ((w1 - w2) / D).y = (w1 - w2).y := by
      rw [Vec3f.div_y]; field_simp
    have hz : D * ((w1 - w2) / D).z = (w1 - w2).z := by
      rw [Vec3f.div_z]; field_simp
    simp only [Vec3f.sub_x, Vec3f.sub_y, Vec3f.sub_z] at hx hy hz
    ext
    · simp only [Vec3f.sub_x, Vec3f.add_x, Vec3f.smul_x]; linarith
    · simp only [Vec3f.sub_y, Vec3f.add_y, Vec3f.smul_y]; linarith
    · simp only [Vec3f.sub_z, Vec3f.add_z, Vec3f.smul_z]; linarith
  · have hsq : ((w1 - o1.radius * ((w1 - w2) / D)) - (w2 + o2.radius * ((w1 - w2) / D))).squaredNorm
        = (D - (o1.radius + o2.radius)) * (D - (o1.radius + o2.radius)) := by
      have h1 : ((w1 - o1.radius * ((w1 - w2) / D)) - (w2 + o2.radius * ((w1 - w2) / D))) =
          (D - (o1.radius + o2.radius)) * ((w1 - w2) / D) := by
        have hx : D * ((w1 - w2) / D).x = (w1 - w2).x := by
          rw [Vec3f.div_x]; field_simp
        have hy : D * ((w1 - w2) / D).y = (w1 - w2).y := by
          rw [Vec3f.div_y]; field_simp
        have hz : D * ((w1 - w2) / D).z = (w1 - w2).z := by
          rw [Vec3f.div_z]; field_simp
        simp only [Vec3f.sub_x, Vec3f.sub_y, Vec3f.sub_z] at hx hy hz
        ext
        · simp only [Vec3f.sub_x, Vec3f.add_x, Vec3f.smul_x]; linarith
        · simp only [Vec3f.sub_y, Vec3f.add_y, Vec3f.smul_y]; linarith
        · simp only [Vec3f.sub_z, Vec3f.add_z, Vec3f.smul_z]; linarith
      rw [h1, Vec3f.squaredNorm_smul, hunit, mul_one]
    unfold Vec3f.norm
    rw [hsq]
    exact hsqrt.sqrt_of_mul_self_abs _
  · unfold Vec3f.norm
    rw [hunit]
    have := hsqrt.sqrt_of_mul_self 1 zero_le_one
    rwa [mul_one] at this

/-- A point pulled from `w` by `r` along the unit vector `v / D` stays at distance at least
`r` from every point `P` on the far side of the plane through `w` orthogonal to `v`. -/
theorem pulled_point_far (sqrt : K → K) (hsqrt : IsSqrt sqrt) (w v P : Vec3f K) (D r : K)
    (hD : 0 < D) (hDD : D * D = v.squaredNorm) (hr : 0 ≤ r) (hvar : 0 ≤ v.dot (P - w)) :
    r ≤ ((w - r * (v / D)) - P).norm sqrt := by
  have key : ((w - r * (v / D)) - P).squaredNorm =
      (w - P).squaredNorm + 2 * r * (v.dot (P - w)) / D + r * r := by
    have h1 : r * r = r * r * (v.squaredNorm / (D * D)) := by
      rw [← hDD, div_self (mul_pos hD hD).ne', mul_one]
    rw [h1]
    simp only [Vec3f.squaredNorm, Vec3f.dot, Vec3f.sub_x, Vec3f.sub_y, Vec3f.sub_z,
      Vec3f.smul_x, Vec3f.smul_y, Vec3f.smul_z, Vec3f.div_x, Vec3f.div_y, Vec3f.div_z]
    field_simp
    ring
  have h2 : r * r ≤ ((w - r * (v / D)) - P).squaredNorm := by
    rw [key]
    have := Vec3f.squaredNorm_nonneg (w - P)
    have : 0 ≤ 2 * r * (v.dot (P - w)) / D :=
      div_nonneg (mul_nonneg (mul_nonneg zero_le_two hr) hvar) hD.le
    linarith
  have h3 := hsqrt.sqrt_mono (mul_self_nonneg r) h2
  rw [hsqrt.sqrt_of_mul_self r hr] at h3
  exact h3

/-- A point pulled from `w` by `r` along the unit vector `v / D` is at distance `r`
from `w`. -/
theorem pulled_point_near (sqrt : K → K) (hsqrt : IsSqrt sqrt) (w v : Vec3f K) (D r : K)
    (hD : 0 < D) (hDD : D * D = v.squaredNorm) (hr : 0 ≤ r) :
    ((w - r * (v / D)) - w).norm sqrt = r := by
  have key : ((w - r * (v / D)) - w).squaredNorm = r * r := by
    have h1 : r * r = r * r * (v.squaredNorm / (D * D)) := by
      rw [← hDD, div_self (mul_pos hD hD).ne', mul_one]
    rw [h1]
    simp only [Vec3f.squaredNorm, Vec3f.dot, Vec3f.sub_x, Vec3f.sub_y, Vec3f.sub_z,
      Vec3f.smul_x, Vec3f.smul_y, Vec3f.smul_z, Vec3f.div_x, Vec3f.div_y, Vec3f.div_z]
    field_simp
    ring
  unfold Vec3f.norm
  rw [key]
  exact hsqrt.sqrt_of_mul_self r hr

theorem add_smul_div_eq (w1 w2 : Vec3f K) (D r : K) :
    w2 + r * ((w1 - w2) / D) = w2 - r * ((w2 - w1) / D) := by
  ext <;>
  simp only [Vec3f.sub_x, Vec3f.sub_y, Vec3f.sub_z, Vec3f.add_x, Vec3f.add_y, Vec3f.add_z,
      Vec3f.smul_x, Vec3f.smul_y, Vec3f.smul_z, Vec3f.div_x, Vec3f.div_y, Vec3f.div_z] <;>
  ring

theorem squaredNorm_sub_comm (u v : Vec3f K) : (u - v).squaredNorm = (v - u).squaredNorm := by
  simp only [Vec3f.squaredNorm, Vec3f.dot, Vec3f.sub_x, Vec3f.sub_y, Vec3f.sub_z]; ring

/-- C6 (amended): for capsules of non-negative radii in which each squared segment length and
the Gram determinant is zero or exceeds `EPSILON`, if `ShapeShapeDistance` returns a positive
`min_distance` with nearest-point reporting enabled, each reported nearest point lies exactly
on its own capsule's surface: its distance to that capsule's medial segment is the radius. -/
theorem nearest_points_on_surface (sqrt : K → K) (hsqrt : IsSqrt sqrt)
    (o1 : Capsule K) (tf1 : Transform3f K) (o2 : Capsule K) (tf2 : Transform3f K)
    (result : DistanceResult K) (hfree : ThresholdFree o1 tf1 o2 tf2)
    (hr1 : 0 ≤ o1.radius) (hr2 : 0 ≤ o2.radius)
    (hpos : 0 < (ShapeShapeDistance sqrt o1 tf1 o2 tf2 ⟨true⟩ result).2.min_distance) :
    ∃ n0 n1 : Vec3f K,
      (ShapeShapeDistance sqrt o1 tf1 o2 tf2 ⟨true⟩ result).2.nearest_points =
        (some n0, some n1) ∧
      IsLeast (pointSegmentDistances sqrt n0 o1 tf1) o1.radius ∧
      IsLeast (pointSegmentDistances sqrt n1 o2 tf2) o2.radius := by
  have hpos' : 0 < ((witnessPoints o1 tf1 o2 tf2).1 - (witnessPoints o1 tf1 o2 tf2).2).norm sqrt -
      (o1.radius + o2.radius) := hpos
  have hD : 0 < ((witnessPoints o1 tf1 o2 tf2).1 - (witnessPoints o1 tf1 o2 tf2).2).norm sqrt := by
    linarith
  have hDD := hsqrt.sqrt_mul_self _ (Vec3f.squaredNorm_nonneg
    ((witnessPoints o1 tf1 o2 tf2).1 - (witnessPoints o1 tf1 o2 tf2).2))
  have hDD' : ((witnessPoints o1 tf1 o2 tf2).1 - (witnessPoints o1 tf1 o2 tf2).2).norm sqrt *
      ((witnessPoints o1 tf1 o2 tf2).1 - (witnessPoints o1 tf1 o2 tf2).2).norm sqrt =
      ((witnessPoints o1 tf1 o2 tf2).2 - (witnessPoints o1 tf1 o2 tf2).1).squaredNorm := by
    rw [squaredNorm_sub_comm (witnessPoints o1 tf1 o2 tf2).2]; exact hDD
  have hvar := witnessPoints_variational o1 tf1 o2 tf2 hfree
  have hrange := capsuleParameters_range o1 tf1 o2 tf2
  simp only [ShapeShapeDistance, divideByDistance, if_neg hD.ne', if_true, Option.map_some']
  refine ⟨_, _, rfl, ⟨?_, ?_⟩, ⟨?_, ?_⟩⟩
  · refine ⟨(capsuleParameters o1 tf1 o2 tf2).1, hrange.1, ?_⟩
    rw [← witnessPoints_fst]
    exact (pulled_point_near sqrt hsqrt _ _ _ _ hD hDD hr1).symm
  · rintro x ⟨u, hu, rfl⟩
    apply pulled_point_far sqrt hsqrt _ _ _ _ _ hD hDD hr1
    have := hvar u (capsuleParameters o1 tf1 o2 tf2).2 hu hrange.2
    rw [← witnessPoints_snd] at this
    have e : ((witnessPoints o1 tf1 o2 tf2).1 - (witnessPoints o1 tf1 o2 tf2).2).dot
        (segmentPoint o1 tf1 u - (witnessPoints o1 tf1 o2 tf2).2 -
          ((witnessPoints o1 tf1 o2 tf2).1 - (witnessPoints o1 tf1 o2 tf2).2)) =
        ((witnessPoints o1 tf1 o2 tf2).1 - (witnessPoints o1 tf1 o2 tf2).2).dot
          (segmentPoint o1 tf1 u - (witnessPoints o1 tf1 o2 tf2).1) := by
      simp only [Vec3f.dot, Vec3f.sub_x, Vec3f.sub_y, Vec3f.sub_z]; ring
    rw [e] at this
    exact this
  · refine ⟨(capsuleParameters o1 tf1 o2 tf2).2, hrange.2, ?_⟩
    rw [← witnessPoints_snd, add_smul_div_eq]
    exact (pulled_point_near sqrt hsqrt _ _ _ _ hD hDD' hr2).symm
  · rintro x ⟨u, hu, rfl⟩
    rw [add_smul_div_eq]
    apply pulled_point_far sqrt hsqrt _ _ _ _ _ hD hDD' hr2
    have := hvar (capsuleParameters o1 tf1 o2 tf2).1 u hrange.1 hu
    rw [← witnessPoints_fst] at this
    have e : ((witnessPoints o1 tf1 o2 tf2).1 - (witnessPoints o1 tf1 o2 tf2).2).dot
        ((witnessPoints o1 tf1 o2 tf2).1 - segmentPoint o2 tf2 u -
          ((witnessPoints o1 tf1 o2 tf2).1 - (witnessPoints o1 tf1 o2 tf2).2)) =
        ((witnessPoints o1 tf1 o2 tf2).2 - (witnessPoints o1 tf1 o2 tf2).1).dot
          (segmentPoint o2 tf2 u - (witnessPoints o1 tf1 o2 tf2).2) := by
      simp only [Vec3f.dot, Vec3f.sub_x, Vec3f.sub_y, Vec3f.sub_z]; ring
    rw [e] at this
    exact this

/-! #### C6 and C7: witnesses and counterexample -/

/-- Witness of C7: the two capsules of half-length 1 and radius 1/2 centred at the origin and
at (0, 0, 4), whose witness points (0, 0, 1) and (0, 0, 3) are distinct. -/
theorem nearest_points_realize_distance_witness :
    ∃ n0 n1 n : Vec3f ℝ,
      (ShapeShapeDistance Real.sqrt (⟨1 / 2, 1⟩ : Capsule ℝ) ⟨Matrix3f.identity, ⟨0, 0, 0⟩⟩
        ⟨1 / 2, 1⟩ ⟨Matrix3f.identity, ⟨0, 0, 4⟩⟩ ⟨true⟩ ⟨0, (none, none), none⟩).2.nearest_points
        = (some n0, some n1) ∧
      (ShapeShapeDistance Real.sqrt (⟨1 / 2, 1⟩ : Capsule ℝ) ⟨Matrix3f.identity, ⟨0, 0, 0⟩⟩
        ⟨1 / 2, 1⟩ ⟨Matrix3f.identity, ⟨0, 0, 4⟩⟩ ⟨true⟩ ⟨0, (none, none), none⟩).2.normal
        = some n ∧
      n0 - n1 = (ShapeShapeDistance Real.sqrt (⟨1 / 2, 1⟩ : Capsule ℝ)
        ⟨Matrix3f.identity, ⟨0, 0, 0⟩⟩ ⟨1 / 2, 1⟩ ⟨Matrix3f.identity, ⟨0, 0, 4⟩⟩ ⟨true⟩
        ⟨0, (none, none), none⟩).2.min_distance * n ∧
      (n0 - n1).norm Real.sqrt = |(ShapeShapeDistance Real.sqrt (⟨1 / 2, 1⟩ : Capsule ℝ)
        ⟨Matrix3f.identity, ⟨0, 0, 0⟩⟩ ⟨1 / 2, 1⟩ ⟨Matrix3f.identity, ⟨0, 0, 4⟩⟩ ⟨true⟩
        ⟨0, (none, none), none⟩).2.min_distance| ∧
      n.norm Real.sqrt = 1 :=
  nearest_points_realize_distance Real.sqrt isSqrt_real _ _ _ _ _
    (by rw [witnessPoints_apart]; simp [Vec3f.ext_iff])

/-- Witness of C6 (amended): the same two capsules; the returned distance 1 is positive and
each nearest point is at distance 1/2, the radius, from its medial segment. -/
theorem nearest_points_on_surface_witness :
    ∃ n0 n1 : Vec3f ℝ,
      (ShapeShapeDistance Real.sqrt (⟨1 / 2, 1⟩ : Capsule ℝ) ⟨Matrix3f.identity, ⟨0, 0, 0⟩⟩
        ⟨1 / 2, 1⟩ ⟨Matrix3f.identity, ⟨0, 0, 4⟩⟩ ⟨true⟩ ⟨0, (none, none), none⟩).2.nearest_points
        = (some n0, some n1) ∧
      IsLeast (pointSegmentDistances Real.sqrt n0 (⟨1 / 2, 1⟩ : Capsule ℝ)
        ⟨Matrix3f.identity, ⟨0, 0, 0⟩⟩) (1 / 2) ∧
      IsLeast (pointSegmentDistances Real.sqrt n1 (⟨1 / 2, 1⟩ : Capsule ℝ)
        ⟨Matrix3f.identity, ⟨0, 0, 4⟩⟩) (1 / 2) :=
  nearest_points_on_surface Real.sqrt isSqrt_real _ _ _ _ _ thresholdFree_apart
    (by norm_num) (by norm_num)
    (by
      show 0 < (ShapeShapeDistance Real.sqrt (⟨1 / 2, 1⟩ : Capsule ℝ)
        ⟨Matrix3f.identity, ⟨0, 0, 0⟩⟩ ⟨1 / 2, 1⟩ ⟨Matrix3f.identity, ⟨0, 0, 4⟩⟩ ⟨true⟩
        ⟨0, (none, none), none⟩).1
      rw [distance_apart]; exact zero_lt_one)

/-- Counterexample to C6 as stated: for the capsule of half-length 2^-30 and radius 1/4 at the
origin and the capsule of half-length 0 and radius 1/4 at (0, 0, 1), the returned distance is
positive and the first nearest point is (0, 0, 1/4 - 2^-30), whose distance to the end
`u = 1` of the first medial segment is 1/4 - 2^-29: less than the radius 1/4. -/
theorem nearest_points_on_surface_counterexample :
    0 < (ShapeShapeDistance Real.sqrt (⟨1 / 4, 1 / 2 ^ 30⟩ : Capsule ℝ)
      ⟨Matrix3f.identity, ⟨0, 0, 0⟩⟩ ⟨1 / 4, 0⟩ ⟨Matrix3f.identity, ⟨0, 0, 1⟩⟩
      ⟨true⟩ ⟨0, (none, none), none⟩).2.min_distance ∧
    ¬ ∃ n0 n1 : Vec3f ℝ,
      (ShapeShapeDistance Real.sqrt (⟨1 / 4, 1 / 2 ^ 30⟩ : Capsule ℝ)
        ⟨Matrix3f.identity, ⟨0, 0, 0⟩⟩ ⟨1 / 4, 0⟩ ⟨Matrix3f.identity, ⟨0, 0, 1⟩⟩
        ⟨true⟩ ⟨0, (none, none), none⟩).2.nearest_points = (some n0, some n1) ∧
      IsLeast (pointSegmentDistances Real.sqrt n0 (⟨1 / 4, 1 / 2 ^ 30⟩ : Capsule ℝ)
        ⟨Matrix3f.identity, ⟨0, 0, 0⟩⟩) (1 / 4) ∧
      IsLeast (pointSegmentDistances Real.sqrt n1 (⟨1 / 4, 0⟩ : Capsule ℝ)
        ⟨Matrix3f.identity, ⟨0, 0, 1⟩⟩) (1 / 4) := by
  constructor
  · show 0 < (ShapeShapeDistance Real.sqrt (⟨1 / 4, 1 / 2 ^ 30⟩ : Capsule ℝ)
      ⟨Matrix3f.identity, ⟨0, 0, 0⟩⟩ ⟨1 / 4, 0⟩ ⟨Matrix3f.identity, ⟨0, 0, 1⟩⟩
      ⟨true⟩ ⟨0, (none, none), none⟩).1
    rw [ShapeShapeDistance_fst, witnessPoints_short, norm_short]
    norm_num
  · rintro ⟨n0, n1, hnp, ⟨_, hlow⟩, _⟩
    have h0 := nearest_point_short
    rw [hnp] at h0
    have hn0 : n0 = ⟨0, 0, 1 / 4 - 1 / 2 ^ 30⟩ := Option.some.inj h0
    subst hn0
    have hx : (1 / 4 : ℝ) - 1 / 2 ^ 29 ∈ pointSegmentDistances Real.sqrt
        (⟨0, 0, 1 / 4 - 1 / 2 ^ 30⟩ : Vec3f ℝ) (⟨1 / 4, 1 / 2 ^ 30⟩ : Capsule ℝ)
        ⟨Matrix3f.identity, ⟨0, 0, 0⟩⟩ := by
      refine ⟨1, ⟨zero_le_one, le_refl _⟩, ?_⟩
      have : ((⟨0, 0, 1 / 4 - 1 / 2 ^ 30⟩ : Vec3f ℝ) -
          segmentPoint (⟨1 / 4, 1 / 2 ^ 30⟩ : Capsule ℝ) ⟨Matrix3f.identity, ⟨0, 0, 0⟩⟩
            1).squaredNorm = (1 / 4 - 1 / 2 ^ 29) * (1 / 4 - 1 / 2 ^ 29) := by
        simp [segmentPoint, segmentStart, segmentDirection, Matrix3f.identity, Matrix3f.col,
          Vec3f.squaredNorm, Vec3f.dot]
        ring
      simp only [Vec3f.norm, this]
      rw [Real.sqrt_mul_self (by norm_num)]
    have := hlow hx
    norm_num at this

/-! ### The capsule collision -/

/-- C2: `ShapeShapeCollide <Capsule, Capsule>` returns 1 and appends exactly one contact when
the signed capsule distance is `≤ 0`, returns 0 and leaves the result unchanged when it is
`> 0`, and never appends more than one contact. -/
theorem ShapeShapeCollide_count {S : Type} (sqrt : K → K) (dflt : Defaults K)
    (o1 : Capsule K) (tf1 : Transform3f K) (o2 : Capsule K) (tf2 : Transform3f K)
    (nsolver : S) (request : CollisionRequest K) (result : CollisionResult (Capsule K) K)
    (rq : DistanceRequest) (rs : DistanceResult K) :
    ((ShapeShapeDistance sqrt o1 tf1 o2 tf2 rq rs).1 ≤ 0 →
      (ShapeShapeCollide sqrt dflt o1 tf1 o2 tf2 nsolver request result).1 = 1 ∧
      ∃ c : Contact (Capsule K) K,
        (ShapeShapeCollide sqrt dflt o1 tf1 o2 tf2 nsolver request result).2.contacts =
          result.contacts ++ [c]) ∧
    (0 < (ShapeShapeDistance sqrt o1 tf1 o2 tf2 rq rs).1 →
      (ShapeShapeCollide sqrt dflt o1 tf1 o2 tf2 nsolver request result).1 = 0 ∧
      (ShapeShapeCollide sqrt dflt o1 tf1 o2 tf2 nsolver request result).2 = result) ∧
    (ShapeShapeCollide sqrt dflt o1 tf1 o2 tf2 nsolver request result).2.contacts.length ≤
      result.contacts.length + 1 := by
  simp only [ShapeShapeCollide, ShapeShapeDistance_fst, gt_iff_lt]
  refine ⟨?_, ?_, ?_⟩
  · intro h
    rw [if_neg (not_lt.mpr h)]
    exact ⟨rfl, _, rfl⟩
  · intro h
    rw [if_pos h]
    exact ⟨rfl, rfl⟩
  · split_ifs
    · exact Nat.le_succ _
    · simp [CollisionResult.addContact]

/-! #### Exchanging the two capsules -/

theorem ThresholdFree.swap {o1 : Capsule K} {tf1 : Transform3f K} {o2 : Capsule K}
    {tf2 : Transform3f K} (h : ThresholdFree o1 tf1 o2 tf2) : ThresholdFree o2 tf2 o1 tf1 := by
  obtain ⟨hA, hE, hD⟩ := h
  refine ⟨hE, hA, ?_⟩
  rw [Vec3f.dot_comm (segmentDirection o2 tf2) (segmentDirection o1 tf1),
    mul_comm ((segmentDirection o2 tf2).dot (segmentDirection o2 tf2))]
  exact hD

/-- Two vectors of a convex set that both satisfy the variational inequality of the shortest
vector against each other are equal; stated for `u` and `-u'`. -/
theorem add_eq_zero_of_variational (u u' : Vec3f K)
    (h1 : 0 ≤ u.dot ((-u') - u)) (h2 : 0 ≤ u'.dot ((-u) - u')) : u + u' = 0 := by
  have key : (u + u').dot (u + u') = -(u.dot ((-u') - u)) - u'.dot ((-u) - u') := by
    simp only [Vec3f.dot, Vec3f.add_x, Vec3f.add_y, Vec3f.add_z, Vec3f.sub_x, Vec3f.sub_y,
      Vec3f.sub_z, Vec3f.neg_x, Vec3f.neg_y, Vec3f.neg_z]
    ring
  have h3 := Vec3f.dot_self_nonneg (u + u')
  exact Vec3f.eq_zero_of_dot_self _ (le_antisymm (by linarith) h3)

/-- Exchanging the two capsules reverses the difference of the witness points, provided the
pair is threshold-free. -/
theorem witness_difference_swap (A : Capsule K) (tfA : Transform3f K) (B : Capsule K)
    (tfB : Transform3f K) (hfree : ThresholdFree A tfA B tfB) :
    ((witnessPoints A tfA B tfB).1 - (witnessPoints A tfA B tfB).2) +
      ((witnessPoints B tfB A tfA).1 - (witnessPoints B tfB A tfA).2) = 0 := by
  have rAB := capsuleParameters_range A tfA B tfB
  have rBA := capsuleParameters_range B tfB A tfA
  have v1 := witnessPoints_variational A tfA B tfB hfree
    (capsuleParameters B tfB A tfA).2 (capsuleParameters B tfB A tfA).1 rBA.2 rBA.1
  have v2 := witnessPoints_variational B tfB A tfA hfree.swap
    (capsuleParameters A tfA B tfB).2 (capsuleParameters A tfA B tfB).1 rAB.2 rAB.1
  rw [← witnessPoints_fst, ← witnessPoints_snd] at v1 v2
  apply add_eq_zero_of_variational
  · have e : (-((witnessPoints B tfB A tfA).1 - (witnessPoints B tfB A tfA).2)) =
        (witnessPoints B tfB A tfA).2 - (witnessPoints B tfB A tfA).1 := by
      ext <;> simp only [Vec3f.neg_x, Vec3f.neg_y, Vec3f.neg_z, Vec3f.sub_x, Vec3f.sub_y,
        Vec3f.sub_z] <;> ring
    rw [e]; exact v1
  · have e : (-((witnessPoints A tfA B tfB).1 - (witnessPoints A tfA B tfB).2)) =
        (witnessPoints A tfA B tfB).2 - (witnessPoints A tfA B tfB).1 := by
      ext <;> simp only [Vec3f.neg_x, Vec3f.neg_y, Vec3f.neg_z, Vec3f.sub_x, Vec3f.sub_y,
        Vec3f.sub_z] <;> ring
    rw [e]; exact v2

/-- A vanishing combination of two directions that are not parallel segments of positive
length vanishes term by term. -/
theorem combination_eq_zero (dA dB : Vec3f K) (x y : K) (h : x * dA + y * dB = 0)
    (hc : dA.dot dA = 0 ∨ dB.dot dB = 0 ∨
      dA.dot dA * dB.dot dB - dA.dot dB * dA.dot dB ≠ 0) :
    x * dA = 0 ∧ y * dB = 0 := by
  have hx : x * dA.x + y * dB.x = 0 := by
    have := congrArg Vec3f.x h; simpa using this
  have hy : x * dA.y + y * dB.y = 0 := by
    have := congrArg Vec3f.y h; simpa using this
  have hz : x * dA.z + y * dB.z = 0 := by
    have := congrArg Vec3f.z h; simpa using this
  rcases hc with ha | he | hG
  · have hA := Vec3f.eq_zero_of_dot_self dA ha
    rw [hA] at hx hy hz ⊢
    simp only [Vec3f.zero_x, Vec3f.zero_y, Vec3f.zero_z, mul_zero, zero_add] at hx hy hz
    constructor
    · ext <;> simp
    · ext <;> simp [hx, hy, hz]
  · have hB := Vec3f.eq_zero_of_dot_self dB he
    rw [hB] at hx hy hz ⊢
    simp only [Vec3f.zero_x, Vec3f.zero_y, Vec3f.zero_z, mul_zero, add_zero] at hx hy hz
    constructor
    · ext <;> simp [hx, hy, hz]
    · ext <;> simp
  · have e1 : x * dA.dot dA + y * dA.dot dB = 0 := by
      simp only [Vec3f.dot]; linear_combination dA.x * hx + dA.y * hy + dA.z * hz
    have e2 : x * dA.dot dB + y * dB.dot dB = 0 := by
      simp only [Vec3f.dot]; linear_combination dB.x * hx + dB.y * hy + dB.z * hz
    have ex : x * (dA.dot dA * dB.dot dB - dA.dot dB * dA.dot dB) = 0 := by
      linear_combination dB.dot dB * e1 - dA.dot dB * e2
    have ey : y * (dA.dot dA * dB.dot dB - dA.dot dB * dA.dot dB) = 0 := by
      linear_combination dA.dot dA * e2 - dA.dot dB * e1
    have x0 : x = 0 := (mul_eq_zero.mp ex).resolve_right hG
    have y0 : y = 0 := (mul_eq_zero.mp ey).resolve_right hG
    subst x0 y0
    constructor <;> ext <;> simp

/-- Exchanging the two capsules exchanges the witness points, provided the pair is
threshold-free and the segments are not parallel segments of positive length. -/
theorem witness_points_swap (A : Capsule K) (tfA : Transform3f K) (B : Capsule K)
    (tfB : Transform3f K) (hfree : ThresholdFree A tfA B tfB)
    (hnp : ¬ ParallelSegments A tfA B tfB) :
    (witnessPoints B tfB A tfA).1 = (witnessPoints A tfA B tfB).2 ∧
    (witnessPoints B tfB A tfA).2 = (witnessPoints A tfA B tfB).1 := by
  have h := witness_difference_swap A tfA B tfB hfree
  have hc : (segmentDirection A tfA).dot (segmentDirection A tfA) = 0 ∨
      (segmentDirection B tfB).dot (segmentDirection B tfB) = 0 ∨
      (segmentDirection A tfA).dot (segmentDirection A tfA) *
        (segmentDirection B tfB).dot (segmentDirection B tfB) -
        (segmentDirection A tfA).dot (segmentDirection B tfB) *
        (segmentDirection A tfA).dot (segmentDirection B tfB) ≠ 0 := by
    by_contra hcon
    push_neg at hcon
    exact hnp ⟨hcon.1, hcon.2.1, hcon.2.2⟩
  have hcomb : ((capsuleParameters A tfA B tfB).1 - (capsuleParameters B tfB A tfA).2) *
      segmentDirection A tfA +
      ((capsuleParameters B tfB A tfA).1 - (capsuleParameters A tfA B tfB).2) *
      segmentDirection B tfB = 0 := by
    have hx := congrArg Vec3f.x h
    have hy := congrArg Vec3f.y h
    have hz := congrArg Vec3f.z h
    simp only [witnessPoints, Vec3f.add_x, Vec3f.add_y, Vec3f.add_z, Vec3f.sub_x, Vec3f.sub_y,
      Vec3f.sub_z, Vec3f.smul_x, Vec3f.smul_y, Vec3f.smul_z, Vec3f.zero_x, Vec3f.zero_y,
      Vec3f.zero_z] at hx hy hz
    ext
    · simp only [Vec3f.add_x, Vec3f.smul_x, Vec3f.zero_x]; linarith
    · simp only [Vec3f.add_y, Vec3f.smul_y, Vec3f.zero_y]; linarith
    · simp only [Vec3f.add_z, Vec3f.smul_z, Vec3f.zero_z]; linarith
  obtain ⟨hA, hB⟩ := combination_eq_zero _ _ _ _ hcomb hc
  have hAx := congrArg Vec3f.x hA
  have hAy := congrArg Vec3f.y hA
  have hAz := congrArg Vec3f.z hA
  have hBx := congrArg Vec3f.x hB
  have hBy := congrArg Vec3f.y hB
  have hBz := congrArg Vec3f.z hB
  simp only [Vec3f.smul_x, Vec3f.smul_y, Vec3f.smul_z, Vec3f.zero_x, Vec3f.zero_y,
    Vec3f.zero_z] at hAx hAy hAz hBx hBy hBz
  constructor
  · ext
    · simp only [witnessPoints, Vec3f.add_x, Vec3f.smul_x]; linarith
    · simp only [witnessPoints, Vec3f.add_y, Vec3f.smul_y]; linarith
    · simp only [witnessPoints, Vec3f.add_z, Vec3f.smul_z]; linarith
  · ext
    · simp only [witnessPoints, Vec3f.add_x, Vec3f.smul_x]; linarith
    · simp only [witnessPoints, Vec3f.add_y, Vec3f.smul_y]; linarith
    · simp only [witnessPoints, Vec3f.add_z, Vec3f.smul_z]; linarith

theorem neg_of_add_eq_zero (u u' : Vec3f K) (h : u + u' = 0) : u' = -u := by
  have hx := congrArg Vec3f.x h
  have hy := congrArg Vec3f.y h
  have hz := congrArg Vec3f.z h
  simp only [Vec3f.add_x, Vec3f.add_y, Vec3f.add_z, Vec3f.zero_x, Vec3f.zero_y,
    Vec3f.zero_z] at hx hy hz
  ext
  · simp only [Vec3f.neg_x]; linarith
  · simp only [Vec3f.neg_y]; linarith
  · simp only [Vec3f.neg_z]; linarith

theorem squaredNorm_neg (u : Vec3f K) : (-u).squaredNorm = u.squaredNorm := by
  simp only [Vec3f.squaredNorm, Vec3f.dot, Vec3f.neg_x, Vec3f.neg_y, Vec3f.neg_z]; ring

theorem divideByDistance_neg (u : Vec3f K) (D : K) :
    divideByDistance (-u) D = (divideByDistance u D).map (fun n => -n) := by
  unfold divideByDistance
  split_ifs
  · rfl
  · simp only [Option.map_some', Option.some.injEq]
    ext <;> simp only [Vec3f.neg_x, Vec3f.neg_y, Vec3f.neg_z, Vec3f.div_x, Vec3f.div_y,
      Vec3f.div_z] <;> ring

/-- The raw distance does not depend on the order of the capsules (threshold-free pair). -/
theorem witness_norm_swap (sqrt : K → K) (A : Capsule K) (tfA : Transform3f K) (B : Capsule K)
    (tfB : Transform3f K) (hfree : ThresholdFree A tfA B tfB) :
    ((witnessPoints B tfB A tfA).1 - (witnessPoints B tfB A tfA).2).norm sqrt =
      ((witnessPoints A tfA B tfB).1 - (witnessPoints A tfA B tfB).2).norm sqrt := by
  have h := neg_of_add_eq_zero _ _ (witness_difference_swap A tfA B tfB hfree)
  unfold Vec3f.norm
  rw [h, squaredNorm_neg]

/-- The contact appended by `ShapeShapeCollide` is the one built by `capsuleContact`. -/
theorem ShapeShapeCollide_contact {S : Type} (sqrt : K → K) (dflt : Defaults K)
    (o1 : Capsule K) (tf1 : Transform3f K) (o2 : Capsule K) (tf2 : Transform3f K)
    (nsolver : S) (request : CollisionRequest K) (result : CollisionResult (Capsule K) K)
    (c : Contact (Capsule K) K)
    (h : (ShapeShapeCollide sqrt dflt o1 tf1 o2 tf2 nsolver request result).2.contacts =
      result.contacts ++ [c]) :
    c = capsuleContact sqrt dflt o1 tf1 o2 tf2 request ∧
    (ShapeShapeDistance sqrt o1 tf1 o2 tf2 ⟨request.enable_contact⟩
      ⟨dflt.min_distance, dflt.nearest_points, dflt.normal⟩).1 ≤ 0 := by
  unfold ShapeShapeCollide at h
  dsimp only at h
  split_ifs at h with hd
  · exfalso
    have := congrArg List.length h
    simp at this
  · simp only [CollisionResult.addContact, List.append_cancel_left_eq, List.cons.injEq,
      and_true] at h
    exact ⟨h.symm, not_lt.mp hd⟩

/-- Evaluation: capsule A (half-length 1, turned by a half turn about x, at the origin)
against capsule B (half-length 1, at (1, 0, 0)): witness points (0, 0, 1) and (1, 0, 1). -/
theorem witnessPoints_antiparallel :
    witnessPoints (⟨1, 1⟩ : Capsule ℝ) ⟨⟨1, 0, 0, 0, -1, 0, 0, 0, -1⟩, ⟨0, 0, 0⟩⟩
      ⟨1, 1⟩ ⟨Matrix3f.identity, ⟨1, 0, 0⟩⟩ = (⟨0, 0, 1⟩, ⟨1, 0, 1⟩) := by
  simp [witnessPoints, capsuleParameters, segmentParameters, firstPass, secondPass,
    segmentStart, segmentDirection, Matrix3f.identity, Matrix3f.col, Vec3f.dot, EPSILON,
    CLAMP, Vec3f.ext_iff]
  norm_num

/-- Evaluation: the same capsules in the order (B, A): witness points (1, 0, -1) and
(0, 0, -1). -/
theorem witnessPoints_antiparallel_swapped :
    witnessPoints (⟨1, 1⟩ : Capsule ℝ) ⟨Matrix3f.identity, ⟨1, 0, 0⟩⟩
      ⟨1, 1⟩ ⟨⟨1, 0, 0, 0, -1, 0, 0, 0, -1⟩, ⟨0, 0, 0⟩⟩ = (⟨1, 0, -1⟩, ⟨0, 0, -1⟩) := by
  simp [witnessPoints, capsuleParameters, segmentParameters, firstPass, secondPass,
    segmentStart, segmentDirection, Matrix3f.identity, Matrix3f.col, Vec3f.dot, EPSILON,
    CLAMP, Vec3f.ext_iff]
  norm_num

/-- Evaluation: the raw distance of the pair in the order (A, B) is 1. -/
theorem norm_antiparallel :
    ((⟨0, 0, 1⟩ : Vec3f ℝ) - ⟨1, 0, 1⟩).norm Real.sqrt = 1 := by
  simp [Vec3f.norm, Vec3f.squaredNorm, Vec3f.dot]

/-- Evaluation: the raw distance of the pair in the order (B, A) is 1. -/
theorem norm_antiparallel_swapped :
    ((⟨1, 0, -1⟩ : Vec3f ℝ) - ⟨0, 0, -1⟩).norm Real.sqrt = 1 := by
  simp [Vec3f.norm, Vec3f.squaredNorm, Vec3f.dot]

/-- Evaluation: capsule A (half-length 1, along z, at the origin) and capsule B (half-length
1, along x, at (0, 1, 0)) form a threshold-free pair. -/
theorem thresholdFree_crossing :
    ThresholdFree (⟨1, 1⟩ : Capsule ℝ) ⟨Matrix3f.identity, ⟨0, 0, 0⟩⟩
      ⟨1, 1⟩ ⟨⟨0, 0, 1, 0, 1, 0, -1, 0, 0⟩, ⟨0, 1, 0⟩⟩ := by
  simp only [ThresholdFree, segmentDirection, Matrix3f.identity, Matrix3f.col, Vec3f.dot,
    Vec3f.smul_x, Vec3f.smul_y, Vec3f.smul_z, EPSILON]
  norm_num

/-- Evaluation: the medial segments of this pair are not parallel. -/
theorem not_parallel_crossing :
    ¬ ParallelSegments (⟨1, 1⟩ : Capsule ℝ) ⟨Matrix3f.identity, ⟨0, 0, 0⟩⟩
      ⟨1, 1⟩ ⟨⟨0, 0, 1, 0, 1, 0, -1, 0, 0⟩, ⟨0, 1, 0⟩⟩ := by
  simp only [ParallelSegments, segmentDirection, Matrix3f.identity, Matrix3f.col, Vec3f.dot,
    Vec3f.smul_x, Vec3f.smul_y, Vec3f.smul_z]
  norm_num

/-- The normal `(w1 - w2) / |w1 - w2|` has norm 1 when the divisor is not zero. -/
theorem unit_normal_norm (sqrt : K → K) (hsqrt : IsSqrt sqrt) (u : Vec3f K)
    (h : u.norm sqrt ≠ 0) : (u / u.norm sqrt).norm sqrt = 1 := by
  have h1 := hsqrt.sqrt_of_mul_self 1 zero_le_one
  rw [mul_one] at h1
  show sqrt ((u / u.norm sqrt).squaredNorm) = 1
  rw [unit_normal sqrt hsqrt u h]
  exact h1

/-- C9 (amended): whenever `ShapeShapeCollide <Capsule, Capsule>` emits a contact and the two
segment witness points `w1`, `w2` are distinct, the contact's normal is the unit normal
`(w1 - w2) / |w1 - w2|` computed by the distance algorithm, for every value of
`request.enable_contact`; when `request.enable_contact` is set, the contact's position is the
midpoint of the two reported nearest points, `0.5·(w1 + w2) + 0.5·(r2 - r1)·normal`, which is
the midpoint `0.5·(w1 + w2)` of the witness points when the two radii are equal. -/
theorem ShapeShapeCollide_contact_geometry {S : Type} (sqrt : K → K) (hsqrt : IsSqrt sqrt)
    (dflt : Defaults K) (o1 : Capsule K) (tf1 : Transform3f K) (o2 : Capsule K)
    (tf2 : Transform3f K) (nsolver : S) (request : CollisionRequest K)
    (result : CollisionResult (Capsule K) K) (c : Contact (Capsule K) K)
    (hne : (witnessPoints o1 tf1 o2 tf2).1 ≠ (witnessPoints o1 tf1 o2 tf2).2)
    (hc : (ShapeShapeCollide sqrt dflt o1 tf1 o2 tf2 nsolver request result).2.contacts =
      result.contacts ++ [c]) :
    ∃ n : Vec3f K,
      n = ((witnessPoints o1 tf1 o2 tf2).1 - (witnessPoints o1 tf1 o2 tf2).2) /
        ((witnessPoints o1 tf1 o2 tf2).1 - (witnessPoints o1 tf1 o2 tf2).2).norm sqrt ∧
      n.norm sqrt = 1 ∧
      c.normal = some n ∧
      (request.enable_contact = true →
        c.pos = some ((1 / 2 : K) * ((witnessPoints o1 tf1 o2 tf2).1 +
            (witnessPoints o1 tf1 o2 tf2).2) + ((1 / 2 : K) * (o2.radius - o1.radius)) * n) ∧
        (o1.radius = o2.radius →
          c.pos = some ((1 / 2 : K) * ((witnessPoints o1 tf1 o2 tf2).1 +
            (witnessPoints o1 tf1 o2 tf2).2)))) := by
  obtain ⟨e, _⟩ := ShapeShapeCollide_contact sqrt dflt o1 tf1 o2 tf2 nsolver request result c hc
  subst e
  have hD : ((witnessPoints o1 tf1 o2 tf2).1 - (witnessPoints o1 tf1 o2 tf2).2).norm sqrt ≠ 0 :=
    (witness_norm_pos sqrt hsqrt _ _ hne).ne'
  refine ⟨_, rfl, unit_normal_norm sqrt hsqrt _ hD, ?_, ?_⟩
  · simp only [capsuleContact, ShapeShapeDistance, divideByDistance, if_neg hD]
  · intro hen
    have hpos : (capsuleContact sqrt dflt o1 tf1 o2 tf2 request).pos =
        some ((1 / 2 : K) * ((witnessPoints o1 tf1 o2 tf2).1 +
          (witnessPoints o1 tf1 o2 tf2).2) + ((1 / 2 : K) * (o2.radius - o1.radius)) *
          (((witnessPoints o1 tf1 o2 tf2).1 - (witnessPoints o1 tf1 o2 tf2).2) /
            ((witnessPoints o1 tf1 o2 tf2).1 - (witnessPoints o1 tf1 o2 tf2).2).norm sqrt)) := by
      simp only [capsuleContact, ShapeShapeDistance, divideByDistance, if_neg hD, hen, if_true,
        Option.map_some', midpoint, Option.some.injEq]
      ext <;> simp only [Vec3f.add_x, Vec3f.add_y, Vec3f.add_z, Vec3f.sub_x, Vec3f.sub_y,
        Vec3f.sub_z, Vec3f.smul_x, Vec3f.smul_y, Vec3f.smul_z] <;> ring
    refine ⟨hpos, ?_⟩
    intro hr
    rw [hpos, hr, sub_self, mul_zero]
    simp only [Option.some.injEq]
    ext <;> simp only [Vec3f.add_x, Vec3f.add_y, Vec3f.add_z, Vec3f.smul_x, Vec3f.smul_y,
      Vec3f.smul_z] <;> ring

/-- Evaluation: capsules A (radius 1) at the origin and B (radius 2) at (1, 0, 0), both of
half-length 1 along z: witness points (0, 0, -1) and (1, 0, -1). -/
theorem witnessPoints_unequal :
    witnessPoints (⟨1, 1⟩ : Capsule ℝ) ⟨Matrix3f.identity, ⟨0, 0, 0⟩⟩
      ⟨2, 1⟩ ⟨Matrix3f.identity, ⟨1, 0, 0⟩⟩ = (⟨0, 0, -1⟩, ⟨1, 0, -1⟩) := by
  simp [witnessPoints, capsuleParameters, segmentParameters, firstPass, secondPass,
    segmentStart, segmentDirection, Matrix3f.identity, Matrix3f.col, Vec3f.dot, EPSILON,
    CLAMP, Vec3f.ext_iff]
  norm_num

/-- Evaluation: the raw distance of this pair is 1. -/
theorem norm_unequal :
    ((⟨0, 0, -1⟩ : Vec3f ℝ) - ⟨1, 0, -1⟩).norm Real.sqrt = 1 := by
  simp [Vec3f.norm, Vec3f.squaredNorm, Vec3f.dot]

/-- Evaluation: `ShapeShapeCollide` emits the contact of this pair. -/
theorem contacts_unequal :
    (ShapeShapeCollide Real.sqrt ⟨0, (none, none), none, none⟩ (⟨1, 1⟩ : Capsule ℝ)
      ⟨Matrix3f.identity, ⟨0, 0, 0⟩⟩ ⟨2, 1⟩ ⟨Matrix3f.identity, ⟨1, 0, 0⟩⟩ ()
      requestOne ⟨[], 0⟩).2.contacts =
      [] ++ [capsuleContact Real.sqrt ⟨0, (none, none), none, none⟩ (⟨1, 1⟩ : Capsule ℝ)
        ⟨Matrix3f.identity, ⟨0, 0, 0⟩⟩ ⟨2, 1⟩ ⟨Matrix3f.identity, ⟨1, 0, 0⟩⟩ requestOne] := by
  simp only [ShapeShapeCollide, ShapeShapeDistance_fst, witnessPoints_unequal, norm_unequal]
  rw [if_neg (by norm_num)]
  rfl

/-- Witness of C9 (amended): the capsules A (radius 1) and B (radius 2) above, which overlap,
with `request.enable_contact` set. -/
theorem ShapeShapeCollide_contact_geometry_witness :
    ∃ n : Vec3f ℝ,
      n = ((witnessPoints (⟨1, 1⟩ : Capsule ℝ) ⟨Matrix3f.identity, ⟨0, 0, 0⟩⟩
          ⟨2, 1⟩ ⟨Matrix3f.identity, ⟨1, 0, 0⟩⟩).1 -
        (witnessPoints (⟨1, 1⟩ : Capsule ℝ) ⟨Matrix3f.identity, ⟨0, 0, 0⟩⟩
          ⟨2, 1⟩ ⟨Matrix3f.identity, ⟨1, 0, 0⟩⟩).2) /
        ((witnessPoints (⟨1, 1⟩ : Capsule ℝ) ⟨Matrix3f.identity, ⟨0, 0, 0⟩⟩
          ⟨2, 1⟩ ⟨Matrix3f.identity, ⟨1, 0, 0⟩⟩).1 -
        (witnessPoints (⟨1, 1⟩ : Capsule ℝ) ⟨Matrix3f.identity, ⟨0, 0, 0⟩⟩
          ⟨2, 1⟩ ⟨Matrix3f.identity, ⟨1, 0, 0⟩⟩).2).norm Real.sqrt ∧
      n.norm Real.sqrt = 1 ∧
      (capsuleContact Real.sqrt ⟨0, (none, none), none, none⟩ (⟨1, 1⟩ : Capsule ℝ)
        ⟨Matrix3f.identity, ⟨0, 0, 0⟩⟩ ⟨2, 1⟩ ⟨Matrix3f.identity, ⟨1, 0, 0⟩⟩
        requestOne).normal = some n ∧
      ((requestOne : CollisionRequest ℝ).enable_contact = true →
        (capsuleContact Real.sqrt ⟨0, (none, none), none, none⟩ (⟨1, 1⟩ : Capsule ℝ)
          ⟨Matrix3f.identity, ⟨0, 0, 0⟩⟩ ⟨2, 1⟩ ⟨Matrix3f.identity, ⟨1, 0, 0⟩⟩
          requestOne).pos =
          some ((1 / 2 : ℝ) * ((witnessPoints (⟨1, 1⟩ : Capsule ℝ)
              ⟨Matrix3f.identity, ⟨0, 0, 0⟩⟩ ⟨2, 1⟩ ⟨Matrix3f.identity, ⟨1, 0, 0⟩⟩).1 +
            (witnessPoints (⟨1, 1⟩ : Capsule ℝ) ⟨Matrix3f.identity, ⟨0, 0, 0⟩⟩
              ⟨2, 1⟩ ⟨Matrix3f.identity, ⟨1, 0, 0⟩⟩).2) +
            ((1 / 2 : ℝ) * ((2 : ℝ) - 1)) * n) ∧
        ((1 : ℝ) = 2 →
          (capsuleContact Real.sqrt ⟨0, (none, none), none, none⟩ (⟨1, 1⟩ : Capsule ℝ)
            ⟨Matrix3f.identity, ⟨0, 0, 0⟩⟩ ⟨2, 1⟩ ⟨Matrix3f.identity, ⟨1, 0, 0⟩⟩
            requestOne).pos =
            some ((1 / 2 : ℝ) * ((witnessPoints (⟨1, 1⟩ : Capsule ℝ)
                ⟨Matrix3f.identity, ⟨0, 0, 0⟩⟩ ⟨2, 1⟩ ⟨Matrix3f.identity, ⟨1, 0, 0⟩⟩).1 +
              (witnessPoints (⟨1, 1⟩ : Capsule ℝ) ⟨Matrix3f.identity, ⟨0, 0, 0⟩⟩
                ⟨2, 1⟩ ⟨Matrix3f.identity, ⟨1, 0, 0⟩⟩).2)))) :=
  ShapeShapeCollide_contact_geometry Real.sqrt isSqrt_real ⟨0, (none, none), none, none⟩
    (⟨1, 1⟩ : Capsule ℝ) ⟨Matrix3f.identity, ⟨0, 0, 0⟩⟩ ⟨2, 1⟩
    ⟨Matrix3f.identity, ⟨1, 0, 0⟩⟩ () requestOne ⟨[], 0⟩ _
    (by rw [witnessPoints_unequal]; simp [Vec3f.ext_iff])
    contacts_unequal

/-- Counterexample to C9 as stated: for the capsules A (radius 1) at the origin and B
(radius 2) at (1, 0, 0), both of half-length 1 along z, with `request.enable_contact` set,
`ShapeShapeCollide` emits a contact at (0, 0, -1): the midpoint of the two reported nearest
points (1, 0, -1) and (-1, 0, -1), not the midpoint (1/2, 0, -1) of the witness points
(0, 0, -1) and (1, 0, -1). -/
theorem ShapeShapeCollide_contact_geometry_counterexample :
    (ShapeShapeCollide Real.sqrt ⟨0, (none, none), none, none⟩ (⟨1, 1⟩ : Capsule ℝ)
      ⟨Matrix3f.identity, ⟨0, 0, 0⟩⟩ ⟨2, 1⟩ ⟨Matrix3f.identity, ⟨1, 0, 0⟩⟩ ()
      requestOne ⟨[], 0⟩).2.contacts =
      [capsuleContact Real.sqrt ⟨0, (none, none), none, none⟩ (⟨1, 1⟩ : Capsule ℝ)
        ⟨Matrix3f.identity, ⟨0, 0, 0⟩⟩ ⟨2, 1⟩ ⟨Matrix3f.identity, ⟨1, 0, 0⟩⟩ requestOne] ∧
    (capsuleContact Real.sqrt ⟨0, (none, none), none, none⟩ (⟨1, 1⟩ : Capsule ℝ)
      ⟨Matrix3f.identity, ⟨0, 0, 0⟩⟩ ⟨2, 1⟩ ⟨Matrix3f.identity, ⟨1, 0, 0⟩⟩
      requestOne).pos = some ⟨0, 0, -1⟩ ∧
    (capsuleContact Real.sqrt ⟨0, (none, none), none, none⟩ (⟨1, 1⟩ : Capsule ℝ)
      ⟨Matrix3f.identity, ⟨0, 0, 0⟩⟩ ⟨2, 1⟩ ⟨Matrix3f.identity, ⟨1, 0, 0⟩⟩
      requestOne).pos ≠
      some ((1 / 2 : ℝ) * ((witnessPoints (⟨1, 1⟩ : Capsule ℝ)
          ⟨Matrix3f.identity, ⟨0, 0, 0⟩⟩ ⟨2, 1⟩ ⟨Matrix3f.identity, ⟨1, 0, 0⟩⟩).1 +
        (witnessPoints (⟨1, 1⟩ : Capsule ℝ) ⟨Matrix3f.identity, ⟨0, 0, 0⟩⟩
          ⟨2, 1⟩ ⟨Matrix3f.identity, ⟨1, 0, 0⟩⟩).2)) := by
  have hpos : (capsuleContact Real.sqrt ⟨0, (none, none), none, none⟩ (⟨1, 1⟩ : Capsule ℝ)
      ⟨Matrix3f.identity, ⟨0, 0, 0⟩⟩ ⟨2, 1⟩ ⟨Matrix3f.identity, ⟨1, 0, 0⟩⟩
      requestOne).pos = some ⟨0, 0, -1⟩ := by
    simp only [capsuleContact, ShapeShapeDistance, witnessPoints_unequal, norm_unequal,
      divideByDistance, requestOne]
    simp [midpoint, Vec3f.ext_iff]
    norm_num
  refine ⟨contacts_unequal, hpos, ?_⟩
  rw [hpos, witnessPoints_unequal]
  simp [Vec3f.ext_iff]

/-- The witness points of a capsule against itself at the same pose coincide. -/
theorem witnessPoints_coincident (o : Capsule K) (tf : Transform3f K) :
    (witnessPoints o tf o tf).1 = (witnessPoints o tf o tf).2 := by
  have hr : segmentStart o tf - segmentStart o tf = 0 := by
    ext <;> simp
  have hc : (segmentDirection o tf).dot (0 : Vec3f K) = 0 := by simp [Vec3f.dot]
  have hp : capsuleParameters o tf o tf = (0, 0) := by
    unfold capsuleParameters
    dsimp only
    rw [hr, hc]
    generalize (segmentDirection o tf).dot (segmentDirection o tf) = a
    unfold segmentParameters
    split_ifs with h1 h2
    · rfl
    · exact absurd ⟨h2, h2⟩ h1
    · have hf : firstPass a a 0 a 0 = 0 := by
        unfold firstPass
        dsimp only
        rw [sub_self, max_self, if_neg (not_lt.mpr EPSILON_pos.le)]
      rw [hf]
      unfold secondPass
      dsimp only
      simp
  simp only [witnessPoints, hp]


/-- C10 (the code at the failing inputs): for a capsule against itself at the same pose the
two witness points coincide, the divisor `|w1 - w2|` of line 146 is zero, and the normal and
both nearest points have no defined value, while `min_distance = -(r + r)`. -/
theorem coincident_capsules_divide_by_zero (sqrt : K → K) (hsqrt : IsSqrt sqrt)
    (o : Capsule K) (tf : Transform3f K) (result : DistanceResult K) :
    ((witnessPoints o tf o tf).1 - (witnessPoints o tf o tf).2).norm sqrt = 0 ∧
    (ShapeShapeDistance sqrt o tf o tf ⟨true⟩ result).2.normal = none ∧
    (ShapeShapeDistance sqrt o tf o tf ⟨true⟩ result).2.nearest_points = (none, none) ∧
    (ShapeShapeDistance sqrt o tf o tf ⟨true⟩ result).2.min_distance =
      -(o.radius + o.radius) := by
  have hz : ((witnessPoints o tf o tf).1 - (witnessPoints o tf o tf).2).norm sqrt = 0 := by
    rw [witnessPoints_coincident]
    unfold Vec3f.norm
    apply (hsqrt.sqrt_eq_zero_iff _ (Vec3f.squaredNorm_nonneg _)).mpr
    simp [Vec3f.squaredNorm, Vec3f.dot]
  refine ⟨hz, ?_, ?_, ?_⟩
  · simp only [ShapeShapeDistance, divideByDistance, hz, if_true]
  · simp only [ShapeShapeDistance, divideByDistance, hz, if_true, Option.map_none']
  · simp only [ShapeShapeDistance, hz, zero_sub]

/-- Witness of C10: the capsule of radius 1 and half-length 1 against itself at the origin,
over the real numbers. -/
theorem coincident_capsules_divide_by_zero_witness :
    ((witnessPoints (⟨1, 1⟩ : Capsule ℝ) ⟨Matrix3f.identity, ⟨0, 0, 0⟩⟩ ⟨1, 1⟩
        ⟨Matrix3f.identity, ⟨0, 0, 0⟩⟩).1 -
      (witnessPoints (⟨1, 1⟩ : Capsule ℝ) ⟨Matrix3f.identity, ⟨0, 0, 0⟩⟩ ⟨1, 1⟩
        ⟨Matrix3f.identity, ⟨0, 0, 0⟩⟩).2).norm Real.sqrt = 0 ∧
    (ShapeShapeDistance Real.sqrt (⟨1, 1⟩ : Capsule ℝ) ⟨Matrix3f.identity, ⟨0, 0, 0⟩⟩ ⟨1, 1⟩
      ⟨Matrix3f.identity, ⟨0, 0, 0⟩⟩ ⟨true⟩ ⟨0, (none, none), none⟩).2.normal = none ∧
    (ShapeShapeDistance Real.sqrt (⟨1, 1⟩ : Capsule ℝ) ⟨Matrix3f.identity, ⟨0, 0, 0⟩⟩ ⟨1, 1⟩
      ⟨Matrix3f.identity, ⟨0, 0, 0⟩⟩ ⟨true⟩ ⟨0, (none, none), none⟩).2.nearest_points =
      (none, none) ∧
    (ShapeShapeDistance Real.sqrt (⟨1, 1⟩ : Capsule ℝ) ⟨Matrix3f.identity, ⟨0, 0, 0⟩⟩ ⟨1, 1⟩
      ⟨Matrix3f.identity, ⟨0, 0, 0⟩⟩ ⟨true⟩ ⟨0, (none, none), none⟩).2.min_distance =
      -((1 : ℝ) + 1) :=
  coincident_capsules_divide_by_zero Real.sqrt isSqrt_real _ _ _

/-! ### The dispatch -/

/-- Inverting twice restores the result. -/
theorem invertResults_invertResults {G F : Type} (result : CollisionResult G F) :
    invertResults (invertResults result) = result := by
  cases result with
  | mk contacts dlb =>
    simp only [invertResults, List.map_map]
    congr 1
    conv_rhs => rw [← List.map_id contacts]
    apply List.map_congr_left
    intro c _
    rfl

/-- C3 (the code at the failing inputs): when `collide` is called for at least one contact
with `o1` a plain primitive (`OT_GEOM`) and `o2` a hierarchical node (`OT_BVH`) and the table
holds an algorithm for `(node_type2, node_type1)`, it calls that algorithm with the operands
in the order `(o2, tf2, o1, tf1)` and returns its count, and the result the caller sees holds
that call's contacts, in the same order, with the two object references and the two body
indices of every contact swapped; but the normal of every contact is still the one that the
algorithm computed for the operands in the order `(o2, o1)`: `invertResults` does not
reverse it. -/
theorem collide_geom_bvh {G S : Type} [CollisionGeometry G] [Inhabited S]
    (looktable : CollisionFunctionMatrix G S K)
    (o1 : G) (tf1 : Transform3f K) (o2 : G) (tf2 : Transform3f K)
    (nsolver_ : Option S) (request : CollisionRequest K) (result : CollisionResult G K)
    (fn : CollisionFunc G S K)
    (h1 : CollisionGeometry.getObjectType o1 = OBJECT_TYPE.OT_GEOM)
    (h2 : CollisionGeometry.getObjectType o2 = OBJECT_TYPE.OT_BVH)
    (hn : request.num_max_contacts ≠ 0)
    (hfn : looktable.collision_matrix (CollisionGeometry.getNodeType o2)
      (CollisionGeometry.getNodeType o1) = some fn) :
    (collide looktable o1 tf1 o2 tf2 nsolver_ request result).1 =
      (fn o2 tf2 o1 tf1 (nsolver_.getD default) request
        { result with distance_lower_bound := -1 }).1 ∧
    List.Forall₂
      (fun c c0 : Contact G K => c.o1 = c0.o2 ∧ c.o2 = c0.o1 ∧ c.b1 = c0.b2 ∧ c.b2 = c0.b1 ∧
        c.normal = c0.normal ∧ c.pos = c0.pos ∧ c.penetration_depth = c0.penetration_depth)
      (collide looktable o1 tf1 o2 tf2 nsolver_ request result).2.contacts
      (fn o2 tf2 o1 tf1 (nsolver_.getD default) request
        { result with distance_lower_bound := -1 }).2.contacts ∧
    (collide looktable o1 tf1 o2 tf2 nsolver_ request result).2.distance_lower_bound =
      (fn o2 tf2 o1 tf1 (nsolver_.getD default) request
        { result with distance_lower_bound := -1 }).2.distance_lower_bound := by
  simp only [collide, if_neg hn, h1, h2, and_self, if_true, hfn, true_and, and_true]
  simp only [invertResults]
  refine ⟨?_, trivial⟩
  generalize (fn o2 tf2 o1 tf1 (nsolver_.getD default) request
        { result with distance_lower_bound := -1 }).2.contacts = cs
  induction cs with
  | nil => exact List.Forall₂.nil
  | cons c cs ih => exact List.Forall₂.cons ⟨rfl, rfl, rfl, rfl, rfl, rfl, rfl⟩ ih

/-- C4 (amended): when the table holds an algorithm for the ordered pair `(X, Y)`, the operand
of type `Y` is a plain primitive (`OT_GEOM`), the operand of type `X` is a hierarchical node
(`OT_BVH`) and at least one contact is requested, calling `collide` with the operand of type
`Y` first produces, after role inversion, the same contact count and the same result as
calling it with the operands in the order `(X, Y)`. -/
theorem collide_order_invariant {G S : Type} [CollisionGeometry G] [Inhabited S]
    (looktable : CollisionFunctionMatrix G S K)
    (oX : G) (tfX : Transform3f K) (oY : G) (tfY : Transform3f K)
    (nsolver_ : Option S) (request : CollisionRequest K) (result : CollisionResult G K)
    (fn : CollisionFunc G S K)
    (hY : CollisionGeometry.getObjectType oY = OBJECT_TYPE.OT_GEOM)
    (hX : CollisionGeometry.getObjectType oX = OBJECT_TYPE.OT_BVH)
    (hn : request.num_max_contacts ≠ 0)
    (hfn : looktable.collision_matrix (CollisionGeometry.getNodeType oX)
      (CollisionGeometry.getNodeType oY) = some fn) :
    (collide looktable oY tfY oX tfX nsolver_ request result).1 =
      (collide looktable oX tfX oY tfY nsolver_ request result).1 ∧
    invertResults (collide looktable oY tfY oX tfX nsolver_ request result).2 =
      (collide looktable oX tfX oY tfY nsolver_ request result).2 := by
  have hne : ¬ (OBJECT_TYPE.OT_BVH = OBJECT_TYPE.OT_GEOM ∧
      OBJECT_TYPE.OT_GEOM = OBJECT_TYPE.OT_BVH) := by
    rintro ⟨h, _⟩; cases h
  simp only [collide, if_neg hn, hX, hY, and_self, if_true, hfn, if_neg hne,
    invertResults_invertResults]

/-- Witness of C3: a primitive of node type 1 against a hierarchical node of node type 0, with
the table holding `reportOne` for the pair (0, 1) only; rational numbers. -/
theorem collide_geom_bvh_witness :
    (collide (singleEntryTable (K := ℚ) 0 1) ⟨OBJECT_TYPE.OT_GEOM, 1⟩ Transform3f.identity
      ⟨OBJECT_TYPE.OT_BVH, 0⟩ Transform3f.identity none requestOne ⟨[], 0⟩).1 =
      (reportOne (K := ℚ) ⟨OBJECT_TYPE.OT_BVH, 0⟩ Transform3f.identity
        ⟨OBJECT_TYPE.OT_GEOM, 1⟩ Transform3f.identity ((none : Option Unit).getD default)
        requestOne { (⟨[], 0⟩ : CollisionResult TaggedGeometry ℚ) with
          distance_lower_bound := -1 }).1 ∧
    List.Forall₂
      (fun c c0 : Contact TaggedGeometry ℚ =>
        c.o1 = c0.o2 ∧ c.o2 = c0.o1 ∧ c.b1 = c0.b2 ∧ c.b2 = c0.b1 ∧
        c.normal = c0.normal ∧ c.pos = c0.pos ∧ c.penetration_depth = c0.penetration_depth)
      (collide (singleEntryTable (K := ℚ) 0 1) ⟨OBJECT_TYPE.OT_GEOM, 1⟩ Transform3f.identity
        ⟨OBJECT_TYPE.OT_BVH, 0⟩ Transform3f.identity none requestOne ⟨[], 0⟩).2.contacts
      (reportOne (K := ℚ) ⟨OBJECT_TYPE.OT_BVH, 0⟩ Transform3f.identity
        ⟨OBJECT_TYPE.OT_GEOM, 1⟩ Transform3f.identity ((none : Option Unit).getD default)
        requestOne { (⟨[], 0⟩ : CollisionResult TaggedGeometry ℚ) with
          distance_lower_bound := -1 }).2.contacts ∧
    (collide (singleEntryTable (K := ℚ) 0 1) ⟨OBJECT_TYPE.OT_GEOM, 1⟩ Transform3f.identity
      ⟨OBJECT_TYPE.OT_BVH, 0⟩ Transform3f.identity none requestOne
      ⟨[], 0⟩).2.distance_lower_bound =
      (reportOne (K := ℚ) ⟨OBJECT_TYPE.OT_BVH, 0⟩ Transform3f.identity
        ⟨OBJECT_TYPE.OT_GEOM, 1⟩ Transform3f.identity ((none : Option Unit).getD default)
        requestOne { (⟨[], 0⟩ : CollisionResult TaggedGeometry ℚ) with
          distance_lower_bound := -1 }).2.distance_lower_bound :=
  collide_geom_bvh (singleEntryTable (K := ℚ) 0 1) ⟨OBJECT_TYPE.OT_GEOM, 1⟩
    Transform3f.identity ⟨OBJECT_TYPE.OT_BVH, 0⟩ Transform3f.identity none requestOne ⟨[], 0⟩
    reportOne rfl rfl (by decide) rfl

/-- The code at a failing input of C3: for the primitive of node type 1 against the
hierarchical node of node type 0, with `reportOne` registered for (0, 1), the algorithm is
called with the operands swapped and reports the normal (1, 0, 0); the caller sees the
references swapped and the normal still (1, 0, 0), not (-1, 0, 0), so that the result is not
the inversion that reverses the normal. -/
theorem collide_geom_bvh_failing_input :
    (collide (singleEntryTable (K := ℚ) 0 1) ⟨OBJECT_TYPE.OT_GEOM, 1⟩ Transform3f.identity
      ⟨OBJECT_TYPE.OT_BVH, 0⟩ Transform3f.identity none requestOne ⟨[], 0⟩).2.contacts =
      [⟨⟨OBJECT_TYPE.OT_GEOM, 1⟩, ⟨OBJECT_TYPE.OT_BVH, 0⟩, -1, -1, some ⟨1, 0, 0⟩,
        some ⟨0, 0, 0⟩, some 0⟩] ∧
    ¬ (collide (singleEntryTable (K := ℚ) 0 1) ⟨OBJECT_TYPE.OT_GEOM, 1⟩ Transform3f.identity
      ⟨OBJECT_TYPE.OT_BVH, 0⟩ Transform3f.identity none requestOne ⟨[], 0⟩).2.contacts =
      (reportOne (K := ℚ) ⟨OBJECT_TYPE.OT_BVH, 0⟩ Transform3f.identity
        ⟨OBJECT_TYPE.OT_GEOM, 1⟩ Transform3f.identity () requestOne
        ⟨[], -1⟩).2.contacts.map invertWithNormal := by
  decide

/-- Witness of C4 (amended): node types X = 0 (hierarchical node) and Y = 1 (primitive), with
`reportOne` registered for (0, 1) only. -/
theorem collide_order_invariant_witness :
    (collide (singleEntryTable (K := ℚ) 0 1) ⟨OBJECT_TYPE.OT_GEOM, 1⟩ Transform3f.identity
      ⟨OBJECT_TYPE.OT_BVH, 0⟩ Transform3f.identity none requestOne ⟨[], 0⟩).1 =
      (collide (singleEntryTable (K := ℚ) 0 1) ⟨OBJECT_TYPE.OT_BVH, 0⟩ Transform3f.identity
        ⟨OBJECT_TYPE.OT_GEOM, 1⟩ Transform3f.identity none requestOne ⟨[], 0⟩).1 ∧
    invertResults (collide (singleEntryTable (K := ℚ) 0 1) ⟨OBJECT_TYPE.OT_GEOM, 1⟩
      Transform3f.identity ⟨OBJECT_TYPE.OT_BVH, 0⟩ Transform3f.identity none requestOne
      ⟨[], 0⟩).2 =
      (collide (singleEntryTable (K := ℚ) 0 1) ⟨OBJECT_TYPE.OT_BVH, 0⟩ Transform3f.identity
        ⟨OBJECT_TYPE.OT_GEOM, 1⟩ Transform3f.identity none requestOne ⟨[], 0⟩).2 :=
  collide_order_invariant (singleEntryTable (K := ℚ) 0 1) ⟨OBJECT_TYPE.OT_BVH, 0⟩
    Transform3f.identity ⟨OBJECT_TYPE.OT_GEOM, 1⟩ Transform3f.identity none requestOne ⟨[], 0⟩
    reportOne rfl rfl (by decide) rfl

/-- Counterexample to C4 as stated: two plain primitives of node types X = 0 and Y = 1, with
`reportOne` registered for (0, 1) and nothing for (1, 0). In the order (X, Y) `collide`
returns one contact; in the order (Y, X) it finds the cell (1, 0) empty and returns none. -/
theorem collide_order_invariant_counterexample :
    ((singleEntryTable (K := ℚ) 0 1).collision_matrix 0 1).isSome = true ∧
    ((singleEntryTable (K := ℚ) 0 1).collision_matrix 1 0).isSome = false ∧
    (collide (singleEntryTable (K := ℚ) 0 1) ⟨OBJECT_TYPE.OT_GEOM, 0⟩ Transform3f.identity
      ⟨OBJECT_TYPE.OT_GEOM, 1⟩ Transform3f.identity none requestOne ⟨[], 0⟩).1 = 1 ∧
    (collide (singleEntryTable (K := ℚ) 0 1) ⟨OBJECT_TYPE.OT_GEOM, 1⟩ Transform3f.identity
      ⟨OBJECT_TYPE.OT_GEOM, 0⟩ Transform3f.identity none requestOne ⟨[], 0⟩).1 = 0 ∧
    (invertResults (collide (singleEntryTable (K := ℚ) 0 1) ⟨OBJECT_TYPE.OT_GEOM, 1⟩
      Transform3f.identity ⟨OBJECT_TYPE.OT_GEOM, 0⟩ Transform3f.identity none requestOne
      ⟨[], 0⟩).2).contacts = [] := by
  decide

/-! ### Early exit, empty cell and solver selection -/

/-- C11: for every pair of geometries and every table content, `collide` (solver-handle
overload) called with `request.num_max_contacts == 0` returns 0, invokes no algorithm of the
dispatch table (its output is the same for every table) and leaves the result's contact list
unchanged. -/
theorem collide_zero_max_contacts {G S : Type} [CollisionGeometry G] [Inhabited S]
    (looktable : CollisionFunctionMatrix G S K)
    (o1 : G) (tf1 : Transform3f K) (o2 : G) (tf2 : Transform3f K)
    (nsolver_ : Option S) (request : CollisionRequest K) (result : CollisionResult G K)
    (h : request.num_max_contacts = 0) :
    (collide looktable o1 tf1 o2 tf2 nsolver_ request result).1 = 0 ∧
    (collide looktable o1 tf1 o2 tf2 nsolver_ request result).2.contacts = result.contacts ∧
    ∀ looktable' : CollisionFunctionMatrix G S K,
      collide looktable' o1 tf1 o2 tf2 nsolver_ request result =
        collide looktable o1 tf1 o2 tf2 nsolver_ request result := by
  simp only [collide, if_pos h]
  exact ⟨trivial, trivial, fun _ => trivial⟩

/-- Witness of C11: a hierarchical node of node type 0 against a primitive of node type 1,
with `reportOne` registered for (0, 1), and a request for no contact. -/
theorem collide_zero_max_contacts_witness :
    (collide (singleEntryTable (K := ℚ) 0 1) ⟨OBJECT_TYPE.OT_BVH, 0⟩ Transform3f.identity
      ⟨OBJECT_TYPE.OT_GEOM, 1⟩ Transform3f.identity none requestNone ⟨[], 0⟩).1 = 0 ∧
    (collide (singleEntryTable (K := ℚ) 0 1) ⟨OBJECT_TYPE.OT_BVH, 0⟩ Transform3f.identity
      ⟨OBJECT_TYPE.OT_GEOM, 1⟩ Transform3f.identity none requestNone ⟨[], 0⟩).2.contacts =
      [] ∧
    ∀ looktable' : CollisionFunctionMatrix TaggedGeometry Unit ℚ,
      collide looktable' ⟨OBJECT_TYPE.OT_BVH, 0⟩ Transform3f.identity
        ⟨OBJECT_TYPE.OT_GEOM, 1⟩ Transform3f.identity none requestNone ⟨[], 0⟩ =
      collide (singleEntryTable (K := ℚ) 0 1) ⟨OBJECT_TYPE.OT_BVH, 0⟩ Transform3f.identity
        ⟨OBJECT_TYPE.OT_GEOM, 1⟩ Transform3f.identity none requestNone ⟨[], 0⟩ :=
  collide_zero_max_contacts (singleEntryTable (K := ℚ) 0 1) ⟨OBJECT_TYPE.OT_BVH, 0⟩
    Transform3f.identity ⟨OBJECT_TYPE.OT_GEOM, 1⟩ Transform3f.identity none requestNone
    ⟨[], 0⟩ rfl

/-- C12: for every pair of geometries whose looked-up table cell is empty, with
`num_max_contacts > 0`, `collide` returns 0 contacts, invokes no algorithm (its output is the
same for every table whose looked-up cell is empty) and leaves the result's contact list
unchanged; being a total function, it does not abort. -/
theorem collide_empty_cell {G S : Type} [CollisionGeometry G] [Inhabited S]
    (looktable : CollisionFunctionMatrix G S K)
    (o1 : G) (tf1 : Transform3f K) (o2 : G) (tf2 : Transform3f K)
    (nsolver_ : Option S) (request : CollisionRequest K) (result : CollisionResult G K)
    (hn : 0 < request.num_max_contacts)
    (hcell : lookedUpCell looktable o1 o2 = none) :
    (collide looktable o1 tf1 o2 tf2 nsolver_ request result).1 = 0 ∧
    (collide looktable o1 tf1 o2 tf2 nsolver_ request result).2.contacts = result.contacts ∧
    ∀ looktable' : CollisionFunctionMatrix G S K, lookedUpCell looktable' o1 o2 = none →
      collide looktable' o1 tf1 o2 tf2 nsolver_ request result =
        collide looktable o1 tf1 o2 tf2 nsolver_ request result := by
  have key : ∀ lt : CollisionFunctionMatrix G S K, lookedUpCell lt o1 o2 = none →
      collide lt o1 tf1 o2 tf2 nsolver_ request result =
        (0, { result with distance_lower_bound := -1 }) := by
    intro lt hlt
    unfold lookedUpCell at hlt
    simp only [collide, if_neg hn.ne']
    split_ifs at hlt ⊢ with hc
    · rw [hlt]
    · rw [hlt]
  rw [key looktable hcell]
  exact ⟨rfl, rfl, fun lt hlt => key lt hlt⟩

/-- Witness of C12: two plain primitives of node types 1 and 0 with `reportOne` registered
for (0, 1) only, so that the looked-up cell (1, 0) is empty; one contact is requested. -/
theorem collide_empty_cell_witness :
    (collide (singleEntryTable (K := ℚ) 0 1) ⟨OBJECT_TYPE.OT_GEOM, 1⟩ Transform3f.identity
      ⟨OBJECT_TYPE.OT_GEOM, 0⟩ Transform3f.identity none requestOne ⟨[], 0⟩).1 = 0 ∧
    (collide (singleEntryTable (K := ℚ) 0 1) ⟨OBJECT_TYPE.OT_GEOM, 1⟩ Transform3f.identity
      ⟨OBJECT_TYPE.OT_GEOM, 0⟩ Transform3f.identity none requestOne ⟨[], 0⟩).2.contacts =
      [] ∧
    ∀ looktable' : CollisionFunctionMatrix TaggedGeometry Unit ℚ,
      lookedUpCell looktable' (⟨OBJECT_TYPE.OT_GEOM, 1⟩ : TaggedGeometry)
        ⟨OBJECT_TYPE.OT_GEOM, 0⟩ = none →
      collide looktable' ⟨OBJECT_TYPE.OT_GEOM, 1⟩ Transform3f.identity
        ⟨OBJECT_TYPE.OT_GEOM, 0⟩ Transform3f.identity none requestOne ⟨[], 0⟩ =
      collide (singleEntryTable (K := ℚ) 0 1) ⟨OBJECT_TYPE.OT_GEOM, 1⟩ Transform3f.identity
        ⟨OBJECT_TYPE.OT_GEOM, 0⟩ Transform3f.identity none requestOne ⟨[], 0⟩ :=
  collide_empty_cell (singleEntryTable (K := ℚ) 0 1) ⟨OBJECT_TYPE.OT_GEOM, 1⟩
    Transform3f.identity ⟨OBJECT_TYPE.OT_GEOM, 0⟩ Transform3f.identity none requestOne
    ⟨[], 0⟩ (by decide) rfl

/-- C13 (amended): for every request whose `gjk_solver_type` is not `GST_INDEP`, both
solver-less overloads of `collide` return the sentinel `std::size_t (-1)`, which is the
largest value of `std::size_t` (`2^64 - 1`) and not a negative number, invoke no pair
algorithm (the output is the same for every table) and leave the result unchanged; when
`gjk_solver_type` is `GST_INDEP` they return exactly what the solver-handle overloads return
for a default-constructed solver. -/
theorem collide_default_solver_type {G S : Type} [CollisionGeometry G] [Inhabited S]
    (looktable : CollisionFunctionMatrix G S K)
    (o1 o2 : CollisionObject G K) (request : CollisionRequest K)
    (result : CollisionResult G K) :
    (request.gjk_solver_type ≠ GJKSolverType.GST_INDEP →
      collide_objects_default looktable o1 o2 request result =
        (2 ^ 64 - 1, result) ∧
      collide_default looktable o1.collisionGeometry o1.transform o2.collisionGeometry
        o2.transform request result = (2 ^ 64 - 1, result)) ∧
    (request.gjk_solver_type = GJKSolverType.GST_INDEP →
      collide_objects_default looktable o1 o2 request result =
        collide_objects looktable o1 o2 (some default) request result ∧
      collide_default looktable o1.collisionGeometry o1.transform o2.collisionGeometry
        o2.transform request result =
        collide looktable o1.collisionGeometry o1.transform o2.collisionGeometry
          o2.transform (some default) request result) := by
  have hm : minusOneAsSize = 2 ^ 64 - 1 := by decide
  constructor
  · intro h
    unfold collide_objects_default collide_default
    cases hg : request.gjk_solver_type with
    | GST_INDEP => exact absurd hg h
    | GST_OTHER code => simp only [hm, and_self]
  · intro h
    unfold collide_objects_default collide_default
    rw [h]
    exact ⟨rfl, rfl⟩

/-- Counterexample to C13 as stated: with a solver selector other than `GST_INDEP` the
solver-less overload returns `18446744073709551615`, the value of `-1` converted to
`std::size_t`; it is not negative. -/
theorem collide_default_solver_type_counterexample :
    (collide_default (singleEntryTable (K := ℚ) 0 1) ⟨OBJECT_TYPE.OT_BVH, 0⟩
      Transform3f.identity ⟨OBJECT_TYPE.OT_GEOM, 1⟩ Transform3f.identity requestOther
      ⟨[], 0⟩).1 = 18446744073709551615 ∧
    ¬ (((collide_default (singleEntryTable (K := ℚ) 0 1) ⟨OBJECT_TYPE.OT_BVH, 0⟩
      Transform3f.identity ⟨OBJECT_TYPE.OT_GEOM, 1⟩ Transform3f.identity requestOther
      ⟨[], 0⟩).1 : Int) < 0) := by
  decide

/-! ### Spheres, stacked capsules and a capsule against its copy -/

/-- The medial segment of a capsule with an identity rotation runs along z. -/
theorem segmentDirection_identity (o : Capsule K) (T : Vec3f K) :
    segmentDirection o ⟨Matrix3f.identity, T⟩ = ⟨0, 0, 2 * o.halfLength⟩ := by
  ext <;> simp [segmentDirection, Matrix3f.identity, Matrix3f.col]

/-- The medial segment of a capsule with an identity rotation starts at `T - (0, 0, h)`. -/
theorem segmentStart_identity (o : Capsule K) (T : Vec3f K) :
    segmentStart o ⟨Matrix3f.identity, T⟩ = ⟨T.x, T.y, T.z - o.halfLength⟩ := by
  ext <;> simp [segmentStart, segmentDirection, Matrix3f.identity, Matrix3f.col]

/-- The segment of a capsule of half-length 0 has no extent. -/
theorem segmentDirection_of_halfLength_zero (o : Capsule K) (tf : Transform3f K)
    (h : o.halfLength = 0) : segmentDirection o tf = 0 := by
  ext <;> simp [segmentDirection, h]

/-- The segment of a capsule of half-length 0 starts at its centre. -/
theorem segmentStart_of_halfLength_zero (o : Capsule K) (tf : Transform3f K)
    (h : o.halfLength = 0) : segmentStart o tf = tf.T := by
  ext <;> simp [segmentStart, segmentDirection_of_halfLength_zero o tf h]

/-- C14: for every pair of capsules with `halfLength = 0` (any radii, any transforms),
`ShapeShapeDistance <Capsule, Capsule>` takes `s = t = 0`, its witness points are the two
centres, and it returns exactly the sphere-sphere distance `|c1 - c2| - (r1 + r2)`. -/
theorem ShapeShapeDistance_spheres (sqrt : K → K)
    (o1 : Capsule K) (tf1 : Transform3f K) (o2 : Capsule K) (tf2 : Transform3f K)
    (request : DistanceRequest) (result : DistanceResult K)
    (h1 : o1.halfLength = 0) (h2 : o2.halfLength = 0) :
    capsuleParameters o1 tf1 o2 tf2 = (0, 0) ∧
    witnessPoints o1 tf1 o2 tf2 = (tf1.T, tf2.T) ∧
    (ShapeShapeDistance sqrt o1 tf1 o2 tf2 request result).1 =
      (tf1.T - tf2.T).norm sqrt - (o1.radius + o2.radius) := by
  have hd1 := segmentDirection_of_halfLength_zero o1 tf1 h1
  have hd2 := segmentDirection_of_halfLength_zero o2 tf2 h2
  have hp1 := segmentStart_of_halfLength_zero o1 tf1 h1
  have hp2 := segmentStart_of_halfLength_zero o2 tf2 h2
  have hz : (0 : Vec3f K).dot 0 = 0 := by simp [Vec3f.dot]
  have hpar : capsuleParameters o1 tf1 o2 tf2 = (0, 0) := by
    unfold capsuleParameters
    dsimp only
    rw [hd1, hd2, hz]
    unfold segmentParameters
    rw [if_pos ⟨EPSILON_pos.le, EPSILON_pos.le⟩]
  have hw : witnessPoints o1 tf1 o2 tf2 = (tf1.T, tf2.T) := by
    unfold witnessPoints
    dsimp only
    rw [hpar, hp1, hp2, hd1, hd2]
    congr 1 <;> ext <;> simp
  refine ⟨hpar, hw, ?_⟩
  rw [ShapeShapeDistance_fst, hw]

/-- Witness of C14: two capsules of half-length 0 and radius 1 (spheres) centred at the origin
and at (3, 0, 0), over the real numbers; the distance is 1. -/
theorem ShapeShapeDistance_spheres_witness :
    capsuleParameters (⟨1, 0⟩ : Capsule ℝ) ⟨Matrix3f.identity, ⟨0, 0, 0⟩⟩
      ⟨1, 0⟩ ⟨Matrix3f.identity, ⟨3, 0, 0⟩⟩ = (0, 0) ∧
    witnessPoints (⟨1, 0⟩ : Capsule ℝ) ⟨Matrix3f.identity, ⟨0, 0, 0⟩⟩
      ⟨1, 0⟩ ⟨Matrix3f.identity, ⟨3, 0, 0⟩⟩ = (⟨0, 0, 0⟩, ⟨3, 0, 0⟩) ∧
    (ShapeShapeDistance Real.sqrt (⟨1, 0⟩ : Capsule ℝ) ⟨Matrix3f.identity, ⟨0, 0, 0⟩⟩
      ⟨1, 0⟩ ⟨Matrix3f.identity, ⟨3, 0, 0⟩⟩ ⟨true⟩ ⟨0, (none, none), none⟩).1 =
      ((⟨0, 0, 0⟩ : Vec3f ℝ) - ⟨3, 0, 0⟩).norm Real.sqrt - ((1 : ℝ) + 1) ∧
    ((⟨0, 0, 0⟩ : Vec3f ℝ) - ⟨3, 0, 0⟩).norm Real.sqrt - ((1 : ℝ) + 1) = 1 := by
  refine ⟨(ShapeShapeDistance_spheres Real.sqrt _ _ _ _ ⟨true⟩ ⟨0, (none, none), none⟩
      rfl rfl).1,
    (ShapeShapeDistance_spheres Real.sqrt _ _ _ _ ⟨true⟩ ⟨0, (none, none), none⟩ rfl rfl).2.1,
    (ShapeShapeDistance_spheres Real.sqrt _ _ _ _ ⟨true⟩ ⟨0, (none, none), none⟩ rfl rfl).2.2,
    ?_⟩
  have : ((⟨0, 0, 0⟩ : Vec3f ℝ) - ⟨3, 0, 0⟩).squaredNorm = 3 * 3 := by
    simp [Vec3f.squaredNorm, Vec3f.dot]
  simp only [Vec3f.norm, this]
  rw [Real.sqrt_mul_self (by norm_num)]
  norm_num

/-- The parameters computed for two capsules along z, the second one above the first by
at least the sum of the half-lengths: the top end of the first segment (`s = 1`) and the
bottom end of the second one (`t = 0`). -/
theorem capsuleParameters_stacked (o1 o2 : Capsule K) (D : K)
    (hp1 : 0 < o1.halfLength) (hp2 : 0 < o2.halfLength)
    (ha : EPSILON < (2 * o1.halfLength) ^ 2) (he : EPSILON < (2 * o2.halfLength) ^ 2)
    (hD : o1.halfLength + o2.halfLength ≤ D) :
    capsuleParameters o1 ⟨Matrix3f.identity, ⟨0, 0, 0⟩⟩ o2 ⟨Matrix3f.identity, ⟨0, 0, D⟩⟩ =
      (1, 0) := by
  unfold capsuleParameters
  dsimp only
  rw [segmentDirection_identity, segmentDirection_identity, segmentStart_identity,
    segmentStart_identity]
  simp only [Vec3f.dot, Vec3f.sub_x, Vec3f.sub_y, Vec3f.sub_z, mul_zero, zero_mul, add_zero,
    zero_add, sub_self, zero_sub]
  have ha' : ¬ (2 * o1.halfLength * (2 * o1.halfLength) ≤ EPSILON) := by
    rw [← pow_two]; exact not_le.mpr ha
  have he' : ¬ (2 * o2.halfLength * (2 * o2.halfLength) ≤ EPSILON) := by
    rw [← pow_two]; exact not_le.mpr he
  have hfirst : firstPass (2 * o1.halfLength * (2 * o1.halfLength))
      (2 * o1.halfLength * (2 * o2.halfLength))
      (2 * o1.halfLength * (-o1.halfLength - (D - o2.halfLength)))
      (2 * o2.halfLength * (2 * o2.halfLength))
      (2 * o2.halfLength * (-o1.halfLength - (D - o2.halfLength))) = 0 := by
    unfold firstPass
    dsimp only
    have : 2 * o1.halfLength * (2 * o1.halfLength) * (2 * o2.halfLength * (2 * o2.halfLength)) -
        2 * o1.halfLength * (2 * o2.halfLength) * (2 * o1.halfLength * (2 * o2.halfLength)) =
        0 := by ring
    rw [this, max_self, if_neg (not_lt.mpr EPSILON_pos.le)]
  unfold segmentParameters
  rw [if_neg (fun h => ha' h.1), if_neg ha', if_neg he', hfirst]
  unfold secondPass
  dsimp only
  have ht : (2 * o1.halfLength * (2 * o2.halfLength) * 0 +
      2 * o2.halfLength * (-o1.halfLength - (D - o2.halfLength))) /
      (2 * o2.halfLength * (2 * o2.halfLength)) < 0 := by
    apply div_neg_of_neg_of_pos
    · have : -o1.halfLength - (D - o2.halfLength) < 0 := by linarith
      have := mul_neg_of_pos_of_neg (by linarith : (0 : K) < 2 * o2.halfLength) this
      linarith
    · positivity
  rw [if_pos ht]
  have hc : CLAMP (-(2 * o1.halfLength * (-o1.halfLength - (D - o2.halfLength))) /
      (2 * o1.halfLength * (2 * o1.halfLength))) 0 1 = 1 := by
    have h1 : (1 : K) ≤ -(2 * o1.halfLength * (-o1.halfLength - (D - o2.halfLength))) /
        (2 * o1.halfLength * (2 * o1.halfLength)) := by
      rw [le_div_iff₀ (by positivity)]
      nlinarith
    unfold CLAMP
    rw [min_eq_right h1, max_eq_left zero_le_one]
  rw [hc]

/-- C15: for every two capsules with identity rotation (axis-aligned along z), non-degenerate
half-lengths `h1`, `h2` (positive, with squared segment length above `EPSILON`), radii `r1`,
`r2`, centred at (0, 0, 0) and (0, 0, D) with `D ≥ h1 + h2`,
`ShapeShapeDistance <Capsule, Capsule>` returns `D - h1 - h2 - r1 - r2`. -/
theorem ShapeShapeDistance_stacked (sqrt : K → K) (hsqrt : IsSqrt sqrt)
    (o1 o2 : Capsule K) (D : K) (request : DistanceRequest) (result : DistanceResult K)
    (hp1 : 0 < o1.halfLength) (hp2 : 0 < o2.halfLength)
    (ha : EPSILON < (2 * o1.halfLength) ^ 2) (he : EPSILON < (2 * o2.halfLength) ^ 2)
    (hD : o1.halfLength + o2.halfLength ≤ D) :
    (ShapeShapeDistance sqrt o1 ⟨Matrix3f.identity, ⟨0, 0, 0⟩⟩ o2
      ⟨Matrix3f.identity, ⟨0, 0, D⟩⟩ request result).1 =
      D - o1.halfLength - o2.halfLength - o1.radius - o2.radius := by
  rw [ShapeShapeDistance_fst]
  have hpar := capsuleParameters_stacked o1 o2 D hp1 hp2 ha he hD
  have hsq : ((witnessPoints o1 ⟨Matrix3f.identity, ⟨0, 0, 0⟩⟩ o2
      ⟨Matrix3f.identity, ⟨0, 0, D⟩⟩).1 - (witnessPoints o1 ⟨Matrix3f.identity, ⟨0, 0, 0⟩⟩ o2
      ⟨Matrix3f.identity, ⟨0, 0, D⟩⟩).2).squaredNorm =
      (D - o1.halfLength - o2.halfLength) * (D - o1.halfLength - o2.halfLength) := by
    simp only [witnessPoints, hpar, segmentDirection_identity, segmentStart_identity,
      Vec3f.squaredNorm, Vec3f.dot, Vec3f.sub_x, Vec3f.sub_y, Vec3f.sub_z, Vec3f.add_x,
      Vec3f.add_y, Vec3f.add_z, Vec3f.smul_x, Vec3f.smul_y, Vec3f.smul_z]
    ring
  unfold Vec3f.norm
  rw [hsq, hsqrt.sqrt_of_mul_self _ (by linarith)]
  ring

/-- Witness of C15: `h1 = h2 = 1`, `r1 = r2 = 1/2`, `D = 4`, over the real numbers:
`min_distance = 4 - 1 - 1 - 1/2 - 1/2`, that is 1. -/
theorem ShapeShapeDistance_stacked_witness :
    (ShapeShapeDistance Real.sqrt (⟨1 / 2, 1⟩ : Capsule ℝ) ⟨Matrix3f.identity, ⟨0, 0, 0⟩⟩
      ⟨1 / 2, 1⟩ ⟨Matrix3f.identity, ⟨0, 0, 4⟩⟩ ⟨true⟩ ⟨0, (none, none), none⟩).1 =
      4 - 1 - 1 - 1 / 2 - 1 / 2 ∧
    (4 : ℝ) - 1 - 1 - 1 / 2 - 1 / 2 = 1 :=
  ⟨ShapeShapeDistance_stacked Real.sqrt isSqrt_real ⟨1 / 2, 1⟩ ⟨1 / 2, 1⟩ 4 ⟨true⟩
      ⟨0, (none, none), none⟩ (by norm_num) (by norm_num)
      (by simp only [EPSILON]; norm_num) (by simp only [EPSILON]; norm_num) (by norm_num),
    by norm_num⟩

/-- The parameters computed for a capsule along z and its copy moved up by `δ` along the
axis, `0 ≤ δ ≤ 2h`: `s = δ / (2h)` and `t = 0`, the same point of space. -/
theorem capsuleParameters_copy (o : Capsule K) (δ : K)
    (hp : 0 < o.halfLength) (ha : EPSILON < (2 * o.halfLength) ^ 2)
    (h0 : 0 ≤ δ) (h1 : δ ≤ 2 * o.halfLength) :
    capsuleParameters o ⟨Matrix3f.identity, ⟨0, 0, 0⟩⟩ o ⟨Matrix3f.identity, ⟨0, 0, δ⟩⟩ =
      (δ / (2 * o.halfLength), 0) := by
  unfold capsuleParameters
  dsimp only
  rw [segmentDirection_identity, segmentDirection_identity, segmentStart_identity,
    segmentStart_identity]
  simp only [Vec3f.dot, Vec3f.sub_x, Vec3f.sub_y, Vec3f.sub_z, mul_zero, zero_mul, add_zero,
    zero_add, sub_self, zero_sub]
  have ha' : ¬ (2 * o.halfLength * (2 * o.halfLength) ≤ EPSILON) := by
    rw [← pow_two]; exact not_le.mpr ha
  have hfirst : firstPass (2 * o.halfLength * (2 * o.halfLength))
      (2 * o.halfLength * (2 * o.halfLength))
      (2 * o.halfLength * (-o.halfLength - (δ - o.halfLength)))
      (2 * o.halfLength * (2 * o.halfLength))
      (2 * o.halfLength * (-o.halfLength - (δ - o.halfLength))) = 0 := by
    unfold firstPass
    dsimp only
    rw [sub_self, max_self, if_neg (not_lt.mpr EPSILON_pos.le)]
  unfold segmentParameters
  rw [if_neg (fun h => ha' h.1)]
  simp only [if_neg ha', hfirst]
  have hpos : (0 : K) < 2 * o.halfLength * (2 * o.halfLength) := by positivity
  have hc : CLAMP (-(2 * o.halfLength * (-o.halfLength - (δ - o.halfLength))) /
      (2 * o.halfLength * (2 * o.halfLength))) 0 1 = δ / (2 * o.halfLength) := by
    have e : -(2 * o.halfLength * (-o.halfLength - (δ - o.halfLength))) /
        (2 * o.halfLength * (2 * o.halfLength)) = δ / (2 * o.halfLength) := by
      field_simp; ring
    rw [e]
    unfold CLAMP
    rw [min_eq_left ((div_le_one (by linarith)).mpr h1),
      max_eq_left (div_nonneg h0 (by linarith))]
  unfold secondPass
  dsimp only
  rcases eq_or_lt_of_le h0 with hz | hz
  · -- δ = 0: t = 0 is kept, with s = 0
    have ht : (2 * o.halfLength * (2 * o.halfLength) * 0 +
        2 * o.halfLength * (-o.halfLength - (δ - o.halfLength))) /
        (2 * o.halfLength * (2 * o.halfLength)) = 0 := by
      rw [← hz]; simp
    rw [ht, if_neg (lt_irrefl _), if_neg (not_lt.mpr zero_le_one), ← hz, zero_div]
  · have ht : (2 * o.halfLength * (2 * o.halfLength) * 0 +
        2 * o.halfLength * (-o.halfLength - (δ - o.halfLength))) /
        (2 * o.halfLength * (2 * o.halfLength)) < 0 := by
      apply div_neg_of_neg_of_pos _ hpos
      have : -o.halfLength - (δ - o.halfLength) < 0 := by linarith
      have := mul_neg_of_pos_of_neg (by linarith : (0 : K) < 2 * o.halfLength) this
      linarith
    rw [if_pos ht, hc]

/-- C16 (the code at the failing inputs): for a capsule along z (positive half-length `h` with
squared segment length above `EPSILON`, radius `r ≥ 0`) and a copy of itself translated
along its axis by `(0, 0, δ)`, `0 ≤ δ ≤ 2h`, the two witness points coincide and
`ShapeShapeCollide <Capsule, Capsule>` returns 1 and appends one contact; the penetration
depth of that contact is never assigned, it is what the constructor of `Contact` left, and
its normal has no defined value. -/
theorem ShapeShapeCollide_copy_depth_unassigned {S : Type} (sqrt : K → K)
    (hsqrt : IsSqrt sqrt) (dflt : Defaults K) (o : Capsule K) (δ : K) (nsolver : S)
    (request : CollisionRequest K) (result : CollisionResult (Capsule K) K)
    (hp : 0 < o.halfLength) (ha : EPSILON < (2 * o.halfLength) ^ 2)
    (h0 : 0 ≤ δ) (h1 : δ ≤ 2 * o.halfLength) (hr : 0 ≤ o.radius) :
    (ShapeShapeCollide sqrt dflt o ⟨Matrix3f.identity, ⟨0, 0, 0⟩⟩ o
      ⟨Matrix3f.identity, ⟨0, 0, δ⟩⟩ nsolver request result).1 = 1 ∧
    ∃ c : Contact (Capsule K) K,
      (ShapeShapeCollide sqrt dflt o ⟨Matrix3f.identity, ⟨0, 0, 0⟩⟩ o
        ⟨Matrix3f.identity, ⟨0, 0, δ⟩⟩ nsolver request result).2.contacts =
        result.contacts ++ [c] ∧
      c.penetration_depth = dflt.penetration_depth ∧ c.normal = none := by
  have hpar := capsuleParameters_copy o δ hp ha h0 h1
  have hw : (witnessPoints o ⟨Matrix3f.identity, ⟨0, 0, 0⟩⟩ o
      ⟨Matrix3f.identity, ⟨0, 0, δ⟩⟩).1 - (witnessPoints o ⟨Matrix3f.identity, ⟨0, 0, 0⟩⟩ o
      ⟨Matrix3f.identity, ⟨0, 0, δ⟩⟩).2 = 0 := by
    simp only [witnessPoints, hpar, segmentDirection_identity, segmentStart_identity]
    ext
    · simp
    · simp
    · simp only [Vec3f.sub_z, Vec3f.add_z, Vec3f.smul_z, Vec3f.zero_z]
      field_simp
      ring
  have hn : ((witnessPoints o ⟨Matrix3f.identity, ⟨0, 0, 0⟩⟩ o
      ⟨Matrix3f.identity, ⟨0, 0, δ⟩⟩).1 - (witnessPoints o ⟨Matrix3f.identity, ⟨0, 0, 0⟩⟩ o
      ⟨Matrix3f.identity, ⟨0, 0, δ⟩⟩).2).norm sqrt = 0 := by
    rw [hw]
    unfold Vec3f.norm
    apply (hsqrt.sqrt_eq_zero_iff _ (Vec3f.squaredNorm_nonneg _)).mpr
    simp [Vec3f.squaredNorm, Vec3f.dot]
  have hd : ¬ (0 - (o.radius + o.radius) > 0) := by
    intro h; linarith
  simp only [ShapeShapeCollide, ShapeShapeDistance_fst, hn, if_neg hd]
  refine ⟨trivial, _, rfl, rfl, ?_⟩
  simp only [capsuleContact, ShapeShapeDistance, hn, divideByDistance, if_true]


/-- Witness of C16: the capsule of half-length 1 and radius 1/2 along z at the origin and its
copy translated by (0, 0, 1/10), over the real numbers, with a constructor that leaves no
defined penetration depth. -/
theorem ShapeShapeCollide_copy_depth_unassigned_witness :
    (ShapeShapeCollide Real.sqrt ⟨0, (none, none), none, none⟩ (⟨1 / 2, 1⟩ : Capsule ℝ)
      ⟨Matrix3f.identity, ⟨0, 0, 0⟩⟩ ⟨1 / 2, 1⟩ ⟨Matrix3f.identity, ⟨0, 0, 1 / 10⟩⟩ ()
      requestOne ⟨[], 0⟩).1 = 1 ∧
    ∃ c : Contact (Capsule ℝ) ℝ,
      (ShapeShapeCollide Real.sqrt ⟨0, (none, none), none, none⟩ (⟨1 / 2, 1⟩ : Capsule ℝ)
        ⟨Matrix3f.identity, ⟨0, 0, 0⟩⟩ ⟨1 / 2, 1⟩ ⟨Matrix3f.identity, ⟨0, 0, 1 / 10⟩⟩ ()
        requestOne ⟨[], 0⟩).2.contacts = [] ++ [c] ∧
      c.penetration_depth = none ∧ c.normal = none :=
  ShapeShapeCollide_copy_depth_unassigned Real.sqrt isSqrt_real ⟨0, (none, none), none, none⟩
    ⟨1 / 2, 1⟩ (1 / 10) () requestOne ⟨[], 0⟩ (by norm_num)
    (by simp only [EPSILON]; norm_num) (by norm_num) (by norm_num) (by norm_num)

/-! ### Parallel segments, divisors and role inversion -/

/-- The parameters computed in the branch `denom ≤ EPSILON` of two segments longer than the
threshold: `s = 0` is tried first and kept when `t = f / e` falls in `[0, 1]`. -/
theorem segmentParameters_parallel (a b c e f : K) (ha : EPSILON < a) (he : EPSILON < e)
    (hden : max (a * e - b * b) 0 ≤ EPSILON) :
    segmentParameters a b c e f =
      if f / e < 0 then (CLAMP (-c / a) 0 1, 0)
      else if f / e > 1 then (CLAMP ((b - c) / a) 0 1, 1)
      else (0, f / e) := by
  have hfirst : firstPass a b c e f = 0 := by
    unfold firstPass
    dsimp only
    rw [if_neg (not_lt.mpr hden)]
  unfold segmentParameters
  rw [if_neg (fun h => absurd h.1 (not_le.mpr ha)), if_neg (not_le.mpr ha),
    if_neg (not_le.mpr he), hfirst]
  unfold secondPass
  simp only [mul_zero, zero_add]

/-- C21 (amended): for every pair of capsules with both squared segment lengths above
`EPSILON` (`a, e > EPSILON`) for which the `denom ≤ EPSILON` branch is taken (parallel or
collinear segments), the first value of `s` is 0 and it is kept, with `t = f / e` and
`w1 = p1`, when the start of segment 1 projects within segment 2 (`0 ≤ f / e ≤ 1`);
otherwise `s` is recomputed as `CLAMP (-c / a, 0, 1)` with `t = 0` (when `f / e < 0`) or as
`CLAMP ((b - c) / a, 0, 1)` with `t = 1` (when `f / e > 1`). -/
theorem capsuleParameters_parallel (o1 : Capsule K) (tf1 : Transform3f K)
    (o2 : Capsule K) (tf2 : Transform3f K) (a b c e f : K)
    (hA : a = (segmentDirection o1 tf1).dot (segmentDirection o1 tf1))
    (hB : b = (segmentDirection o1 tf1).dot (segmentDirection o2 tf2))
    (hC : c = (segmentDirection o1 tf1).dot (segmentStart o1 tf1 - segmentStart o2 tf2))
    (hE : e = (segmentDirection o2 tf2).dot (segmentDirection o2 tf2))
    (hF : f = (segmentDirection o2 tf2).dot (segmentStart o1 tf1 - segmentStart o2 tf2))
    (ha : EPSILON < a) (he : EPSILON < e) (hden : max (a * e - b * b) 0 ≤ EPSILON) :
    (0 ≤ f / e ∧ f / e ≤ 1 →
      capsuleParameters o1 tf1 o2 tf2 = (0, f / e) ∧
      (witnessPoints o1 tf1 o2 tf2).1 = segmentStart o1 tf1) ∧
    (f / e < 0 → capsuleParameters o1 tf1 o2 tf2 = (CLAMP (-c / a) 0 1, 0)) ∧
    (1 < f / e → capsuleParameters o1 tf1 o2 tf2 = (CLAMP ((b - c) / a) 0 1, 1)) := by
  have hpar : capsuleParameters o1 tf1 o2 tf2 = segmentParameters a b c e f := by
    unfold capsuleParameters
    dsimp only
    rw [← hA, ← hB, ← hC, ← hE, ← hF]
  have key := segmentParameters_parallel a b c e f ha he hden
  refine ⟨fun h => ?_, fun h => ?_, fun h => ?_⟩
  · have hst : capsuleParameters o1 tf1 o2 tf2 = (0, f / e) := by
      rw [hpar, key, if_neg (not_lt.mpr h.1), if_neg (not_lt.mpr h.2)]
    refine ⟨hst, ?_⟩
    rw [witnessPoints_fst, hst]
    ext <;> simp [segmentPoint]
  · rw [hpar, key, if_pos h]
  · rw [hpar, key, if_neg (not_lt.mpr (le_trans zero_le_one h.le)), if_pos h]

/-- Witness of C21 (amended): two capsules of half-length 1 along z, side by side at the
origin and at (1, 0, 0): `a = b = e = 4`, `c = f = 0`, so that `s = 0` and `t = 0`. -/
theorem capsuleParameters_parallel_witness :
    capsuleParameters (⟨1 / 2, 1⟩ : Capsule ℚ) ⟨Matrix3f.identity, ⟨0, 0, 0⟩⟩
      ⟨1 / 2, 1⟩ ⟨Matrix3f.identity, ⟨1, 0, 0⟩⟩ = (0, 0 / 4) ∧
    (witnessPoints (⟨1 / 2, 1⟩ : Capsule ℚ) ⟨Matrix3f.identity, ⟨0, 0, 0⟩⟩
      ⟨1 / 2, 1⟩ ⟨Matrix3f.identity, ⟨1, 0, 0⟩⟩).1 =
      segmentStart (⟨1 / 2, 1⟩ : Capsule ℚ) ⟨Matrix3f.identity, ⟨0, 0, 0⟩⟩ :=
  (capsuleParameters_parallel (⟨1 / 2, 1⟩ : Capsule ℚ) ⟨Matrix3f.identity, ⟨0, 0, 0⟩⟩
    ⟨1 / 2, 1⟩ ⟨Matrix3f.identity, ⟨1, 0, 0⟩⟩ 4 4 0 4 0
    (by simp [segmentDirection_identity, Vec3f.dot]; norm_num)
    (by simp [segmentDirection_identity, Vec3f.dot]; norm_num)
    (by simp [segmentDirection_identity, segmentStart_identity, Vec3f.dot])
    (by simp [segmentDirection_identity, Vec3f.dot]; norm_num)
    (by simp [segmentDirection_identity, segmentStart_identity, Vec3f.dot])
    (by simp only [EPSILON]; norm_num) (by simp only [EPSILON]; norm_num)
    (by simp only [EPSILON]; norm_num)).1 (by norm_num)

/-- Counterexample to C21 as stated: two capsules of half-length 1 along z, at the origin and
at (0, 0, 1). The segments are collinear and overlap (the point (0, 0, 1/2) lies on both),
`a = e = 4 > EPSILON` and `denom = 0`, yet the parameter used for `w1` is `s = 1/2`:
`t = f / e = -1/2` is negative and `s` is recomputed as `CLAMP (-c / a, 0, 1)`. -/
theorem capsuleParameters_parallel_counterexample :
    EPSILON < (segmentDirection (⟨1 / 2, 1⟩ : Capsule ℚ) ⟨Matrix3f.identity,
      ⟨0, 0, 0⟩⟩).dot (segmentDirection ⟨1 / 2, 1⟩ ⟨Matrix3f.identity, ⟨0, 0, 0⟩⟩) ∧
    EPSILON < (segmentDirection (⟨1 / 2, 1⟩ : Capsule ℚ) ⟨Matrix3f.identity,
      ⟨0, 0, 1⟩⟩).dot (segmentDirection ⟨1 / 2, 1⟩ ⟨Matrix3f.identity, ⟨0, 0, 1⟩⟩) ∧
    max ((segmentDirection (⟨1 / 2, 1⟩ : Capsule ℚ) ⟨Matrix3f.identity, ⟨0, 0, 0⟩⟩).dot
        (segmentDirection ⟨1 / 2, 1⟩ ⟨Matrix3f.identity, ⟨0, 0, 0⟩⟩) *
      (segmentDirection (⟨1 / 2, 1⟩ : Capsule ℚ) ⟨Matrix3f.identity, ⟨0, 0, 1⟩⟩).dot
        (segmentDirection ⟨1 / 2, 1⟩ ⟨Matrix3f.identity, ⟨0, 0, 1⟩⟩) -
      (segmentDirection (⟨1 / 2, 1⟩ : Capsule ℚ) ⟨Matrix3f.identity, ⟨0, 0, 0⟩⟩).dot
        (segmentDirection ⟨1 / 2, 1⟩ ⟨Matrix3f.identity, ⟨0, 0, 1⟩⟩) *
      (segmentDirection (⟨1 / 2, 1⟩ : Capsule ℚ) ⟨Matrix3f.identity, ⟨0, 0, 0⟩⟩).dot
        (segmentDirection ⟨1 / 2, 1⟩ ⟨Matrix3f.identity, ⟨0, 0, 1⟩⟩)) 0 ≤ EPSILON ∧
    segmentPoint (⟨1 / 2, 1⟩ : Capsule ℚ) ⟨Matrix3f.identity, ⟨0, 0, 0⟩⟩ (3 / 4) =
      segmentPoint (⟨1 / 2, 1⟩ : Capsule ℚ) ⟨Matrix3f.identity, ⟨0, 0, 1⟩⟩ (1 / 4) ∧
    capsuleParameters (⟨1 / 2, 1⟩ : Capsule ℚ) ⟨Matrix3f.identity, ⟨0, 0, 0⟩⟩
      ⟨1 / 2, 1⟩ ⟨Matrix3f.identity, ⟨0, 0, 1⟩⟩ = (1 / 2, 0) ∧
    (capsuleParameters (⟨1 / 2, 1⟩ : Capsule ℚ) ⟨Matrix3f.identity, ⟨0, 0, 0⟩⟩
      ⟨1 / 2, 1⟩ ⟨Matrix3f.identity, ⟨0, 0, 1⟩⟩).1 ≠ 0 := by
  have hpar : capsuleParameters (⟨1 / 2, 1⟩ : Capsule ℚ) ⟨Matrix3f.identity, ⟨0, 0, 0⟩⟩
      ⟨1 / 2, 1⟩ ⟨Matrix3f.identity, ⟨0, 0, 1⟩⟩ = (1 / 2, 0) := by
    have h := segmentParameters_parallel (4 : ℚ) 4 (-2) 4 (-2)
      (by simp only [EPSILON]; norm_num) (by simp only [EPSILON]; norm_num)
      (by simp only [EPSILON]; norm_num)
    rw [if_pos (by norm_num)] at h
    have hc : CLAMP (-(-2 : ℚ) / 4) 0 1 = 1 / 2 := by
      unfold CLAMP
      norm_num
    rw [hc] at h
    rw [← h]
    unfold capsuleParameters
    simp only [segmentDirection_identity, segmentStart_identity, Vec3f.dot, Vec3f.sub_x,
      Vec3f.sub_y, Vec3f.sub_z]
    norm_num
  refine ⟨?_, ?_, ?_, ?_, hpar, ?_⟩
  · simp only [segmentDirection_identity, Vec3f.dot, EPSILON]; norm_num
  · simp only [segmentDirection_identity, Vec3f.dot, EPSILON]; norm_num
  · simp only [segmentDirection_identity, Vec3f.dot, EPSILON]; norm_num
  · simp only [segmentPoint, segmentDirection_identity, segmentStart_identity]
    ext
    · simp
    · simp
    · simp
      norm_num
  · rw [hpar]; norm_num

/-- Every divisor of the segment-parameter computation exceeds the threshold in the branch
where it is evaluated. -/
theorem evaluatedDivisors_pos (a b c e f : K) :
    ∀ d ∈ evaluatedDivisors a b c e f, EPSILON < d := by
  unfold evaluatedDivisors
  dsimp only
  by_cases h1 : a ≤ EPSILON ∧ e ≤ EPSILON
  · rw [if_pos h1]
    intro d hd
    exact absurd hd (List.not_mem_nil d)
  rw [if_neg h1]
  by_cases h2 : a ≤ EPSILON
  · rw [if_pos h2]
    intro d hd
    rw [List.mem_singleton] at hd
    rw [hd]
    by_contra hc
    exact h1 ⟨h2, not_lt.mp hc⟩
  rw [if_neg h2]
  by_cases h3 : e ≤ EPSILON
  · rw [if_pos h3]
    intro d hd
    rw [List.mem_singleton] at hd
    rw [hd]
    exact not_le.mp h2
  rw [if_neg h3]
  intro d hd
  rw [List.mem_append, List.mem_append] at hd
  rcases hd with (hd | hd) | hd
  · split_ifs at hd with h4
    · rw [List.mem_singleton] at hd
      rw [hd]
      exact h4
    · exact absurd hd (List.not_mem_nil d)
  · rw [List.mem_singleton] at hd
    rw [hd]
    exact not_le.mp h3
  · split_ifs at hd
    · rw [List.mem_singleton] at hd
      rw [hd]
      exact not_le.mp h2
    · rw [List.mem_singleton] at hd
      rw [hd]
      exact not_le.mp h2
    · exact absurd hd (List.not_mem_nil d)

/-- C22: for all capsule inputs, the segment-parameter computation of
`ShapeShapeDistance <Capsule, Capsule>` is total and in range: every division it evaluates
(`f / e`, `-c / a`, `(b·f - c·e) / denom`, `(b·s + f) / e`, `(b - c) / a`) has a non-zero
divisor (one above `EPSILON`) in the branch where it is evaluated, the final parameters
satisfy `0 ≤ s ≤ 1` and `0 ≤ t ≤ 1`, and both witness points lie on their medial segments. -/
theorem capsuleParameters_total (o1 : Capsule K) (tf1 : Transform3f K)
    (o2 : Capsule K) (tf2 : Transform3f K) :
    (∀ d ∈ capsuleDivisors o1 tf1 o2 tf2, EPSILON < d ∧ d ≠ 0) ∧
    (0 ≤ (capsuleParameters o1 tf1 o2 tf2).1 ∧ (capsuleParameters o1 tf1 o2 tf2).1 ≤ 1) ∧
    (0 ≤ (capsuleParameters o1 tf1 o2 tf2).2 ∧ (capsuleParameters o1 tf1 o2 tf2).2 ≤ 1) ∧
    (∃ s : K, 0 ≤ s ∧ s ≤ 1 ∧ (witnessPoints o1 tf1 o2 tf2).1 = segmentPoint o1 tf1 s) ∧
    (∃ t : K, 0 ≤ t ∧ t ≤ 1 ∧ (witnessPoints o1 tf1 o2 tf2).2 = segmentPoint o2 tf2 t) := by
  obtain ⟨hs, ht⟩ := capsuleParameters_range o1 tf1 o2 tf2
  refine ⟨?_, hs, ht, ⟨_, hs.1, hs.2, witnessPoints_fst o1 tf1 o2 tf2⟩,
    ⟨_, ht.1, ht.2, witnessPoints_snd o1 tf1 o2 tf2⟩⟩
  intro d hd
  have h := evaluatedDivisors_pos _ _ _ _ _ d hd
  exact ⟨h, (lt_trans EPSILON_pos h).ne'⟩

/-- The fields of a contact with exchanged roles. -/
theorem swapRoles_fields {G F : Type} (c : Contact G F) :
    (swapRoles c).o1 = c.o2 ∧ (swapRoles c).o2 = c.o1 ∧
    (swapRoles c).b1 = c.b2 ∧ (swapRoles c).b2 = c.b1 ∧
    (swapRoles c).pos = c.pos ∧ (swapRoles c).normal = c.normal ∧
    (swapRoles c).penetration_depth = c.penetration_depth :=
  ⟨rfl, rfl, rfl, rfl, rfl, rfl, rfl⟩

/-- C25: `invertResults` is an involution that only swaps roles: it exchanges `o1` with `o2`
and `b1` with `b2` in every contact held by the result (the contacts that were in the result
before the current query, `old`, as well as the ones the query appended, `new`), leaves the
number and the order of the contacts and each contact's position, normal and penetration
depth unchanged, leaves the distance lower bound unchanged, and applying it twice restores
the original result. -/
theorem invertResults_swaps_roles {G F : Type} (result : CollisionResult G F) :
    (invertResults result).contacts.length = result.contacts.length ∧
    (∀ (i : Nat) (c : Contact G F), result.contacts[i]? = some c →
      ∃ c' : Contact G F, (invertResults result).contacts[i]? = some c' ∧
        c'.o1 = c.o2 ∧ c'.o2 = c.o1 ∧ c'.b1 = c.b2 ∧ c'.b2 = c.b1 ∧
        c'.pos = c.pos ∧ c'.normal = c.normal ∧
        c'.penetration_depth = c.penetration_depth) ∧
    (∀ (old new : List (Contact G F)), result.contacts = old ++ new →
      (invertResults result).contacts = old.map swapRoles ++ new.map swapRoles) ∧
    (invertResults result).distance_lower_bound = result.distance_lower_bound ∧
    invertResults (invertResults result) = result := by
  have hmap : (invertResults result).contacts = result.contacts.map swapRoles := rfl
  refine ⟨?_, ?_, ?_, rfl, invertResults_invertResults result⟩
  · rw [hmap, List.length_map]
  · intro i c hc
    refine ⟨swapRoles c, ?_, swapRoles_fields c⟩
    rw [hmap, List.getElem?_map, hc]
    rfl
  · intro old new h
    rw [hmap, h, List.map_append]

end hpp.fcl

namespace fcl

variable {K : Type} [LinearOrderedField K]

/-! ### Containment in the fitted AABB -/

theorem rangeBox_encloses (T v : Vec3f K) (rx ry rz : K)
    (hx : |v.x| ≤ rx) (hy : |v.y| ≤ ry) (hz : |v.z| ≤ rz) :
    (rangeBox T rx ry rz).Encloses (v + T) := by
  simp only [AABB.Encloses, rangeBox, Vec3f.add_x, Vec3f.add_y, Vec3f.add_z]
  have hx' := abs_le.mp hx
  have hy' := abs_le.mp hy
  have hz' := abs_le.mp hz
  refine ⟨⟨?_, ?_⟩, ⟨?_, ?_⟩, ⟨?_, ?_⟩⟩ <;> linarith [hx'.1, hx'.2, hy'.1, hy'.2, hz'.1, hz'.2]

/-- One term of the rotated-box projection: `|m * x| ≤ |m * d| / 2` when `|x| ≤ d / 2`. -/
theorem abs_mul_le_half (m x d : K) (h : |x| ≤ d / 2) : |m * x| ≤ (1 / 2 : K) * |m * d| := by
  have hd : 0 ≤ d := by have := abs_nonneg x; linarith
  rw [abs_mul, abs_mul, abs_of_nonneg hd]
  have := mul_le_mul_of_nonneg_left h (abs_nonneg m)
  linarith

/-- One term of the cylinder projection: `|m * x| ≤ |m * r|` when `|x| ≤ r`. -/
theorem abs_mul_le_radius (m x r : K) (h : |x| ≤ r) : |m * x| ≤ |m * r| := by
  have hr : 0 ≤ r := le_trans (abs_nonneg x) h
  rw [abs_mul, abs_mul, abs_of_nonneg hr]
  exact mul_le_mul_of_nonneg_left h (abs_nonneg m)

/-- Projection of a box point on a row of the rotation. -/
theorem row_box (ρ p side : Vec3f K) (hx : |p.x| ≤ side.x / 2) (hy : |p.y| ≤ side.y / 2)
    (hz : |p.z| ≤ side.z / 2) :
    |ρ.dot p| ≤ (1 / 2 : K) * (|ρ.x * side.x| + |ρ.y * side.y| + |ρ.z * side.z|) := by
  have h1 := abs_mul_le_half ρ.x p.x side.x hx
  have h2 := abs_mul_le_half ρ.y p.y side.y hy
  have h3 := abs_mul_le_half ρ.z p.z side.z hz
  have := abs_add_three (ρ.x * p.x) (ρ.y * p.y) (ρ.z * p.z)
  simp only [Vec3f.dot]
  linarith

/-- Projection of a capsule point on a unit row of the rotation. -/
theorem row_capsule (ρ p : Vec3f K) (c lz r : K) (hρ : ρ.dot ρ = 1) (hr : 0 ≤ r)
    (hc : |c| ≤ lz / 2) (hp : (p - ⟨0, 0, c⟩).squaredNorm ≤ r ^ 2) :
    |ρ.dot p| ≤ (1 / 2 : K) * |ρ.z * lz| + r := by
  have h1 := abs_mul_le_half ρ.z c lz hc
  have h2 := Vec3f.abs_dot_le_of_unit ρ (p - ⟨0, 0, c⟩) r hρ hr hp
  have e : ρ.dot p = ρ.z * c + ρ.dot (p - ⟨0, 0, c⟩) := by
    simp only [Vec3f.dot, Vec3f.sub_x, Vec3f.sub_y, Vec3f.sub_z]; ring
  rw [e]
  have := abs_add (ρ.z * c) (ρ.dot (p - ⟨0, 0, c⟩))
  linarith

/-- Projection of a cylinder point on a row of the rotation. -/
theorem row_cylinder (ρ p : Vec3f K) (lz r : K) (hr : 0 ≤ r)
    (hz : |p.z| ≤ lz / 2) (hp : p.x ^ 2 + p.y ^ 2 ≤ r ^ 2) :
    |ρ.dot p| ≤ |ρ.x * r| + |ρ.y * r| + (1 / 2 : K) * |ρ.z * lz| := by
  have hx : |p.x| ≤ r := abs_le_of_sq_le_sq (by nlinarith [sq_nonneg p.y]) hr
  have hy : |p.y| ≤ r := abs_le_of_sq_le_sq (by nlinarith [sq_nonneg p.x]) hr
  have h1 := abs_mul_le_radius ρ.x p.x r hx
  have h2 := abs_mul_le_radius ρ.y p.y r hy
  have h3 := abs_mul_le_half ρ.z p.z lz hz
  have := abs_add_three (ρ.x * p.x) (ρ.y * p.y) (ρ.z * p.z)
  simp only [Vec3f.dot]
  linarith

/-- C5: for every box, sphere, capsule, cone and cylinder with non-negative dimensions, an
orthonormal local rotation `R` and a local position `T`, every point `R·p + T` of the shape
(`p` in the local solid) lies within `[bv.min_, bv.max_]` on every axis of the box computed
by `computeBV<AABB>`. -/
theorem computeBV_AABB_encloses (s : Primitive K) (hR : s.getLocalRotation.IsOrthonormal)
    (hd : s.NonnegDims) (p : Vec3f K) (hp : s.localSolid p) :
    s.computeBV_AABB.Encloses (s.shapePoint p) := by
  obtain ⟨h0, h1, h2, _, _, _⟩ := hR
  cases s with
  | box s =>
    obtain ⟨hx, hy, hz⟩ := hp
    exact rangeBox_encloses _ _ _ _ _ (row_box _ p s.side hx hy hz)
      (row_box _ p s.side hx hy hz) (row_box _ p s.side hx hy hz)
  | sphere s =>
    exact rangeBox_encloses _ _ _ _ _ (Vec3f.abs_dot_le_of_unit _ p _ h0 hd hp)
      (Vec3f.abs_dot_le_of_unit _ p _ h1 hd hp) (Vec3f.abs_dot_le_of_unit _ p _ h2 hd hp)
  | capsule s =>
    obtain ⟨c, hc, hp⟩ := hp
    exact rangeBox_encloses _ _ _ _ _ (row_capsule _ p c s.lz s.radius h0 hd.1 hc hp)
      (row_capsule _ p c s.lz s.radius h1 hd.1 hc hp)
      (row_capsule _ p c s.lz s.radius h2 hd.1 hc hp)
  | cone s =>
    obtain ⟨hz, ρ, hρ0, hρ, _, hp⟩ := hp
    have hp' : p.x ^ 2 + p.y ^ 2 ≤ s.radius ^ 2 :=
      le_trans hp (pow_le_pow_left₀ hρ0 hρ 2)
    exact rangeBox_encloses _ _ _ _ _ (row_cylinder _ p s.lz s.radius hd.1 hz hp')
      (row_cylinder _ p s.lz s.radius hd.1 hz hp') (row_cylinder _ p s.lz s.radius hd.1 hz hp')
  | cylinder s =>
    obtain ⟨hz, hp⟩ := hp
    exact rangeBox_encloses _ _ _ _ _ (row_cylinder _ p s.lz s.radius hd.1 hz hp)
      (row_cylinder _ p s.lz s.radius hd.1 hz hp) (row_cylinder _ p s.lz s.radius hd.1 hz hp)

/-- Witness of C5: the capsule of radius 1 and length 2, rotated by a quarter turn about x and
placed at (1, 2, 3); the tip (0, 0, 2) of its local solid is mapped to (1, 0, 3), inside the
fitted box from (0, 0, 2) to (2, 4, 4). -/
theorem computeBV_AABB_encloses_witness :
    (Primitive.capsule (⟨1, 2, ⟨1, 0, 0, 0, 0, -1, 0, 1, 0⟩, ⟨1, 2, 3⟩⟩ : Capsule ℚ)).computeBV_AABB
      = ⟨⟨0, 0, 2⟩, ⟨2, 4, 4⟩⟩ ∧
    (Primitive.capsule (⟨1, 2, ⟨1, 0, 0, 0, 0, -1, 0, 1, 0⟩, ⟨1, 2, 3⟩⟩ : Capsule ℚ)).shapePoint
      ⟨0, 0, 2⟩ = ⟨1, 0, 3⟩ ∧
    (Primitive.capsule (⟨1, 2, ⟨1, 0, 0, 0, 0, -1, 0, 1, 0⟩, ⟨1, 2, 3⟩⟩ :
      Capsule ℚ)).computeBV_AABB.Encloses
      ((Primitive.capsule (⟨1, 2, ⟨1, 0, 0, 0, 0, -1, 0, 1, 0⟩, ⟨1, 2, 3⟩⟩ :
        Capsule ℚ)).shapePoint ⟨0, 0, 2⟩) := by
  refine ⟨?_, ?_, computeBV_AABB_encloses _ ?_ ?_ _ ?_⟩
  · simp [Primitive.computeBV_AABB, computeBV_AABB_Capsule, rangeBox, Vec3f.ext_iff]
    norm_num
  · simp [Primitive.shapePoint, Primitive.getLocalRotation, Primitive.getLocalPosition,
      Matrix3f.MxV, Matrix3f.row, Vec3f.dot, Vec3f.ext_iff]
  · simp [Primitive.getLocalRotation, Matrix3f.IsOrthonormal, Matrix3f.row, Vec3f.dot]
  · simp [Primitive.NonnegDims]
  · refine ⟨1, ?_, ?_⟩
    · norm_num
    · simp [Vec3f.squaredNorm, Vec3f.dot]
      norm_num

/-! ### Containment in the fitted OBB -/

/-- The offset of a shape point from the local position is the rotated local point. -/
theorem shapePoint_sub (s : Primitive K) (p : Vec3f K) :
    s.shapePoint p - s.getLocalPosition = s.getLocalRotation.MxV p := by
  ext <;> simp [Primitive.shapePoint]

/-- Projecting a rotated vector on an identity axis reads a row of the rotation. -/
theorem MxV_dot_identity_col (m : Matrix3f K) (p : Vec3f K) (k : Fin 3) :
    (m.MxV p).dot ((Matrix3f.identity : Matrix3f K).col k) = (m.row k).dot p := by
  fin_cases k <;> simp [Matrix3f.MxV, Matrix3f.identity, Matrix3f.col, Vec3f.dot]

/-- The coordinates of a point of a capsule's local solid. -/
theorem capsule_coordinates (p : Vec3f K) (c lz r : K) (hr : 0 ≤ r) (hc : |c| ≤ lz / 2)
    (hp : (p - ⟨0, 0, c⟩).squaredNorm ≤ r ^ 2) :
    |p.x| ≤ r ∧ |p.y| ≤ r ∧ |p.z| ≤ lz / 2 + r := by
  simp only [Vec3f.squaredNorm, Vec3f.dot, Vec3f.sub_x, Vec3f.sub_y, Vec3f.sub_z, sub_zero]
    at hp
  have hx : |p.x| ≤ r :=
    abs_le_of_sq_le_sq (by nlinarith [mul_self_nonneg p.y, mul_self_nonneg (p.z - c)]) hr
  have hy : |p.y| ≤ r :=
    abs_le_of_sq_le_sq (by nlinarith [mul_self_nonneg p.x, mul_self_nonneg (p.z - c)]) hr
  have hz : |p.z - c| ≤ r :=
    abs_le_of_sq_le_sq (by nlinarith [mul_self_nonneg p.x, mul_self_nonneg p.y]) hr
  refine ⟨hx, hy, ?_⟩
  have := abs_add c (p.z - c)
  rw [add_sub_cancel] at this
  linarith

/-- The coordinates of a point of a cylinder's local solid. -/
theorem cylinder_coordinates (p : Vec3f K) (r : K) (hr : 0 ≤ r)
    (hp : p.x ^ 2 + p.y ^ 2 ≤ r ^ 2) : |p.x| ≤ r ∧ |p.y| ≤ r :=
  ⟨abs_le_of_sq_le_sq (by nlinarith [sq_nonneg p.y]) hr,
    abs_le_of_sq_le_sq (by nlinarith [sq_nonneg p.x]) hr⟩

/-- A rotated local point whose coordinates are within the half-extents lies in the oriented
box spanned by the columns of the rotation. -/
theorem contains_of_columns (m : Matrix3f K) (hR : m.IsOrthonormal) (T ext p : Vec3f K)
    (hx : |p.x| ≤ ext.x) (hy : |p.y| ≤ ext.y) (hz : |p.z| ≤ ext.z) :
    OBB.Contains ⟨T, m.col 0, m.col 1, m.col 2, ext⟩ (m.MxV p + T) := by
  intro k
  have e : m.MxV p + T - T = m.MxV p := by ext <;> simp
  have h0 := Matrix3f.MxV_dot_col m hR p 0
  have h1 := Matrix3f.MxV_dot_col m hR p 1
  have h2 := Matrix3f.MxV_dot_col m hR p 2
  fin_cases k
  · show |(m.MxV p + T - T).dot (m.col 0)| ≤ ext.x
    rw [e, h0]; exact hx
  · show |(m.MxV p + T - T).dot (m.col 1)| ≤ ext.y
    rw [e, h1]; exact hy
  · show |(m.MxV p + T - T).dot (m.col 2)| ≤ ext.z
    rw [e, h2]; exact hz

/-- C20: for every box, sphere, capsule, cone and cylinder with non-negative dimensions, an
orthonormal local rotation `R` and a local position `T`, the oriented box computed by
`computeBV<OBB>` has centre `T`, axes equal to the columns of `R` (identity axes for the
sphere), the half-extents named by the specification (box `side/2`; sphere `r, r, r`; capsule
`r, r, lz/2 + r`; cone and cylinder `r, r, lz/2`), which are non-negative, and contains the
shape: every point `x = R·p + T` of the shape satisfies `|(x - To)·axis[k]| ≤ extent[k]` for
`k = 0, 1, 2`. -/
theorem computeBV_OBB_contains (s : Primitive K) (hR : s.getLocalRotation.IsOrthonormal)
    (hd : s.NonnegDims) :
    s.computeBV_OBB.To = s.getLocalPosition ∧
    (∀ k : Fin 3, s.computeBV_OBB.axis k = s.expectedAxis k) ∧
    s.computeBV_OBB.extent = s.expectedExtent ∧
    (∀ k : Fin 3, 0 ≤ s.computeBV_OBB.extent.get k) ∧
    ∀ p : Vec3f K, s.localSolid p → s.computeBV_OBB.Contains (s.shapePoint p) := by
  cases s with
  | box s =>
    obtain ⟨h0, h1, h2⟩ := hd
    refine ⟨rfl, ?_, ?_, ?_, ?_⟩
    · intro k; fin_cases k <;> rfl
    · ext <;> simp [Primitive.computeBV_OBB, computeBV_OBB_Box, Primitive.expectedExtent] <;>
        ring
    · intro k
      fin_cases k <;>
        simp [Primitive.computeBV_OBB, computeBV_OBB_Box, Vec3f.get] <;> assumption
    · intro p hp
      obtain ⟨hx, hy, hz⟩ := hp
      refine contains_of_columns s.localRotation hR s.localPosition ((1 / 2 : K) * s.side) p
        ?_ ?_ ?_
      · simp only [Vec3f.smul_x]; linarith
      · simp only [Vec3f.smul_y]; linarith
      · simp only [Vec3f.smul_z]; linarith
  | sphere s =>
    obtain ⟨r0, r1, r2, _, _, _⟩ := hR
    have hd' : 0 ≤ s.radius := hd
    refine ⟨rfl, ?_, rfl, ?_, ?_⟩
    · intro k; fin_cases k <;> rfl
    · intro k; fin_cases k <;> exact hd'
    · intro p hp k
      have e := shapePoint_sub (Primitive.sphere s) p
      have e' := MxV_dot_identity_col s.localRotation p k
      have hk : |(s.localRotation.row k).dot p| ≤ s.radius := by
        fin_cases k
        · exact Vec3f.abs_dot_le_of_unit _ p _ r0 hd' hp
        · exact Vec3f.abs_dot_le_of_unit _ p _ r1 hd' hp
        · exact Vec3f.abs_dot_le_of_unit _ p _ r2 hd' hp
      have hax : (Primitive.sphere s).computeBV_OBB.axis k =
          (Matrix3f.identity : Matrix3f K).col k := by fin_cases k <;> rfl
      have hex : (Primitive.sphere s).computeBV_OBB.extent.get k = s.radius := by
        fin_cases k <;> rfl
      have hTo : (Primitive.sphere s).computeBV_OBB.To = s.localPosition := rfl
      rw [hax, hex, hTo]
      change |((Primitive.sphere s).shapePoint p - (Primitive.sphere s).getLocalPosition).dot
        _| ≤ _
      rw [e]
      change |(s.localRotation.MxV p).dot _| ≤ _
      rw [e']
      exact hk
  | capsule s =>
    obtain ⟨hr, hl⟩ := hd
    refine ⟨rfl, ?_, rfl, ?_, ?_⟩
    · intro k; fin_cases k <;> rfl
    · intro k
      fin_cases k
      · exact hr
      · exact hr
      · show 0 ≤ s.lz / 2 + s.radius
        linarith
    · intro p hp
      obtain ⟨c, hc, hp⟩ := hp
      obtain ⟨hx, hy, hz⟩ := capsule_coordinates p c s.lz s.radius hr hc hp
      exact contains_of_columns s.localRotation hR s.localPosition
        ⟨s.radius, s.radius, s.lz / 2 + s.radius⟩ p hx hy hz
  | cone s =>
    obtain ⟨hr, hl⟩ := hd
    refine ⟨rfl, ?_, rfl, ?_, ?_⟩
    · intro k; fin_cases k <;> rfl
    · intro k
      fin_cases k
      · exact hr
      · exact hr
      · show 0 ≤ s.lz / 2
        linarith
    · intro p hp
      obtain ⟨hz, ρ, hρ0, hρ, _, hp⟩ := hp
      have hp' : p.x ^ 2 + p.y ^ 2 ≤ s.radius ^ 2 :=
        le_trans hp (pow_le_pow_left₀ hρ0 hρ 2)
      obtain ⟨hx, hy⟩ := cylinder_coordinates p s.radius hr hp'
      exact contains_of_columns s.localRotation hR s.localPosition
        ⟨s.radius, s.radius, s.lz / 2⟩ p hx hy hz
  | cylinder s =>
    obtain ⟨hr, hl⟩ := hd
    refine ⟨rfl, ?_, rfl, ?_, ?_⟩
    · intro k; fin_cases k <;> rfl
    · intro k
      fin_cases k
      · exact hr
      · exact hr
      · show 0 ≤ s.lz / 2
        linarith
    · intro p hp
      obtain ⟨hz, hp⟩ := hp
      obtain ⟨hx, hy⟩ := cylinder_coordinates p s.radius hr hp
      exact contains_of_columns s.localRotation hR s.localPosition
        ⟨s.radius, s.radius, s.lz / 2⟩ p hx hy hz

/-- Witness of C20: the capsule of radius 1 and length 2, rotated by a quarter turn about x and
placed at (1, 2, 3); its oriented box is centred at (1, 2, 3) with half-extents (1, 1, 2), and
the tip (0, 0, 2) of the local solid, mapped to (1, 0, 3), lies in it. -/
theorem computeBV_OBB_contains_witness :
    (Primitive.capsule (⟨1, 2, ⟨1, 0, 0, 0, 0, -1, 0, 1, 0⟩, ⟨1, 2, 3⟩⟩ :
      Capsule ℚ)).computeBV_OBB =
      ⟨⟨1, 2, 3⟩, ⟨1, 0, 0⟩, ⟨0, 0, 1⟩, ⟨0, -1, 0⟩, ⟨1, 1, 2⟩⟩ ∧
    (Primitive.capsule (⟨1, 2, ⟨1, 0, 0, 0, 0, -1, 0, 1, 0⟩, ⟨1, 2, 3⟩⟩ :
      Capsule ℚ)).computeBV_OBB.Contains
      ((Primitive.capsule (⟨1, 2, ⟨1, 0, 0, 0, 0, -1, 0, 1, 0⟩, ⟨1, 2, 3⟩⟩ :
        Capsule ℚ)).shapePoint ⟨0, 0, 2⟩) := by
  refine ⟨?_, (computeBV_OBB_contains _ ?_ ?_).2.2.2.2 _ ?_⟩
  · simp [Primitive.computeBV_OBB, computeBV_OBB_Capsule]
    norm_num
  · simp [Primitive.getLocalRotation, Matrix3f.IsOrthonormal, Matrix3f.row, Vec3f.dot]
  · simp [Primitive.NonnegDims]
  · refine ⟨1, ?_, ?_⟩
    · norm_num
    · simp [Vec3f.squaredNorm, Vec3f.dot]
      norm_num

/-! ### Tightness of the fitted AABB -/

/-- A coordinate of size at most `d` whose product with `m` is `|m * d|`. -/
theorem exists_signed (m d : K) (hd : 0 ≤ d) : ∃ x : K, |x| ≤ d ∧ |-x| ≤ d ∧ m * x = |m * d| := by
  by_cases hm : 0 ≤ m
  · exact ⟨d, by rw [abs_of_nonneg hd], by rw [abs_neg, abs_of_nonneg hd],
      by rw [abs_of_nonneg (mul_nonneg hm hd)]⟩
  · have hm' : m ≤ 0 := le_of_not_le hm
    refine ⟨-d, by rw [abs_neg, abs_of_nonneg hd], by rw [neg_neg, abs_of_nonneg hd], ?_⟩
    rw [abs_of_nonpos (mul_nonpos_of_nonpos_of_nonneg hm' hd)]
    ring

theorem abs_mul_half (m d : K) : |m * (d / 2)| = (1 / 2 : K) * |m * d| := by
  have : m * (d / 2) = (1 / 2 : K) * (m * d) := by ring
  rw [this, abs_mul, abs_of_pos (by norm_num : (0 : K) < 1 / 2)]

/-- On a row of the rotation, the projection bound of a local box is attained at one of its
corners. -/
theorem row_localBox_attained (ρ : Vec3f K) (hx hy hz : K) (h0 : 0 ≤ hx) (h1 : 0 ≤ hy)
    (h2 : 0 ≤ hz) :
    ∃ p : Vec3f K, (|p.x| ≤ hx ∧ |p.y| ≤ hy ∧ |p.z| ≤ hz) ∧
      ρ.dot p = |ρ.x * hx| + |ρ.y * hy| + |ρ.z * hz| := by
  obtain ⟨x, hx1, _, ex⟩ := exists_signed ρ.x hx h0
  obtain ⟨y, hy1, _, ey⟩ := exists_signed ρ.y hy h1
  obtain ⟨z, hz1, _, ez⟩ := exists_signed ρ.z hz h2
  exact ⟨⟨x, y, z⟩, ⟨hx1, hy1, hz1⟩, by simp only [Vec3f.dot]; rw [ex, ey, ez]⟩

/-- On a unit row of the rotation, the projection bound of a ball is attained. -/
theorem row_sphere_attained (ρ : Vec3f K) (r : K) (hρ : ρ.dot ρ = 1) :
    ∃ p : Vec3f K, p.squaredNorm ≤ r ^ 2 ∧ ρ.dot p = r := by
  refine ⟨r * ρ, ?_, ?_⟩
  · rw [Vec3f.squaredNorm_smul]
    unfold Vec3f.squaredNorm
    rw [hρ]
    apply le_of_eq
    ring
  · simp only [Vec3f.dot, Vec3f.smul_x, Vec3f.smul_y, Vec3f.smul_z] at hρ ⊢
    linear_combination r * hρ

/-- On a unit row of the rotation, the projection bound of a capsule is attained. -/
theorem row_capsule_attained (ρ : Vec3f K) (lz r : K) (hρ : ρ.dot ρ = 1) (hl : 0 ≤ lz) :
    ∃ p : Vec3f K, (∃ c : K, |c| ≤ lz / 2 ∧ (p - ⟨0, 0, c⟩).squaredNorm ≤ r ^ 2) ∧
      ρ.dot p = (1 / 2 : K) * |ρ.z * lz| + r := by
  obtain ⟨c, hc, _, ec⟩ := exists_signed ρ.z (lz / 2) (by linarith)
  rw [abs_mul_half] at ec
  refine ⟨⟨0, 0, c⟩ + r * ρ, ⟨c, hc, ?_⟩, ?_⟩
  · have : (⟨0, 0, c⟩ + r * ρ - ⟨0, 0, c⟩ : Vec3f K) = r * ρ := by ext <;> simp
    rw [this, Vec3f.squaredNorm_smul]
    unfold Vec3f.squaredNorm
    rw [hρ]
    apply le_of_eq
    ring
  · simp only [Vec3f.dot, Vec3f.smul_x, Vec3f.smul_y, Vec3f.smul_z, Vec3f.add_x, Vec3f.add_y,
      Vec3f.add_z] at hρ ⊢
    linear_combination ec + r * hρ

/-- The solid that the fitted box encloses tightly is symmetric about the local origin. -/
theorem fittedSolid_neg (s : Primitive K) (p : Vec3f K) (hp : s.fittedSolid p) :
    s.fittedSolid (-p) := by
  cases s with
  | box s =>
    obtain ⟨hx, hy, hz⟩ := hp
    exact ⟨by rw [Vec3f.neg_x, abs_neg]; exact hx, by rw [Vec3f.neg_y, abs_neg]; exact hy,
      by rw [Vec3f.neg_z, abs_neg]; exact hz⟩
  | sphere s =>
    show (-p).squaredNorm ≤ s.radius ^ 2
    have : (-p).squaredNorm = p.squaredNorm := by
      simp only [Vec3f.squaredNorm, Vec3f.dot, Vec3f.neg_x, Vec3f.neg_y, Vec3f.neg_z]; ring
    rw [this]; exact hp
  | capsule s =>
    obtain ⟨c, hc, hp⟩ := hp
    refine ⟨-c, by rw [abs_neg]; exact hc, ?_⟩
    have : (-p - ⟨0, 0, -c⟩ : Vec3f K).squaredNorm = (p - ⟨0, 0, c⟩).squaredNorm := by
      simp only [Vec3f.squaredNorm, Vec3f.dot, Vec3f.neg_x, Vec3f.neg_y, Vec3f.neg_z,
        Vec3f.sub_x, Vec3f.sub_y, Vec3f.sub_z]
      ring
    rw [this]; exact hp
  | cone s =>
    obtain ⟨hx, hy, hz⟩ := hp
    exact ⟨by rw [Vec3f.neg_x, abs_neg]; exact hx, by rw [Vec3f.neg_y, abs_neg]; exact hy,
      by rw [Vec3f.neg_z, abs_neg]; exact hz⟩
  | cylinder s =>
    obtain ⟨hx, hy, hz⟩ := hp
    exact ⟨by rw [Vec3f.neg_x, abs_neg]; exact hx, by rw [Vec3f.neg_y, abs_neg]; exact hy,
      by rw [Vec3f.neg_z, abs_neg]; exact hz⟩

/-- A local point whose projection on row `k` equals the half-range of axis `k` is mapped to
the upper bound of the box on that axis, and its opposite to the lower bound. -/
theorem bounds_of_row (s : Primitive K) (rx ry rz : K)
    (hbv : s.computeBV_AABB = rangeBox s.getLocalPosition rx ry rz) (k : Fin 3) (p : Vec3f K)
    (e : (s.getLocalRotation.row k).dot p = (⟨rx, ry, rz⟩ : Vec3f K).get k) :
    (s.shapePoint p).get k = s.computeBV_AABB.max_.get k ∧
    (s.shapePoint (-p)).get k = s.computeBV_AABB.min_.get k := by
  rw [hbv]
  fin_cases k
  · have e0 : (s.getLocalRotation.row 0).dot p = rx := e
    simp only [Primitive.shapePoint, Matrix3f.MxV, rangeBox, Vec3f.get, Vec3f.add_x,
      Vec3f.dot, Vec3f.neg_x, Vec3f.neg_y, Vec3f.neg_z] at e0 ⊢
    constructor <;> linarith
  · have e1 : (s.getLocalRotation.row 1).dot p = ry := e
    simp only [Primitive.shapePoint, Matrix3f.MxV, rangeBox, Vec3f.get, Vec3f.add_y,
      Vec3f.dot, Vec3f.neg_x, Vec3f.neg_y, Vec3f.neg_z] at e1 ⊢
    constructor <;> linarith
  · have e2 : (s.getLocalRotation.row 2).dot p = rz := e
    simp only [Primitive.shapePoint, Matrix3f.MxV, rangeBox, Vec3f.get, Vec3f.add_z,
      Vec3f.dot, Vec3f.neg_x, Vec3f.neg_y, Vec3f.neg_z] at e2 ⊢
    constructor <;> linarith

/-- Projection of a point of a local box of half-extents `(r, r, lz/2)` on a row of the
rotation. -/
theorem row_localBox (ρ p : Vec3f K) (lz r : K) (hx : |p.x| ≤ r) (hy : |p.y| ≤ r)
    (hz : |p.z| ≤ lz / 2) :
    |ρ.dot p| ≤ |ρ.x * r| + |ρ.y * r| + (1 / 2 : K) * |ρ.z * lz| := by
  have h1 := abs_mul_le_radius ρ.x p.x r hx
  have h2 := abs_mul_le_radius ρ.y p.y r hy
  have h3 := abs_mul_le_half ρ.z p.z lz hz
  have := abs_add_three (ρ.x * p.x) (ρ.y * p.y) (ρ.z * p.z)
  simp only [Vec3f.dot]
  linarith

/-- C17 (amended): for every box, sphere, capsule, cone and cylinder with non-negative
dimensions at every orthonormal local pose, the box returned by `computeBV<AABB>` is the
tightest axis-aligned box of the fitted solid, which is the shape itself for box, sphere and
capsule, and the local bounding box of half-extents `(r, r, lz/2)` for cone and cylinder:
every point of the placed fitted solid is inside the box, and on each axis `bv.min_` and
`bv.max_` are each attained by some point of the placed fitted solid. -/
theorem computeBV_AABB_tight (s : Primitive K) (hR : s.getLocalRotation.IsOrthonormal)
    (hd : s.NonnegDims) :
    (∀ p : Vec3f K, s.fittedSolid p → s.computeBV_AABB.Encloses (s.shapePoint p)) ∧
    ∀ k : Fin 3,
      (∃ p : Vec3f K, s.fittedSolid p ∧
        (s.shapePoint p).get k = s.computeBV_AABB.max_.get k) ∧
      (∃ p : Vec3f K, s.fittedSolid p ∧
        (s.shapePoint p).get k = s.computeBV_AABB.min_.get k) := by
  have hrow : ∀ k : Fin 3, (s.getLocalRotation.row k).dot (s.getLocalRotation.row k) = 1 := by
    intro k
    obtain ⟨h0, h1, h2, _, _, _⟩ := hR
    fin_cases k
    · exact h0
    · exact h1
    · exact h2
  have hall : ∀ (rx ry rz : K), s.computeBV_AABB = rangeBox s.getLocalPosition rx ry rz →
      (∀ k : Fin 3, ∃ p : Vec3f K, s.fittedSolid p ∧
        (s.getLocalRotation.row k).dot p = (⟨rx, ry, rz⟩ : Vec3f K).get k) →
      ∀ k : Fin 3,
        (∃ p : Vec3f K, s.fittedSolid p ∧
          (s.shapePoint p).get k = s.computeBV_AABB.max_.get k) ∧
        (∃ p : Vec3f K, s.fittedSolid p ∧
          (s.shapePoint p).get k = s.computeBV_AABB.min_.get k) := by
    intro rx ry rz hbv h k
    obtain ⟨p, hp, e⟩ := h k
    obtain ⟨e1, e2⟩ := bounds_of_row s rx ry rz hbv k p e
    exact ⟨⟨p, hp, e1⟩, ⟨-p, fittedSolid_neg s p hp, e2⟩⟩
  cases s with
  | box s =>
    obtain ⟨h0, h1, h2⟩ := hd
    refine ⟨?_, hall _ _ _ rfl ?_⟩
    · intro p hp
      obtain ⟨hx, hy, hz⟩ := hp
      exact rangeBox_encloses _ _ _ _ _ (row_box _ p s.side hx hy hz)
        (row_box _ p s.side hx hy hz) (row_box _ p s.side hx hy hz)
    · intro k
      obtain ⟨p, hp, e⟩ := row_localBox_attained (s.localRotation.row k) (s.side.x / 2)
        (s.side.y / 2) (s.side.z / 2) (by linarith) (by linarith) (by linarith)
      rw [abs_mul_half, abs_mul_half, abs_mul_half] at e
      refine ⟨p, hp, e.trans ?_⟩
      fin_cases k <;> simp only [Vec3f.get, Matrix3f.row] <;> ring
  | sphere s =>
    have hd' : 0 ≤ s.radius := hd
    refine ⟨?_, hall _ _ _ rfl ?_⟩
    · intro p hp
      exact rangeBox_encloses _ _ _ _ _ (Vec3f.abs_dot_le_of_unit _ p _ (hrow 0) hd' hp)
        (Vec3f.abs_dot_le_of_unit _ p _ (hrow 1) hd' hp)
        (Vec3f.abs_dot_le_of_unit _ p _ (hrow 2) hd' hp)
    · intro k
      obtain ⟨p, hp, e⟩ := row_sphere_attained (s.localRotation.row k) s.radius (hrow k)
      refine ⟨p, hp, e.trans ?_⟩
      fin_cases k <;> rfl
  | capsule s =>
    obtain ⟨hr, hl⟩ := hd
    refine ⟨?_, hall _ _ _ rfl ?_⟩
    · intro p hp
      obtain ⟨c, hc, hp⟩ := hp
      exact rangeBox_encloses _ _ _ _ _ (row_capsule _ p c s.lz s.radius (hrow 0) hr hc hp)
        (row_capsule _ p c s.lz s.radius (hrow 1) hr hc hp)
        (row_capsule _ p c s.lz s.radius (hrow 2) hr hc hp)
    · intro k
      obtain ⟨p, hp, e⟩ := row_capsule_attained (s.localRotation.row k) s.lz s.radius
        (hrow k) hl
      refine ⟨p, hp, e.trans ?_⟩
      fin_cases k <;> rfl
  | cone s =>
    obtain ⟨hr, hl⟩ := hd
    refine ⟨?_, hall _ _ _ rfl ?_⟩
    · intro p hp
      obtain ⟨hx, hy, hz⟩ := hp
      exact rangeBox_encloses _ _ _ _ _ (row_localBox _ p s.lz s.radius hx hy hz)
        (row_localBox _ p s.lz s.radius hx hy hz) (row_localBox _ p s.lz s.radius hx hy hz)
    · intro k
      obtain ⟨p, hp, e⟩ := row_localBox_attained (s.localRotation.row k) s.radius s.radius
        (s.lz / 2) hr hr (by linarith)
      rw [abs_mul_half] at e
      refine ⟨p, hp, e.trans ?_⟩
      fin_cases k <;> rfl
  | cylinder s =>
    obtain ⟨hr, hl⟩ := hd
    refine ⟨?_, hall _ _ _ rfl ?_⟩
    · intro p hp
      obtain ⟨hx, hy, hz⟩ := hp
      exact rangeBox_encloses _ _ _ _ _ (row_localBox _ p s.lz s.radius hx hy hz)
        (row_localBox _ p s.lz s.radius hx hy hz) (row_localBox _ p s.lz s.radius hx hy hz)
    · intro k
      obtain ⟨p, hp, e⟩ := row_localBox_attained (s.localRotation.row k) s.radius s.radius
        (s.lz / 2) hr hr (by linarith)
      rw [abs_mul_half] at e
      refine ⟨p, hp, e.trans ?_⟩
      fin_cases k <;> rfl

/-- Witness of C17 (amended): the cylinder of radius 1 and height 2, rotated about z by the
angle of cosine 3/5 and sine 4/5, at the origin; its box has half-range 7/5 along x, attained
by the corner (1, -1, 0) of the local bounding box. -/
theorem computeBV_AABB_tight_witness :
    (Primitive.cylinder (⟨1, 2, ⟨3 / 5, -4 / 5, 0, 4 / 5, 3 / 5, 0, 0, 0, 1⟩, ⟨0, 0, 0⟩⟩ :
      Cylinder ℚ)).shapePoint ⟨1, -1, 0⟩ = ⟨7 / 5, 1 / 5, 0⟩ ∧
    ((∀ p : Vec3f ℚ,
      (Primitive.cylinder (⟨1, 2, ⟨3 / 5, -4 / 5, 0, 4 / 5, 3 / 5, 0, 0, 0, 1⟩, ⟨0, 0, 0⟩⟩ :
        Cylinder ℚ)).fittedSolid p →
      (Primitive.cylinder (⟨1, 2, ⟨3 / 5, -4 / 5, 0, 4 / 5, 3 / 5, 0, 0, 0, 1⟩, ⟨0, 0, 0⟩⟩ :
        Cylinder ℚ)).computeBV_AABB.Encloses
        ((Primitive.cylinder (⟨1, 2, ⟨3 / 5, -4 / 5, 0, 4 / 5, 3 / 5, 0, 0, 0, 1⟩, ⟨0, 0, 0⟩⟩ :
          Cylinder ℚ)).shapePoint p)) ∧
    ∀ k : Fin 3,
      (∃ p : Vec3f ℚ,
        (Primitive.cylinder (⟨1, 2, ⟨3 / 5, -4 / 5, 0, 4 / 5, 3 / 5, 0, 0, 0, 1⟩, ⟨0, 0, 0⟩⟩ :
          Cylinder ℚ)).fittedSolid p ∧
        ((Primitive.cylinder (⟨1, 2, ⟨3 / 5, -4 / 5, 0, 4 / 5, 3 / 5, 0, 0, 0, 1⟩, ⟨0, 0, 0⟩⟩ :
          Cylinder ℚ)).shapePoint p).get k =
        (Primitive.cylinder (⟨1, 2, ⟨3 / 5, -4 / 5, 0, 4 / 5, 3 / 5, 0, 0, 0, 1⟩, ⟨0, 0, 0⟩⟩ :
          Cylinder ℚ)).computeBV_AABB.max_.get k) ∧
      (∃ p : Vec3f ℚ,
        (Primitive.cylinder (⟨1, 2, ⟨3 / 5, -4 / 5, 0, 4 / 5, 3 / 5, 0, 0, 0, 1⟩, ⟨0, 0, 0⟩⟩ :
          Cylinder ℚ)).fittedSolid p ∧
        ((Primitive.cylinder (⟨1, 2, ⟨3 / 5, -4 / 5, 0, 4 / 5, 3 / 5, 0, 0, 0, 1⟩, ⟨0, 0, 0⟩⟩ :
          Cylinder ℚ)).shapePoint p).get k =
        (Primitive.cylinder (⟨1, 2, ⟨3 / 5, -4 / 5, 0, 4 / 5, 3 / 5, 0, 0, 0, 1⟩, ⟨0, 0, 0⟩⟩ :
          Cylinder ℚ)).computeBV_AABB.min_.get k)) := by
  refine ⟨?_, computeBV_AABB_tight _ ?_ ?_⟩
  · simp [Primitive.shapePoint, Primitive.getLocalRotation, Primitive.getLocalPosition,
      Matrix3f.MxV, Matrix3f.row, Vec3f.dot, Vec3f.ext_iff]
    norm_num
  · simp [Primitive.getLocalRotation, Matrix3f.IsOrthonormal, Matrix3f.row, Vec3f.dot]
    norm_num
  · simp [Primitive.NonnegDims]

/-- Counterexample to C17 as stated: for the cylinder of radius 1 and height 2, rotated about
z by the angle of cosine 3/5 and sine 4/5, the box of `computeBV<AABB>` has `max_[0] = 7/5`,
while every point of the cylinder has its first coordinate at most 1: the bound is attained
by no point of the shape, and a smaller axis-aligned box contains the shape. -/
theorem computeBV_AABB_tight_counterexample :
    (Primitive.cylinder (⟨1, 2, ⟨3 / 5, -4 / 5, 0, 4 / 5, 3 / 5, 0, 0, 0, 1⟩, ⟨0, 0, 0⟩⟩ :
      Cylinder ℚ)).getLocalRotation.IsOrthonormal ∧
    (Primitive.cylinder (⟨1, 2, ⟨3 / 5, -4 / 5, 0, 4 / 5, 3 / 5, 0, 0, 0, 1⟩, ⟨0, 0, 0⟩⟩ :
      Cylinder ℚ)).computeBV_AABB.max_.get 0 = 7 / 5 ∧
    (∀ p : Vec3f ℚ,
      (Primitive.cylinder (⟨1, 2, ⟨3 / 5, -4 / 5, 0, 4 / 5, 3 / 5, 0, 0, 0, 1⟩, ⟨0, 0, 0⟩⟩ :
        Cylinder ℚ)).localSolid p →
      ((Primitive.cylinder (⟨1, 2, ⟨3 / 5, -4 / 5, 0, 4 / 5, 3 / 5, 0, 0, 0, 1⟩, ⟨0, 0, 0⟩⟩ :
        Cylinder ℚ)).shapePoint p).get 0 ≤ 1) ∧
    ¬ ∃ p : Vec3f ℚ,
      (Primitive.cylinder (⟨1, 2, ⟨3 / 5, -4 / 5, 0, 4 / 5, 3 / 5, 0, 0, 0, 1⟩, ⟨0, 0, 0⟩⟩ :
        Cylinder ℚ)).localSolid p ∧
      ((Primitive.cylinder (⟨1, 2, ⟨3 / 5, -4 / 5, 0, 4 / 5, 3 / 5, 0, 0, 0, 1⟩, ⟨0, 0, 0⟩⟩ :
        Cylinder ℚ)).shapePoint p).get 0 =
      (Primitive.cylinder (⟨1, 2, ⟨3 / 5, -4 / 5, 0, 4 / 5, 3 / 5, 0, 0, 0, 1⟩, ⟨0, 0, 0⟩⟩ :
        Cylinder ℚ)).computeBV_AABB.max_.get 0 := by
  have hmax : (Primitive.cylinder (⟨1, 2, ⟨3 / 5, -4 / 5, 0, 4 / 5, 3 / 5, 0, 0, 0, 1⟩,
      ⟨0, 0, 0⟩⟩ : Cylinder ℚ)).computeBV_AABB.max_.get 0 = 7 / 5 := by
    simp [Primitive.computeBV_AABB, computeBV_AABB_Cylinder, rangeBox, Vec3f.get]
    norm_num [abs_of_pos, abs_of_neg]
  have hle : ∀ p : Vec3f ℚ,
      (Primitive.cylinder (⟨1, 2, ⟨3 / 5, -4 / 5, 0, 4 / 5, 3 / 5, 0, 0, 0, 1⟩, ⟨0, 0, 0⟩⟩ :
        Cylinder ℚ)).localSolid p →
      ((Primitive.cylinder (⟨1, 2, ⟨3 / 5, -4 / 5, 0, 4 / 5, 3 / 5, 0, 0, 0, 1⟩, ⟨0, 0, 0⟩⟩ :
        Cylinder ℚ)).shapePoint p).get 0 ≤ 1 := by
    intro p hp
    obtain ⟨_, hp⟩ := hp
    simp only [Primitive.shapePoint, Primitive.getLocalRotation, Primitive.getLocalPosition,
      Matrix3f.MxV, Matrix3f.row, Vec3f.dot, Vec3f.get, Vec3f.add_x] at hp ⊢
    nlinarith [sq_nonneg (4 / 5 * p.x + 3 / 5 * p.y), sq_nonneg (3 / 5 * p.x - 4 / 5 * p.y - 1)]
  refine ⟨?_, hmax, hle, ?_⟩
  · simp [Primitive.getLocalRotation, Matrix3f.IsOrthonormal, Matrix3f.row, Vec3f.dot]
    norm_num
  · rintro ⟨p, hp, e⟩
    have := hle p hp
    rw [e, hmax] at this
    norm_num at this

/-! ### The AABB of a convex hull and of a plane -/

theorem extend_min_get (bv : AABB K) (p : Vec3f K) (k : Fin 3) :
    (bv.extend p).min_.get k = min (bv.min_.get k) (p.get k) := by
  fin_cases k <;> rfl

theorem extend_max_get (bv : AABB K) (p : Vec3f K) (k : Fin 3) :
    (bv.extend p).max_.get k = max (bv.max_.get k) (p.get k) := by
  fin_cases k <;> rfl

/-- Along one axis the accumulation over the vertices is a running minimum. -/
theorem foldl_extend_min_get (g : Vec3f K → Vec3f K) (k : Fin 3) :
    ∀ (l : List (Vec3f K)) (bv : AABB K),
      (l.foldl (fun b v => b.extend (g v)) bv).min_.get k =
        l.foldl (fun a v => min a ((g v).get k)) (bv.min_.get k)
  | [], _ => rfl
  | v :: l, bv => by
    simp only [List.foldl_cons]
    rw [foldl_extend_min_get g k l, extend_min_get]

/-- Along one axis the accumulation over the vertices is a running maximum. -/
theorem foldl_extend_max_get (g : Vec3f K → Vec3f K) (k : Fin 3) :
    ∀ (l : List (Vec3f K)) (bv : AABB K),
      (l.foldl (fun b v => b.extend (g v)) bv).max_.get k =
        l.foldl (fun a v => max a ((g v).get k)) (bv.max_.get k)
  | [], _ => rfl
  | v :: l, bv => by
    simp only [List.foldl_cons]
    rw [foldl_extend_max_get g k l, extend_max_get]

/-- A running minimum is below its start and below every element. -/
theorem foldl_min_le {α : Type} (h : α → K) :
    ∀ (l : List α) (a : K),
      l.foldl (fun a v => min a (h v)) a ≤ a ∧
      ∀ v ∈ l, l.foldl (fun a v => min a (h v)) a ≤ h v
  | [], a => ⟨le_refl a, fun _ hv => absurd hv (List.not_mem_nil _)⟩
  | w :: l, a => by
    obtain ⟨h1, h2⟩ := foldl_min_le h l (min a (h w))
    simp only [List.foldl_cons]
    refine ⟨le_trans h1 (min_le_left _ _), ?_⟩
    intro v hv
    rcases List.mem_cons.mp hv with rfl | hv
    · exact le_trans h1 (min_le_right _ _)
    · exact h2 v hv

/-- A running minimum is its start or one of the elements. -/
theorem foldl_min_attained {α : Type} (h : α → K) :
    ∀ (l : List α) (a : K),
      l.foldl (fun a v => min a (h v)) a = a ∨
      ∃ v ∈ l, l.foldl (fun a v => min a (h v)) a = h v
  | [], a => Or.inl rfl
  | w :: l, a => by
    simp only [List.foldl_cons]
    rcases foldl_min_attained h l (min a (h w)) with h1 | ⟨v, hv, h1⟩
    · rcases min_choice a (h w) with h2 | h2
      · exact Or.inl (by rw [h1, h2])
      · exact Or.inr ⟨w, List.mem_cons_self _ _, by rw [h1, h2]⟩
    · exact Or.inr ⟨v, List.mem_cons_of_mem _ hv, h1⟩

/-- A running maximum is above its start and above every element. -/
theorem le_foldl_max {α : Type} (h : α → K) :
    ∀ (l : List α) (a : K),
      a ≤ l.foldl (fun a v => max a (h v)) a ∧
      ∀ v ∈ l, h v ≤ l.foldl (fun a v => max a (h v)) a
  | [], a => ⟨le_refl a, fun _ hv => absurd hv (List.not_mem_nil _)⟩
  | w :: l, a => by
    obtain ⟨h1, h2⟩ := le_foldl_max h l (max a (h w))
    simp only [List.foldl_cons]
    refine ⟨le_trans (le_max_left _ _) h1, ?_⟩
    intro v hv
    rcases List.mem_cons.mp hv with rfl | hv
    · exact le_trans (le_max_right _ _) h1
    · exact h2 v hv

/-- A running maximum is its start or one of the elements. -/
theorem foldl_max_attained {α : Type} (h : α → K) :
    ∀ (l : List α) (a : K),
      l.foldl (fun a v => max a (h v)) a = a ∨
      ∃ v ∈ l, l.foldl (fun a v => max a (h v)) a = h v
  | [], a => Or.inl rfl
  | w :: l, a => by
    simp only [List.foldl_cons]
    rcases foldl_max_attained h l (max a (h w)) with h1 | ⟨v, hv, h1⟩
    · rcases max_choice a (h w) with h2 | h2
      · exact Or.inl (by rw [h1, h2])
      · exact Or.inr ⟨w, List.mem_cons_self _ _, by rw [h1, h2]⟩
    · exact Or.inr ⟨v, List.mem_cons_of_mem _ hv, h1⟩

theorem default_min_get (maxReal : K) (k : Fin 3) :
    (AABB.default maxReal).min_.get k = maxReal := by
  fin_cases k <;> rfl

theorem default_max_get (maxReal : K) (k : Fin 3) :
    (AABB.default maxReal).max_.get k = -maxReal := by
  fin_cases k <;> rfl

theorem encloses_iff_get (bv : AABB K) (q : Vec3f K) :
    bv.Encloses q ↔ ∀ k : Fin 3, bv.min_.get k ≤ q.get k ∧ q.get k ≤ bv.max_.get k := by
  constructor
  · intro h k
    fin_cases k
    · exact h.1
    · exact h.2.1
    · exact h.2.2
  · intro h
    exact ⟨h 0, h 1, h 2⟩

/-- C18: for every convex hull with at least one vertex, any local rotation `R` and position
`T`, with the coordinates of the transformed vertices within `±max-real`, `computeBV<AABB>`
returns exactly the componentwise minimum and maximum over the transformed vertices
`R·v_i + T`: every transformed vertex is inside the box, and on every axis each of the two
bounds is attained by some vertex. -/
theorem computeBV_AABB_Convex_exact (maxReal : K) (s : Convex K) (hne : s.points ≠ [])
    (hrange : ∀ v ∈ s.points, ∀ k : Fin 3, |(s.transformed v).get k| ≤ maxReal) :
    (∀ v ∈ s.points, (computeBV_AABB_Convex maxReal s).Encloses (s.transformed v)) ∧
    ∀ k : Fin 3,
      (∃ v ∈ s.points, (computeBV_AABB_Convex maxReal s).min_.get k = (s.transformed v).get k) ∧
      (∃ v ∈ s.points, (computeBV_AABB_Convex maxReal s).max_.get k = (s.transformed v).get k) := by
  have hmin : ∀ k : Fin 3, (computeBV_AABB_Convex maxReal s).min_.get k =
      s.points.foldl (fun a v => min a ((s.transformed v).get k)) maxReal := by
    intro k
    unfold computeBV_AABB_Convex
    rw [foldl_extend_min_get s.transformed k, default_min_get]
  have hmax : ∀ k : Fin 3, (computeBV_AABB_Convex maxReal s).max_.get k =
      s.points.foldl (fun a v => max a ((s.transformed v).get k)) (-maxReal) := by
    intro k
    unfold computeBV_AABB_Convex
    rw [foldl_extend_max_get s.transformed k, default_max_get]
  obtain ⟨v0, hv0⟩ := List.exists_mem_of_ne_nil _ hne
  refine ⟨?_, ?_⟩
  · intro v hv
    rw [encloses_iff_get]
    intro k
    rw [hmin, hmax]
    exact ⟨(foldl_min_le (fun v => (s.transformed v).get k) s.points maxReal).2 v hv,
      (le_foldl_max (fun v => (s.transformed v).get k) s.points (-maxReal)).2 v hv⟩
  · intro k
    rw [hmin, hmax]
    constructor
    · rcases foldl_min_attained (fun v => (s.transformed v).get k) s.points maxReal with
        h | h
      · refine ⟨v0, hv0, le_antisymm
          ((foldl_min_le (fun v => (s.transformed v).get k) s.points maxReal).2 v0 hv0) ?_⟩
        rw [h]
        exact (abs_le.mp (hrange v0 hv0 k)).2
      · exact h
    · rcases foldl_max_attained (fun v => (s.transformed v).get k) s.points (-maxReal) with
        h | h
      · refine ⟨v0, hv0, le_antisymm ?_
          ((le_foldl_max (fun v => (s.transformed v).get k) s.points (-maxReal)).2 v0 hv0)⟩
        rw [h]
        exact (abs_le.mp (hrange v0 hv0 k)).1
      · exact h

/-- Witness of C18: the hull of the vertices (1, 0, 0), (0, 2, 0) and (0, 0, 3), rotated by a
quarter turn about x and moved by (1, 1, 1), with `max-real` taken as 100: the transformed
vertices are (2, 1, 1), (1, 1, 3) and (1, -2, 1) and the box runs from (1, -2, 1) to
(2, 1, 3). -/
theorem computeBV_AABB_Convex_exact_witness :
    computeBV_AABB_Convex (100 : ℚ)
      ⟨[⟨1, 0, 0⟩, ⟨0, 2, 0⟩, ⟨0, 0, 3⟩], ⟨1, 0, 0, 0, 0, -1, 0, 1, 0⟩, ⟨1, 1, 1⟩⟩ =
      ⟨⟨1, -2, 1⟩, ⟨2, 1, 3⟩⟩ ∧
    ((∀ v ∈ [(⟨1, 0, 0⟩ : Vec3f ℚ), ⟨0, 2, 0⟩, ⟨0, 0, 3⟩],
      (computeBV_AABB_Convex (100 : ℚ)
        ⟨[⟨1, 0, 0⟩, ⟨0, 2, 0⟩, ⟨0, 0, 3⟩], ⟨1, 0, 0, 0, 0, -1, 0, 1, 0⟩, ⟨1, 1, 1⟩⟩).Encloses
        (Convex.transformed
          ⟨[⟨1, 0, 0⟩, ⟨0, 2, 0⟩, ⟨0, 0, 3⟩], ⟨1, 0, 0, 0, 0, -1, 0, 1, 0⟩, ⟨1, 1, 1⟩⟩ v)) ∧
    ∀ k : Fin 3,
      (∃ v ∈ [(⟨1, 0, 0⟩ : Vec3f ℚ), ⟨0, 2, 0⟩, ⟨0, 0, 3⟩],
        (computeBV_AABB_Convex (100 : ℚ)
          ⟨[⟨1, 0, 0⟩, ⟨0, 2, 0⟩, ⟨0, 0, 3⟩], ⟨1, 0, 0, 0, 0, -1, 0, 1, 0⟩,
            ⟨1, 1, 1⟩⟩).min_.get k =
        (Convex.transformed
          ⟨[⟨1, 0, 0⟩, ⟨0, 2, 0⟩, ⟨0, 0, 3⟩], ⟨1, 0, 0, 0, 0, -1, 0, 1, 0⟩, ⟨1, 1, 1⟩⟩ v).get k) ∧
      (∃ v ∈ [(⟨1, 0, 0⟩ : Vec3f ℚ), ⟨0, 2, 0⟩, ⟨0, 0, 3⟩],
        (computeBV_AABB_Convex (100 : ℚ)
          ⟨[⟨1, 0, 0⟩, ⟨0, 2, 0⟩, ⟨0, 0, 3⟩], ⟨1, 0, 0, 0, 0, -1, 0, 1, 0⟩,
            ⟨1, 1, 1⟩⟩).max_.get k =
        (Convex.transformed
          ⟨[⟨1, 0, 0⟩, ⟨0, 2, 0⟩, ⟨0, 0, 3⟩], ⟨1, 0, 0, 0, 0, -1, 0, 1, 0⟩, ⟨1, 1, 1⟩⟩ v).get k)) := by
  refine ⟨?_, computeBV_AABB_Convex_exact (100 : ℚ)
    ⟨[⟨1, 0, 0⟩, ⟨0, 2, 0⟩, ⟨0, 0, 3⟩], ⟨1, 0, 0, 0, 0, -1, 0, 1, 0⟩, ⟨1, 1, 1⟩⟩ ?_ ?_⟩
  · simp [computeBV_AABB_Convex, AABB.default, AABB.extend, Convex.transformed, Matrix3f.MxV,
      Matrix3f.row, Vec3f.dot]
    norm_num
  · simp
  · intro v hv k
    simp only [List.mem_cons, List.mem_singleton, List.not_mem_nil, or_false] at hv
    rcases hv with rfl | rfl | rfl <;> fin_cases k <;>
      simp [Convex.transformed, Matrix3f.MxV, Matrix3f.row, Vec3f.dot, Vec3f.get] <;>
      norm_num [abs_le]

/-- C19 (the code against the claim): with `max-real > 0`, the box that `computeBV<AABB>`
returns for a plane is never the box of the specification. It is built from the
default-constructed `AABB` from which the convex-hull accumulation starts, whose bounds are
`min_ = +max-real` and `max_ = -max-real`; the code overwrites at most one bound of one axis,
so that some axis keeps both default bounds: there the box is inverted (`min_ = +max-real`,
`max_ = -max-real`) instead of unbounded (`min_ = -max-real`, `max_ = +max-real`). -/
theorem computeBV_AABB_Plane_inverted (maxReal : K) (hM : 0 < maxReal) (s : Plane K) :
    ¬ IsPlaneBox maxReal s (computeBV_AABB_Plane maxReal s) ∧
    ∃ k : Fin 3, (computeBV_AABB_Plane maxReal s).min_.get k = maxReal ∧
      (computeBV_AABB_Plane maxReal s).max_.get k = -maxReal := by
  have hne : maxReal ≠ -maxReal := by
    intro h; linarith
  have key : ∃ k : Fin 3, (computeBV_AABB_Plane maxReal s).min_.get k = maxReal ∧
      (computeBV_AABB_Plane maxReal s).max_.get k = -maxReal ∧
      ¬ ((∀ j : Fin 3, j ≠ k → s.n.get j = 0) ∧ s.n.get k < 0) := by
    unfold computeBV_AABB_Plane
    dsimp only
    split_ifs with h1 h2 h3 h4 h5 h6 h7 h8 h9
    · exact ⟨1, rfl, rfl, fun h => by
        have : s.n.get 1 = s.n.y := rfl
        rw [this, h1.1] at h; exact lt_irrefl _ h.2⟩
    · exact ⟨1, rfl, rfl, fun h => by
        have : s.n.get 1 = s.n.y := rfl
        rw [this, h1.1] at h; exact lt_irrefl _ h.2⟩
    · exact ⟨1, rfl, rfl, fun h => by
        have : s.n.get 1 = s.n.y := rfl
        rw [this, h1.1] at h; exact lt_irrefl _ h.2⟩
    · exact ⟨0, rfl, rfl, fun h => by
        have : s.n.get 0 = s.n.x := rfl
        rw [this, h4.1] at h; exact lt_irrefl _ h.2⟩
    · exact ⟨0, rfl, rfl, fun h => by
        have : s.n.get 0 = s.n.x := rfl
        rw [this, h4.1] at h; exact lt_irrefl _ h.2⟩
    · exact ⟨0, rfl, rfl, fun h => by
        have : s.n.get 0 = s.n.x := rfl
        rw [this, h4.1] at h; exact lt_irrefl _ h.2⟩
    · exact ⟨0, rfl, rfl, fun h => by
        have : s.n.get 0 = s.n.x := rfl
        rw [this, h7.1] at h; exact lt_irrefl _ h.2⟩
    · exact ⟨0, rfl, rfl, fun h => by
        have : s.n.get 0 = s.n.x := rfl
        rw [this, h7.1] at h; exact lt_irrefl _ h.2⟩
    · exact ⟨0, rfl, rfl, fun h => by
        have : s.n.get 0 = s.n.x := rfl
        rw [this, h7.1] at h; exact lt_irrefl _ h.2⟩
    · exact ⟨0, rfl, rfl, fun h => h1 ⟨h.1 1 (by decide), h.1 2 (by decide)⟩⟩
  obtain ⟨k, hmin, hmax, hcond⟩ := key
  refine ⟨fun h => ?_, k, hmin, hmax⟩
  have := (h k).1
  rw [if_neg hcond, hmin] at this
  exact hne this

/-- Witness of C19: the plane `z = 1` (normal (0, 0, 1), offset 1) with `max-real` taken as
100. The code returns the box from (100, 100, 100) to (-100, -100, 1), which is not the box of
the specification; the box from (-100, -100, -100) to (100, 100, 1) is. -/
theorem computeBV_AABB_Plane_inverted_witness :
    computeBV_AABB_Plane (100 : ℚ) ⟨⟨0, 0, 1⟩, 1, Matrix3f.identity, ⟨0, 0, 0⟩⟩ =
      ⟨⟨100, 100, 100⟩, ⟨-100, -100, 1⟩⟩ ∧
    IsPlaneBox (100 : ℚ) ⟨⟨0, 0, 1⟩, 1, Matrix3f.identity, ⟨0, 0, 0⟩⟩
      ⟨⟨-100, -100, -100⟩, ⟨100, 100, 1⟩⟩ ∧
    ¬ IsPlaneBox (100 : ℚ) ⟨⟨0, 0, 1⟩, 1, Matrix3f.identity, ⟨0, 0, 0⟩⟩
      (computeBV_AABB_Plane (100 : ℚ) ⟨⟨0, 0, 1⟩, 1, Matrix3f.identity, ⟨0, 0, 0⟩⟩) := by
  refine ⟨?_, ?_, (computeBV_AABB_Plane_inverted (100 : ℚ) (by norm_num)
    ⟨⟨0, 0, 1⟩, 1, Matrix3f.identity, ⟨0, 0, 0⟩⟩).1⟩
  · simp [computeBV_AABB_Plane, AABB.default]
  · intro k
    fin_cases k
    · simp [Vec3f.get, Fin.forall_fin_succ]
    · simp [Vec3f.get, Fin.forall_fin_succ]
    · simp [Vec3f.get, Fin.forall_fin_succ]
      norm_num

/-! ### The oriented box of a plane -/

/-- The reciprocal length has a finite value when its argument is positive. -/
theorem invLength_of_pos (sqrt : K → K) (hsqrt : IsSqrt sqrt) (x : K) (hx : 0 < x) :
    invLength sqrt x = some (1 / sqrt x) ∧ sqrt x ≠ 0 := by
  have h : sqrt x ≠ 0 := fun h0 =>
    hx.ne' ((hsqrt.sqrt_eq_zero_iff x hx.le).mp h0)
  exact ⟨if_neg h, h⟩

/-- The divisor of the first branch is positive for a non-zero normal. -/
theorem plane_first_divisor_pos (w : Vec3f K) (hn : w ≠ 0) (h : |w.x| ≥ |w.y|) :
    0 < w.x * w.x + w.z * w.z := by
  rcases (add_nonneg (mul_self_nonneg w.x) (mul_self_nonneg w.z)).lt_or_eq with h0 | h0
  · exact h0
  · exfalso
    have hx : w.x = 0 := by
      have := mul_self_nonneg w.z
      exact mul_self_eq_zero.mp (le_antisymm (by linarith) (mul_self_nonneg w.x))
    have hz : w.z = 0 := by
      have := mul_self_nonneg w.x
      exact mul_self_eq_zero.mp (le_antisymm (by linarith) (mul_self_nonneg w.z))
    have hy : w.y = 0 := by
      rw [hx, abs_zero] at h
      exact abs_eq_zero.mp (le_antisymm h (abs_nonneg _))
    exact hn (Vec3f.ext hx hy hz)

/-- The divisor of the second branch is positive. -/
theorem plane_second_divisor_pos (w : Vec3f K) (h : ¬ |w.x| ≥ |w.y|) :
    0 < w.y * w.y + w.z * w.z := by
  have hy : w.y ≠ 0 := by
    intro h0
    rw [h0, abs_zero] at h
    exact h (abs_nonneg _)
  have := mul_self_pos.mpr hy
  have := mul_self_nonneg w.z
  linarith

/-- C23: for every plane with a non-zero normal `w`, `computeBV<OBB>` never divides by zero
in either branch (selected by `|w.x| ≥ |w.y|`): it returns a box, whose axes are `(w, u, v)`
with `v = w × u`, `u` a unit vector orthogonal to `w`, and whose extents are
`(0, max-real, max-real)`; for a unit normal the three axes are mutually orthogonal unit
vectors. -/
theorem computeBV_OBB_Plane_axes (sqrt : K → K) (hsqrt : IsSqrt sqrt) (maxReal : K)
    (s : Plane K) (hn : s.n ≠ 0) :
    ∃ bv : OBB K, computeBV_OBB_Plane sqrt maxReal s = some bv ∧
      bv.axis0 = s.n ∧ bv.axis2 = bv.axis0.cross bv.axis1 ∧
      bv.axis1.dot bv.axis1 = 1 ∧ bv.axis0.dot bv.axis1 = 0 ∧
      bv.extent = ⟨0, maxReal, maxReal⟩ ∧
      (s.n.dot s.n = 1 → IsOrthonormalTriple bv.axis0 bv.axis1 bv.axis2) := by
  have htriple : ∀ w u : Vec3f K, u.dot u = 1 → w.dot u = 0 → w.dot w = 1 →
      IsOrthonormalTriple w u (w.cross u) := by
    intro w u hu hwu hw
    refine ⟨hw, hu, ?_, hwu, Vec3f.dot_cross_left w u, Vec3f.dot_cross_right w u⟩
    rw [Vec3f.cross_dot_self, hw, hu, hwu]
    ring
  unfold computeBV_OBB_Plane
  dsimp only
  split_ifs with hb
  · have hpos := plane_first_divisor_pos s.n hn hb
    obtain ⟨hinv, hL⟩ := invLength_of_pos sqrt hsqrt _ hpos
    have hLL := hsqrt.sqrt_mul_self _ hpos.le
    rw [hinv]
    have hv : (⟨s.n.y * (s.n.x * (1 / sqrt (s.n.x * s.n.x + s.n.z * s.n.z))),
        s.n.z * (-s.n.z * (1 / sqrt (s.n.x * s.n.x + s.n.z * s.n.z))) -
          s.n.x * (s.n.x * (1 / sqrt (s.n.x * s.n.x + s.n.z * s.n.z))),
        -s.n.y * (-s.n.z * (1 / sqrt (s.n.x * s.n.x + s.n.z * s.n.z)))⟩ : Vec3f K) =
        s.n.cross ⟨-s.n.z * (1 / sqrt (s.n.x * s.n.x + s.n.z * s.n.z)), 0,
          s.n.x * (1 / sqrt (s.n.x * s.n.x + s.n.z * s.n.z))⟩ := by
      ext <;> simp only [Vec3f.cross] <;> ring
    have hu : (⟨-s.n.z * (1 / sqrt (s.n.x * s.n.x + s.n.z * s.n.z)), 0,
        s.n.x * (1 / sqrt (s.n.x * s.n.x + s.n.z * s.n.z))⟩ : Vec3f K).dot
        ⟨-s.n.z * (1 / sqrt (s.n.x * s.n.x + s.n.z * s.n.z)), 0,
          s.n.x * (1 / sqrt (s.n.x * s.n.x + s.n.z * s.n.z))⟩ = 1 := by
      simp only [Vec3f.dot]
      field_simp
      linear_combination -hLL
    have hwu : s.n.dot ⟨-s.n.z * (1 / sqrt (s.n.x * s.n.x + s.n.z * s.n.z)), 0,
        s.n.x * (1 / sqrt (s.n.x * s.n.x + s.n.z * s.n.z))⟩ = 0 := by
      simp only [Vec3f.dot]
      ring
    refine ⟨_, rfl, rfl, hv, hu, hwu, rfl, fun hw => ?_⟩
    simp only [hv]
    exact htriple _ _ hu hwu hw
  · have hpos := plane_second_divisor_pos s.n hb
    obtain ⟨hinv, hL⟩ := invLength_of_pos sqrt hsqrt _ hpos
    have hLL := hsqrt.sqrt_mul_self _ hpos.le
    rw [hinv]
    have hv : (⟨s.n.y * (-s.n.y * (1 / sqrt (s.n.y * s.n.y + s.n.z * s.n.z))) -
          s.n.z * (s.n.z * (1 / sqrt (s.n.y * s.n.y + s.n.z * s.n.z))),
        -s.n.x * (-s.n.y * (1 / sqrt (s.n.y * s.n.y + s.n.z * s.n.z))),
        s.n.x * (s.n.z * (1 / sqrt (s.n.y * s.n.y + s.n.z * s.n.z)))⟩ : Vec3f K) =
        s.n.cross ⟨0, s.n.z * (1 / sqrt (s.n.y * s.n.y + s.n.z * s.n.z)),
          -s.n.y * (1 / sqrt (s.n.y * s.n.y + s.n.z * s.n.z))⟩ := by
      ext <;> simp only [Vec3f.cross] <;> ring
    have hu : (⟨0, s.n.z * (1 / sqrt (s.n.y * s.n.y + s.n.z * s.n.z)),
        -s.n.y * (1 / sqrt (s.n.y * s.n.y + s.n.z * s.n.z))⟩ : Vec3f K).dot
        ⟨0, s.n.z * (1 / sqrt (s.n.y * s.n.y + s.n.z * s.n.z)),
          -s.n.y * (1 / sqrt (s.n.y * s.n.y + s.n.z * s.n.z))⟩ = 1 := by
      simp only [Vec3f.dot]
      field_simp
      linear_combination -hLL
    have hwu : s.n.dot ⟨0, s.n.z * (1 / sqrt (s.n.y * s.n.y + s.n.z * s.n.z)),
        -s.n.y * (1 / sqrt (s.n.y * s.n.y + s.n.z * s.n.z))⟩ = 0 := by
      simp only [Vec3f.dot]
      ring
    refine ⟨_, rfl, rfl, hv, hu, hwu, rfl, fun hw => ?_⟩
    simp only [hv]
    exact htriple _ _ hu hwu hw

/-- Witness of C23: the plane `z = 1` (unit normal (0, 0, 1), offset 1) over the real numbers,
with `max-real` taken as 100: the first branch is taken, the divisor is `sqrt 1`, and the box
has centre (0, 0, 1), axes (0, 0, 1), (-1, 0, 0), (0, -1, 0) and extents (0, 100, 100). -/
theorem computeBV_OBB_Plane_axes_witness :
    computeBV_OBB_Plane Real.sqrt (100 : ℝ) ⟨⟨0, 0, 1⟩, 1, Matrix3f.identity, ⟨0, 0, 0⟩⟩ =
      some ⟨⟨0, 0, 1⟩, ⟨0, 0, 1⟩, ⟨-1, 0, 0⟩, ⟨0, -1, 0⟩, ⟨0, 100, 100⟩⟩ ∧
    ∃ bv : OBB ℝ,
      computeBV_OBB_Plane Real.sqrt (100 : ℝ) ⟨⟨0, 0, 1⟩, 1, Matrix3f.identity, ⟨0, 0, 0⟩⟩ =
        some bv ∧
      bv.axis0 = ⟨0, 0, 1⟩ ∧ bv.axis2 = bv.axis0.cross bv.axis1 ∧
      bv.axis1.dot bv.axis1 = 1 ∧ bv.axis0.dot bv.axis1 = 0 ∧
      bv.extent = ⟨0, 100, 100⟩ ∧
      ((⟨0, 0, 1⟩ : Vec3f ℝ).dot ⟨0, 0, 1⟩ = 1 →
        IsOrthonormalTriple bv.axis0 bv.axis1 bv.axis2) := by
  refine ⟨?_, computeBV_OBB_Plane_axes Real.sqrt isSqrt_real (100 : ℝ)
    ⟨⟨0, 0, 1⟩, 1, Matrix3f.identity, ⟨0, 0, 0⟩⟩ ?_⟩
  · simp [computeBV_OBB_Plane, invLength, Matrix3f.MxV, Matrix3f.row, Matrix3f.identity,
      Vec3f.dot, Vec3f.ext_iff]
  · intro h
    have := congrArg Vec3f.z h
    simp at this

/-! ### The cached AABB -/

/-- Every corner of a box is at the same distance from its centre as the corner `min_`. -/
theorem corner_distance (sqrt : K → K) (bv : AABB K) :
    IsFarthestCornerDistance sqrt bv bv.center ((bv.min_ - bv.center).norm sqrt) := by
  constructor
  · exact ⟨⟨bv.min_.x, bv.min_.y, bv.min_.z⟩, List.mem_cons_self _ _, rfl⟩
  · intro q hq
    apply le_of_eq
    unfold Vec3f.norm
    congr 1
    simp only [AABB.corners, List.mem_cons, List.mem_singleton, List.not_mem_nil,
      or_false] at hq
    rcases hq with rfl | rfl | rfl | rfl | rfl | rfl | rfl | rfl <;>
      simp only [Vec3f.squaredNorm, Vec3f.dot, AABB.center, Vec3f.sub_x, Vec3f.sub_y,
        Vec3f.sub_z, Vec3f.smul_x, Vec3f.smul_y, Vec3f.smul_z, Vec3f.add_x, Vec3f.add_y,
        Vec3f.add_z] <;>
      ring

/-- C24 (amended): for every shape variant (box, sphere, capsule, cone, cylinder, convex,
plane), after `computeAABB` the fields `aabb` and `aabb_cache` equal the freshly computed
AABB and `aabb_center` equals that AABB's centre; for every variant but the sphere
`aabb_radius` equals the distance from that centre to the farthest corner of the AABB (all
eight corners are equally far); for the sphere `aabb_radius` is the radius of the sphere. -/
theorem computeAABB_cache (sqrt : K → K) (maxReal : K) (v : Shape K) :
    (v.computeAABB sqrt maxReal).aabb = v.computeBV_AABB maxReal ∧
    (v.computeAABB sqrt maxReal).aabb_cache = v.computeBV_AABB maxReal ∧
    (v.computeAABB sqrt maxReal).aabb_center = (v.computeBV_AABB maxReal).center ∧
    ((∀ s : Sphere K, v ≠ Shape.sphere s) →
      IsFarthestCornerDistance sqrt (v.computeAABB sqrt maxReal).aabb
        (v.computeAABB sqrt maxReal).aabb_center (v.computeAABB sqrt maxReal).aabb_radius) ∧
    (∀ s : Sphere K, v = Shape.sphere s →
      (v.computeAABB sqrt maxReal).aabb_radius = s.radius) := by
  cases v with
  | sphere s =>
    refine ⟨rfl, rfl, rfl, fun h => absurd rfl (h s), ?_⟩
    intro s' h
    cases h
    rfl
  | box s => exact ⟨rfl, rfl, rfl, fun _ => corner_distance sqrt _, fun _ h => by cases h⟩
  | capsule s => exact ⟨rfl, rfl, rfl, fun _ => corner_distance sqrt _, fun _ h => by cases h⟩
  | cone s => exact ⟨rfl, rfl, rfl, fun _ => corner_distance sqrt _, fun _ h => by cases h⟩
  | cylinder s => exact ⟨rfl, rfl, rfl, fun _ => corner_distance sqrt _, fun _ h => by cases h⟩
  | convex s => exact ⟨rfl, rfl, rfl, fun _ => corner_distance sqrt _, fun _ h => by cases h⟩
  | plane s => exact ⟨rfl, rfl, rfl, fun _ => corner_distance sqrt _, fun _ h => by cases h⟩

/-- Counterexample to C24 as stated: for the sphere of radius 1 at the origin, `computeAABB`
sets `aabb_radius = 1`, while the corner (-1, -1, -1) of its AABB lies at distance `sqrt 3`
from the centre. -/
theorem computeAABB_cache_counterexample :
    ((Shape.sphere ⟨1, Matrix3f.identity, ⟨0, 0, 0⟩⟩ : Shape ℝ).computeAABB Real.sqrt
      100).aabb_radius = 1 ∧
    ¬ IsFarthestCornerDistance Real.sqrt
      ((Shape.sphere ⟨1, Matrix3f.identity, ⟨0, 0, 0⟩⟩ : Shape ℝ).computeAABB Real.sqrt
        100).aabb
      ((Shape.sphere ⟨1, Matrix3f.identity, ⟨0, 0, 0⟩⟩ : Shape ℝ).computeAABB Real.sqrt
        100).aabb_center
      ((Shape.sphere ⟨1, Matrix3f.identity, ⟨0, 0, 0⟩⟩ : Shape ℝ).computeAABB Real.sqrt
        100).aabb_radius := by
  refine ⟨rfl, ?_⟩
  rintro ⟨_, h⟩
  have hq := h ⟨-1, -1, -1⟩ (by
    simp [Shape.computeAABB, Sphere.computeAABB, computeBV_AABB_Sphere, rangeBox,
      AABB.corners, Vec3f.ext_iff])
  have hsq : ((⟨-1, -1, -1⟩ : Vec3f ℝ) -
      ((Shape.sphere ⟨1, Matrix3f.identity, ⟨0, 0, 0⟩⟩ : Shape ℝ).computeAABB Real.sqrt
        100).aabb_center).squaredNorm = 3 := by
    simp [Shape.computeAABB, Sphere.computeAABB, computeBV_AABB_Sphere, rangeBox,
      AABB.center, Vec3f.squaredNorm, Vec3f.dot]
    norm_num
  have hr : ((Shape.sphere ⟨1, Matrix3f.identity, ⟨0, 0, 0⟩⟩ : Shape ℝ).computeAABB
      Real.sqrt 100).aabb_radius = 1 := rfl
  rw [hr] at hq
  unfold Vec3f.norm at hq
  rw [hsq] at hq
  have h3 := Real.sq_sqrt (show (0 : ℝ) ≤ 3 by norm_num)
  nlinarith [Real.sqrt_nonneg 3]

end fcl
